import Mathlib

/-!
# Schema definition and generation (`src/schema.js`)

A shallow embedding of `defineSchema`, `hasMany`, `getRelatedThrough`,
`isRelatedTo`, `getRelation`, `generateSchema` and `generateSchemas`.

JavaScript values are the inductive type `Val`; thrown exceptions are the
`Except.error` results of type `Err`.  The schema nodes that `generateSchemas`
allocates are mutated in place and may refer to each other cyclically, so they
live in an explicit heap (`Heap`, a list of `Node`s addressed by position) that
is passed from step to step.

Scope of the value model: an object is a plain object, given by its own
enumerable properties in the order of creation; reading it follows the language:
enumeration (`Object.keys`, spread) lists the names that are array indices first,
in ascending order (`propertyOrder`), a member read falls back on the members
inherited from `Object.prototype` (`inheritedMember`), and an own property named
`hasOwnProperty` replaces the inherited method.  Functions are opaque: they are
told apart by a number, and a call of a function of the caller is outside the
model (`Err.callerCode`).  Numbers are integers or `NaN` (only their type and
truthiness are ever inspected by the code).
-/

namespace EntitiesManager

/-! ## Values and errors -/

/-- JavaScript values a caller can pass to the exported functions. -/
inductive Val where
  | undefined
  | null
  | bool (b : Bool)
  | num (n : Int)
  | nan
  | str (s : String)
  | func (id : Nat)
  | arr (xs : List Val)
  | obj (ps : List (String × Val))
  deriving Repr

/-- Results of the `typeof` operator. -/
inductive JsType where
  | undefined | object | boolean | number | string | function
  deriving DecidableEq, Repr

/-- Exceptions the code can raise. -/
inductive Err where
  /-- The error thrown as `[INVALID NAME]`. -/
  | invalidName
  /-- The error thrown as `[INVALID ATTRIBUTES]`. -/
  | invalidAttributes
  /-- The error thrown as `[INVALID SCHEMA]`. -/
  | invalidSchema
  /-- The error thrown as `[INVALID SCHEMAS]`. -/
  | invalidSchemas
  /-- A `TypeError` of the language runtime (member access on `undefined` or `null`,
  call of something that is not a function, rejected property definition) -/
  | typeError
  /-- The normalization library rejects the key given to `new Schema` -/
  | schemaKey
  /-- The normalization library rejects the item schema given to `arrayOf` -/
  | itemSchema
  /-- The code calls a function supplied by the caller (an own property that replaces
  a built-in method); what that function does is outside the model, and no
  statement is made about such a run -/
  | callerCode
  deriving DecidableEq, Repr

/-- The `typeof` operator. -/
def typeOf : Val → JsType
  | .undefined => .undefined
  | .null => .object
  | .bool _ => .boolean
  | .num _ => .number
  | .nan => .number
  | .str _ => .string
  | .func _ => .function
  | .arr _ => .object
  | .obj _ => .object

/-- Truthiness of a value (what `if (v)` and `&& v` test). -/
def truthy : Val → Bool
  | .undefined => false
  | .null => false
  | .bool b => b
  | .num n => n != 0
  | .nan => false
  | .str s => s != ""
  | .func _ => true
  | .arr _ => true
  | .obj _ => true

/-- Modelled from the spec: `isEmpty` of the utility library the code imports
(`lodash/isEmpty`), which the spec calls "empty/absent".  Following the library's
contract: `null` and `undefined` are empty, arrays and strings are empty when
their length is 0, objects are empty when they have no own enumerable
properties, and every other value (numbers, booleans, functions) is empty. -/
def isEmpty : Val → Bool
  | .undefined => true
  | .null => true
  | .bool _ => true
  | .num _ => true
  | .nan => true
  | .str s => s.data.isEmpty
  | .func _ => true
  | .arr xs => xs.isEmpty
  | .obj ps => ps.isEmpty

/-- The value of a decimal numeral given by its digits. -/
def decimalValue (cs : List Char) : Nat :=
  cs.foldl (fun n c => 10 * n + (c.toNat - 48)) 0

/-- The array index that a property name denotes, if any: the name is the canonical
decimal numeral (digits only, no leading zero) of a number below `2^32 - 1`. -/
def arrayIndex (k : String) : Option Nat :=
  match k.data with
  | [] => none
  | c :: cs =>
    if (c :: cs).all Char.isDigit && (c != '0' || cs.isEmpty)
        && decide (decimalValue (c :: cs) < 4294967295) then
      some (decimalValue (c :: cs))
    else none

/-- Insertion of `x` into a list sorted by `index`, before the first element that is
not smaller. -/
def insertByIndex {α : Type} (index : α → Nat) (x : α) : List α → List α
  | [] => [x]
  | y :: ys => if index x ≤ index y then x :: y :: ys else y :: insertByIndex index x ys

/-- Sorting by `index`, ascending. -/
def sortByIndex {α : Type} (index : α → Nat) : List α → List α
  | [] => []
  | x :: xs => insertByIndex index x (sortByIndex index xs)

/-- The order in which the language enumerates the own properties of an object
(`Object.keys`, `for in`, spread), given the properties in the order of creation:
the names that are array indices first, in ascending order, then every other
name in the order of creation. -/
def propertyOrder {α : Type} (name : α → String) (l : List α) : List α :=
  sortByIndex (fun x => (arrayIndex (name x)).getD 0)
      (l.filter (fun x => (arrayIndex (name x)).isSome))
    ++ l.filter (fun x => !(arrayIndex (name x)).isSome)

/-- The names of the members every plain object inherits from `Object.prototype`. -/
def objectPrototypeNames : List String :=
  ["constructor", "__defineGetter__", "__defineSetter__", "hasOwnProperty",
    "__lookupGetter__", "__lookupSetter__", "isPrototypeOf", "propertyIsEnumerable",
    "toString", "valueOf", "__proto__", "toLocaleString"]

/-- The value of `o[k]` for a plain object `o` without own property `k`: the member
inherited from `Object.prototype` when `k` names one (for `__proto__` the prototype
object, which has no own enumerable property, and otherwise a built-in function,
numbered by its position in `objectPrototypeNames`), and `undefined` for any other
name. -/
def inheritedMember (k : String) : Val :=
  if k = "__proto__" then .obj []
  else if k ∈ objectPrototypeNames then .func (objectPrototypeNames.indexOf k)
  else .undefined

/-- The decimal names `"0"`, `"1"`, ... of the first `n` positions. -/
def indexKeys (n : Nat) : List String :=
  (List.range n).map toString

/-- The position named by the property name `k`, among the first `n`: a name is that
of a position when it is the decimal text of the position, so only a name made
of digits can be one. -/
def indexOfKey (n : Nat) (k : String) : Option Nat :=
  if k.data.all Char.isDigit then (List.range n).find? (fun i => toString i == k) else none

/-- The call `Object.keys(v)`: the own enumerable property names, in the order of
enumeration. -/
def ownKeys : Val → Except Err (List String)
  | .undefined => .error .typeError
  | .null => .error .typeError
  | .obj ps => .ok (propertyOrder id (ps.map Prod.fst))
  | .arr xs => .ok (indexKeys xs.length)
  | .str s => .ok (indexKeys s.data.length)
  | _ => .ok []

/-- The call `v.hasOwnProperty(k)`.  It is a member access followed by a call: on an
object with an own property named `hasOwnProperty` that property is what is
called, which is a `TypeError` when it is not a function and runs the caller's
code when it is; otherwise the method inherited from `Object.prototype` answers. -/
def hasOwnProperty (v : Val) (k : String) : Except Err Bool :=
  match v with
  | .undefined => .error .typeError
  | .null => .error .typeError
  | .obj ps =>
    match ps.lookup "hasOwnProperty" with
    | some (.func _) => .error .callerCode
    | some _ => .error .typeError
    | none => .ok (ps.any (fun p => p.1 == k))
  | .arr xs => .ok (k == "length" || (indexOfKey xs.length k).isSome)
  | .str s => .ok (k == "length" || (indexOfKey s.data.length k).isSome)
  | .func _ => .ok (k == "length" || k == "name")
  | _ => .ok false

/-- The member read `v[k]` (also written `v.k`). -/
def getProp (v : Val) (k : String) : Except Err Val :=
  match v with
  | .undefined => .error .typeError
  | .null => .error .typeError
  | .obj ps => .ok ((ps.lookup k).getD (inheritedMember k))
  | .arr xs =>
    if k == "length" then .ok (.num xs.length)
    else .ok (((indexOfKey xs.length k).bind (fun i => xs[i]?)).getD .undefined)
  | .str s =>
    if k == "length" then .ok (.num s.data.length)
    else .ok (((indexOfKey s.data.length k).bind
      (fun i => s.data[i]?.map (fun c => Val.str (String.mk [c])))).getD .undefined)
  | _ => .ok .undefined

/-- The object literal `{ ...ps, [k]: v }`: an existing entry keeps its place and takes
the new value, a new entry goes last. -/
def setProp {α : Type} (ps : List (String × α)) (k : String) (v : α) : List (String × α) :=
  match ps with
  | [] => [(k, v)]
  | p :: rest => if p.1 = k then (k, v) :: rest else p :: setProp rest k v

/-! ## `defineSchema` and `hasMany` -/

/-- The descriptor literal `{ name, attributes }`. -/
def descriptor (name attributes : Val) : Val :=
  .obj [("name", name), ("attributes", attributes)]

/-- The marker literal `{ relatedSchema, isArray: true }`. -/
def marker (relatedSchema : Val) : Val :=
  .obj [("relatedSchema", relatedSchema), ("isArray", .bool true)]

/-- The default parameter `attributes = {}`: it applies when the argument is
`undefined`, which is also what an omitted argument is. -/
def defaultAttributes : Val → Val
  | .undefined => .obj []
  | a => a

/-- The function `defineSchema(name, attributes = {})`, lines 5-16. -/
def defineSchema (name : Val) (attributes : Val) : Except Err Val :=
  let attributes := defaultAttributes attributes
  if isEmpty name then
    .error .invalidName
  else if typeOf attributes ≠ .object && truthy attributes then
    .error .invalidAttributes
  else
    .ok (descriptor name attributes)

/-- The function `hasMany(schema)`, lines 19-30. -/
def hasMany (schema : Val) : Except Err Val :=
  if isEmpty schema then
    .error .invalidSchema
  else
    let lacksName : Except Err Bool :=
      if typeOf schema ≠ .string then (hasOwnProperty schema "name").map (fun b => !b)
      else .ok false
    match lacksName with
    | .error e => .error e
    | .ok true => .error .invalidSchema
    | .ok false =>
      match hasOwnProperty schema "name" with
      | .error e => .error e
      | .ok true => (getProp schema "name").map marker
      | .ok false => .ok (marker schema)

/-! ## Schema nodes

The nodes are objects of the normalization library (`new Schema(key)`), and the
array-of markers are what its `arrayOf` returns.  The library is not part of the
repository; the spec describes a node as an object with an identity key onto
which a nested definition is applied, and the code itself reads the attribute
slots back as own enumerable properties of the node (`Object.keys(entity1)`,
`entity1[prop]`) and attaches `isRelatedTo` and `getRelation` to the same object
with `Object.defineProperty`.  A node is therefore a key together with its list
of own properties, each with the three flags `Object.defineProperty` consults.
The bookkeeping members the library keeps on its objects are not listed among
the properties: their names start with an underscore, and `getRelatedThrough`
skips every such name.  An attribute that carries the name of one of them is
outside the model.
-/

/-- One entry `{ prop, entity }` of `relatedEntities`. -/
structure RelatedEntity where
  prop : String
  entity : Val
  deriving Repr

/-- What a property of a node, or an entry of the definition being accumulated by
`generateSchema`, can hold. -/
inductive Slot where
  /-- The value `undefined`, which is `bag[name]` for a name without entry -/
  | undefined
  /-- A function given as a computed attribute -/
  | fn (id : Nat)
  /-- A reference to the schema node at this address -/
  | schema (addr : Nat)
  /-- The result of `arrayOf(node)`: an array-of marker whose item schema is the node at this address -/
  | arrayOf (addr : Nat)
  /-- An object literal built by the generator (the `_computed` record) -/
  | record (fs : List (String × Slot))
  /-- The closure `isRelatedTo(relatedEntities)` -/
  | isRelatedTo (rel : List RelatedEntity)
  /-- The closure `getRelation(schema, relatedEntities, bag)` -/
  | getRelation (self : Nat) (rel : List RelatedEntity) (bag : List (String × Nat))
  /-- The member of this name that the bag inherits from `Object.prototype`: a built-in
  function (for `__proto__` the prototype object); it has no own enumerable
  property and no member `getKey` or `getItemSchema` -/
  | inherited (name : String)
  /-- The result of `arrayOf(x)` for the inherited member `x` of this name -/
  | arrayOfInherited (name : String)

/-- An own property of a node with its flags. -/
structure OwnProp where
  name : String
  value : Slot
  enumerable : Bool
  writable : Bool
  configurable : Bool

/-- A schema node: its identity key and its own properties, in order. -/
structure Node where
  key : String
  props : List OwnProp

/-- The nodes allocated so far; the address of a node is its position. -/
abbrev Heap := List Node

/-- The descriptor `{ related, relatedPropName, relatedId }` returned by `getRelation`;
`relatedPropName` is `none` when the search returns `undefined`. -/
structure Relation where
  related : String
  relatedPropName : Option String
  relatedId : Val

/-- Truthiness of a slot: only `undefined` is falsy. -/
def Slot.truthy : Slot → Bool
  | .undefined => false
  | _ => true

/-- The own property `k` of the node at `addr`, if any. -/
def ownProp (h : Heap) (addr : Nat) (k : String) : Option OwnProp :=
  (h[addr]?).bind (fun node => node.props.find? (fun p => p.name == k))

/-- The own enumerable properties of the node at `addr`, in the order of enumeration. -/
def enumerableProps (h : Heap) (addr : Nat) : List OwnProp :=
  match h[addr]? with
  | some node => propertyOrder OwnProp.name (node.props.filter (fun p => p.enumerable))
  | none => []

/-- Modelled from the spec: `new Schema(key)` of the normalization library, for a
string key.  It allocates "one empty named Schema Node"; the library requires
the key to be a non-empty string and raises an error otherwise. -/
def newSchema (key : String) (h : Heap) : Except Err Nat × Heap :=
  if key = "" then (.error .schemaKey, h)
  else (.ok h.length, h ++ [{ key := key, props := [] }])

/-- Modelled from the spec: `arrayOf(x)` of the normalization library, the
"array-of-related-node marker".  The library requires `x` to be an object, and a
function counts as one; of what `bag[name]` can be, only `undefined` is rejected. -/
def arrayOf : Slot → Except Err Slot
  | .schema a => .ok (.arrayOf a)
  | .inherited k => .ok (.arrayOfInherited k)
  | _ => .error .itemSchema

/-- The assignment `node[k] = v` (in strict mode): an existing writable property takes
the value, an existing read-only property rejects it, a missing property is
created enumerable, writable and configurable. -/
def assignProp (ps : List OwnProp) (k : String) (v : Slot) : Except Err (List OwnProp) :=
  match ps with
  | [] => .ok [{ name := k, value := v, enumerable := true, writable := true, configurable := true }]
  | p :: rest =>
    if p.name = k then
      if p.writable then .ok ({ p with value := v } :: rest) else .error .typeError
    else
      match assignProp rest k v with
      | .ok rest1 => .ok (p :: rest1)
      | .error e => .error e

/-- The loop of `define`: assign every entry of the definition in order.  On an
error the assignments made so far stay. -/
def assignAll (ps : List OwnProp) (defn : List (String × Slot)) : Except Err Unit × List OwnProp :=
  match defn with
  | [] => (.ok (), ps)
  | (k, v) :: rest =>
    match assignProp ps k v with
    | .ok ps1 => assignAll ps1 rest
    | .error e => (.error e, ps)

/-- Modelled from the spec: `node.define(definition)` of the normalization library:
"apply the accumulated definition onto the registry's pre-existing node ...
mutating it in place", taken as the assignment of every entry in order.  The
order of the walk does not show on the node of a completed run: the properties
are read back through `enumerableProps`, in the order of enumeration whatever the
order of creation.  The call itself is a member access on the node, so an own
property named `define` (never a function) makes it a `TypeError`. -/
def define (addr : Nat) (defn : List (String × Slot)) (h : Heap) : Except Err Unit × Heap :=
  match h[addr]? with
  | none => (.error .typeError, h)
  | some node =>
    match node.props.find? (fun p => p.name == "define") with
    | some _ => (.error .typeError, h)
    | none =>
      match assignAll node.props defn with
      | (r, ps) => (r, h.set addr { node with props := ps })

/-- The effect of `Object.defineProperty(node, k, { enumerable: false, value: v })` on the
property list, where `v` is a freshly created closure.  A missing property is
created with every flag false.  A configurable property takes the value and
becomes non-enumerable.  A property that is not configurable rejects the
change, unless it is already non-enumerable and still writable. -/
def definePropertyOn (ps : List OwnProp) (k : String) (v : Slot) : Except Err (List OwnProp) :=
  match ps with
  | [] => .ok [{ name := k, value := v, enumerable := false, writable := false, configurable := false }]
  | p :: rest =>
    if p.name = k then
      if p.configurable then .ok ({ p with value := v, enumerable := false } :: rest)
      else if p.enumerable then .error .typeError
      else if p.writable then .ok ({ p with value := v } :: rest)
      else .error .typeError
    else
      match definePropertyOn rest k v with
      | .ok rest1 => .ok (p :: rest1)
      | .error e => .error e

/-- The call `Object.defineProperty(node, k, { enumerable: false, value: v })` on the heap. -/
def defineProperty (addr : Nat) (k : String) (v : Slot) (h : Heap) : Except Err Unit × Heap :=
  match h[addr]? with
  | none => (.error .typeError, h)
  | some node =>
    match definePropertyOn node.props k v with
    | .ok ps => (.ok (), h.set addr { node with props := ps })
    | .error e => (.error e, h)

/-! ## Relation lookup -/

/-- Modelled from the spec: the accessor `node.getKey()` of the normalization library,
which reports the identity key of the node.  The call is a member access on the
node, so an own property named `getKey` (never a function) hides the accessor and
makes the call a `TypeError`. -/
def getKey (h : Heap) (addr : Nat) : Except Err String :=
  match h[addr]? with
  | none => .error .typeError
  | some node =>
    match node.props.find? (fun p => p.name == "getKey") with
    | some _ => .error .typeError
    | none => .ok node.key

/-- Whether the property name starts with an underscore (the test `prop.startsWith`). -/
def startsWithUnderscore (s : String) : Bool :=
  match s.data with
  | c :: _ => c == '_'
  | [] => false

/-- The comparison `x.getKey() === entity2.getKey()` for the node `x`. -/
def sameKey (h : Heap) (x entity2 : Nat) : Except Err Bool :=
  match getKey h x with
  | .error e => .error e
  | .ok k1 =>
    match getKey h entity2 with
    | .error e => .error e
    | .ok k2 => .ok (k1 == k2)

/-- The callback of `find` in `getRelatedThrough`, lines 34-46, for the property `p` of
`entity1`. -/
def isBackReference (h : Heap) (entity2 : Nat) (p : OwnProp) : Except Err Bool :=
  if startsWithUnderscore p.name then .ok false
  else
    match p.value with
    | .undefined => .error .typeError
    | .schema a =>
      -- `relation.getKey` is the accessor, or the own property that hides it
      match ownProp h a "getKey" with
      | none => sameKey h a entity2
      | some q =>
        if q.value.truthy then .error .typeError
        else
          match ownProp h a "getItemSchema" with
          | none => .ok false
          | some r => if r.value.truthy then .error .typeError else .ok false
    | .arrayOf a => sameKey h a entity2
    -- the item of the marker is a built-in member, which has no `getKey` to call
    | .arrayOfInherited _ => .error .typeError
    -- functions, built-in members and records have neither member; a record is only
    -- ever held under the name `_computed`, which the test above has excluded
    | _ => .ok false

/-- The search `Array.prototype.find` with the callback above, returning the name found. -/
def findBackReference (h : Heap) (entity2 : Nat) : List OwnProp → Except Err (Option String)
  | [] => .ok none
  | p :: rest =>
    match isBackReference h entity2 p with
    | .error e => .error e
    | .ok true => .ok (some p.name)
    | .ok false => findBackReference h entity2 rest

/-- The function `getRelatedThrough(entity1, entity2)`, lines 33-47.  The caller passes
`bag[name]` as `entity1`: a node, whose own enumerable properties are searched;
`undefined`, on which `Object.keys` is a `TypeError`; or a member inherited from
`Object.prototype`, which has no own enumerable property, so that the search
finds nothing. -/
def getRelatedThrough (h : Heap) (entity1 : Slot) (entity2 : Nat) : Except Err (Option String) :=
  match entity1 with
  | .schema a => findBackReference h entity2 (enumerableProps h a)
  | .inherited _ => .ok none
  | _ => .error .typeError

/-- The comparison `v === name` against a string. -/
def strictEqStr (v : Val) (name : String) : Bool :=
  match v with
  | .str s => s == name
  | _ => false

/-- The function returned by `isRelatedTo(relatedEntities)`, lines 50-52, applied to a
name. -/
def isRelatedTo (relatedEntities : List RelatedEntity) (entityName : String) : Bool :=
  (relatedEntities.map (fun e => e.entity)).any (fun v => strictEqStr v entityName)

/-- The property name the language makes of a value used as a key, as in `bag[k]`.
Names of primitive values are their usual text; the text of a function, array or
object is not modelled and names no entry. -/
def propertyKey : Val → Option String
  | .undefined => some "undefined"
  | .null => some "null"
  | .bool true => some "true"
  | .bool false => some "false"
  | .num n => some (toString n)
  | .nan => some "NaN"
  | .str s => some s
  | _ => none

/-- The value of `bag[k]`.  The bag is a plain object: the read gives the node
registered under the name; for a name without entry it gives the member the bag
inherits from `Object.prototype` when the name is that of one, and `undefined`
otherwise. -/
def bagGet (bag : List (String × Nat)) (k : Val) : Slot :=
  match propertyKey k with
  | none => .undefined
  | some name =>
    match bag.lookup name with
    | some a => .schema a
    | none => if name ∈ objectPrototypeNames then .inherited name else .undefined

/-- The function returned by `getRelation(schema, relatedEntities, bag)`, lines 55-66,
applied to an entity and a name, in the heap of the moment of the call. -/
def getRelation (h : Heap) (schema : Nat) (relatedEntities : List RelatedEntity)
    (bag : List (String × Nat)) (entity : Val) (relatedEntityName : String) : Except Err Relation :=
  match relatedEntities.find? (fun e => strictEqStr e.entity relatedEntityName) with
  | none => .error .typeError
  | some e =>
    match getProp entity e.prop with
    | .error err => .error err
    | .ok relatedId =>
      match getRelatedThrough h (bagGet bag (.str relatedEntityName)) schema with
      | .error err => .error err
      | .ok relatedPropName =>
        .ok { related := relatedEntityName, relatedPropName := relatedPropName, relatedId := relatedId }

/-- The call `node.isRelatedTo(name)` on the node at `addr`. -/
def callIsRelatedTo (h : Heap) (addr : Nat) (name : String) : Except Err Bool :=
  match ownProp h addr "isRelatedTo" with
  | some p =>
    match p.value with
    | .isRelatedTo rel => .ok (isRelatedTo rel name)
    | _ => .error .typeError
  | none => .error .typeError

/-- The call `node.getRelation(entity, name)` on the node at `addr`. -/
def callGetRelation (h : Heap) (addr : Nat) (entity : Val) (name : String) : Except Err Relation :=
  match ownProp h addr "getRelation" with
  | some p =>
    match p.value with
    | .getRelation self rel bag => getRelation h self rel bag entity name
    | _ => .error .typeError
  | none => .error .typeError

/-! ## Generation -/

/-- The spread `{ ...x }` of a slot of the accumulated definition, where `x` is absent,
a record built earlier, or (when an attribute is itself named `_computed`) a
reference, whose own enumerable properties are copied. -/
def spreadSlot (h : Heap) : Option Slot → List (String × Slot)
  | some (.record fs) => fs
  | some (.schema a) => (enumerableProps h a).map (fun p => (p.name, p.value))
  | _ => []

/-- One step of the `reduce` of `generateSchema`, lines 71-88, for the attribute name
`a`: `acc.1` is the accumulated definition `result`, `acc.2` the array
`relatedEntities`. -/
def attributeStep (bag : List (String × Nat)) (h : Heap) (attributes : Val)
    (acc : List (String × Slot) × List RelatedEntity) (a : String) :
    Except Err (List (String × Slot) × List RelatedEntity) :=
  match getProp attributes a with
  | .error e => .error e
  | .ok attr =>
    match attr with
    | .func id =>
      -- typeof attribute is function
      .ok (setProp acc.1 "_computed"
        (.record (setProp (spreadSlot h (acc.1.lookup "_computed")) a (.fn id))), acc.2)
    | .str _ =>
      -- typeof attribute is string
      .ok (setProp acc.1 a (bagGet bag attr), acc.2 ++ [{ prop := a, entity := attr }])
    | _ =>
      match getProp attr "isArray" with
      | .error e => .error e
      | .ok flag =>
        if truthy flag then
          match getProp attr "relatedSchema" with
          | .error e => .error e
          | .ok relatedSchema =>
            match arrayOf (bagGet bag relatedSchema) with
            | .error e => .error e
            | .ok m => .ok (setProp acc.1 a m, acc.2 ++ [{ prop := a, entity := relatedSchema }])
        else .ok acc

/-- The `reduce` of `generateSchema` over the attribute names, starting from `acc`. -/
def reduceAttributes (bag : List (String × Nat)) (h : Heap) (attributes : Val) :
    List String → List (String × Slot) × List RelatedEntity →
    Except Err (List (String × Slot) × List RelatedEntity)
  | [], acc => .ok acc
  | a :: rest, acc =>
    match attributeStep bag h attributes acc a with
    | .error e => .error e
    | .ok acc1 => reduceAttributes bag h attributes rest acc1

/-- The function `generateSchema(schema, bag)`, lines 69-100: it returns the address of the
node it has filled, and the heap after its mutations. -/
def generateSchema (schema : Val) (bag : List (String × Nat)) (h : Heap) : Except Err Nat × Heap :=
  match getProp schema "attributes" with
  | .error e => (.error e, h)
  | .ok attributes =>
    match ownKeys attributes with
    | .error e => (.error e, h)
    | .ok keys =>
      match reduceAttributes bag h attributes keys ([], []) with
      | .error e => (.error e, h)
      | .ok (schemaDefinition, relatedEntities) =>
        match getProp schema "name" with
        | .error e => (.error e, h)
        | .ok name =>
          match bagGet bag name with
          | .schema finalSchema =>
            match define finalSchema schemaDefinition h with
            | (.error e, h1) => (.error e, h1)
            | (.ok _, h1) =>
              match defineProperty finalSchema "isRelatedTo" (.isRelatedTo relatedEntities) h1 with
              | (.error e, h2) => (.error e, h2)
              | (.ok _, h2) =>
                match defineProperty finalSchema "getRelation"
                    (.getRelation finalSchema relatedEntities bag) h2 with
                | (.error e, h3) => (.error e, h3)
                | (.ok _, h3) => (.ok finalSchema, h3)
          -- `finalSchema` is `undefined`: the call of `define` on it is a `TypeError`
          | _ => (.error .typeError, h)

/-- The first `reduce` of `generateSchemas`, lines 110-113: one new node per descriptor,
registered under the name of the descriptor. -/
def buildBag : List Val → List (String × Nat) → Heap → Except Err (List (String × Nat)) × Heap
  | [], bag, h => (.ok bag, h)
  | s :: rest, bag, h =>
    match getProp s "name" with
    | .error e => (.error e, h)
    | .ok (.str name) =>
      match newSchema name h with
      | (.error e, h1) => (.error e, h1)
      | (.ok addr, h1) => buildBag rest (setProp bag name addr) h1
    -- the constructor rejects a key that is not a string
    | .ok _ => (.error .schemaKey, h)

/-- The second `reduce` of `generateSchemas`, lines 114-117. -/
def generateAll : List Val → List (String × Nat) → List (String × Nat) → Heap →
    Except Err (List (String × Nat)) × Heap
  | [], _, result, h => (.ok result, h)
  | s :: rest, bag, result, h =>
    match getProp s "name" with
    | .error e => (.error e, h)
    | .ok name =>
      match generateSchema s bag h with
      | (.error e, h1) => (.error e, h1)
      | (.ok addr, h1) =>
        match propertyKey name with
        | some key => generateAll rest bag (setProp result key addr) h1
        -- not reached: the first pass has accepted only string names
        | none => (.error .typeError, h1)

/-- The function `generateSchemas(schemas)`, lines 103-118.  The result is the returned
mapping from names to node addresses (or the exception) together with the heap
of the nodes this call has allocated. -/
def generateSchemas (schemas : Val) : Except Err (List (String × Nat)) × Heap :=
  if isEmpty schemas then
    (.error .invalidSchemas, [])
  else
    match schemas with
    | .arr ss =>
      match buildBag ss [] [] with
      | (.error e, h) => (.error e, h)
      | (.ok bag, h) => generateAll ss bag [] h
    -- ! Array.isArray(schemas)
    | _ => (.error .invalidSchemas, [])

/-! ## Vocabulary of the statements -/

/-- An array-reference marker, in the words of the spec: an attribute value that is
neither a function nor a string and that carries a truthy `isArray`. -/
def isArrayReference (v : Val) : Bool :=
  match v with
  | .func _ => false
  | .str _ => false
  | _ =>
    match getProp v "isArray" with
    | .ok flag => truthy flag
    | .error _ => false

/-- Whether the attribute value `v` targets the name `n`, in the words of the spec: it
is the string `n`, or an array-reference marker whose `relatedSchema` is `n`. -/
def targetsName (v : Val) (n : String) : Bool :=
  strictEqStr v n ||
    (isArrayReference v &&
      match getProp v "relatedSchema" with
      | .ok r => strictEqStr r n
      | .error _ => false)

/-- Whether the attribute named `a` of the attributes object targets the name `n`. -/
def attributeTargets (attributes : Val) (n : String) (a : String) : Bool :=
  match getProp attributes a with
  | .ok v => targetsName v n
  | .error _ => false

/-- Whether some attribute of the attributes object targets the name `n`. -/
def referencesName (attributes : Val) (n : String) : Bool :=
  match ownKeys attributes with
  | .ok keys => keys.any (attributeTargets attributes n)
  | .error _ => false

/-- The registry invariant: every name of the bag is registered to an allocated node
whose key is that name. -/
def BagOk (bag : List (String × Nat)) (h : Heap) : Prop :=
  ∀ k a, bag.lookup k = some a → ∃ node, h[a]? = some node ∧ node.key = k

/-- The registry invariant before generation: every name of the bag is registered to
an allocated node whose key is that name and which has no property yet. -/
def BagFresh (bag : List (String × Nat)) (h : Heap) : Prop :=
  ∀ k a, bag.lookup k = some a → ∃ node, h[a]? = some node ∧ node.key = k ∧ node.props = []

/-- Two heaps hold nodes with the same keys at the same addresses. -/
def SameKeys (h h1 : Heap) : Prop :=
  ∀ b : Nat, (h1[b]?).map Node.key = (h[b]?).map Node.key

/-- The heap `h1` differs from `h` at most in the properties of the node at `addr`. -/
def Frame (addr : Nat) (h h1 : Heap) : Prop :=
  (∀ b : Nat, b ≠ addr → h1[b]? = h[b]?) ∧ SameKeys h h1

/-- Every property of the list is writable and configurable, as properties created
by assignment are. -/
def AllOpen (ps : List OwnProp) : Prop :=
  ∀ p ∈ ps, p.writable = true ∧ p.configurable = true

/-- An attribute value of a valid batch over the given schema names: a function, a
string naming a schema of the batch, or a marker of `hasMany` for such a name. -/
def validAttribute (names : List String) (v : Val) : Prop :=
  (∃ id, v = .func id) ∨ (∃ s, v = .str s ∧ s ∈ names) ∨ (∃ s, v = marker (.str s) ∧ s ∈ names)

/-- The descriptors of a batch given by its names and attribute lists. -/
def descriptors (batch : List (String × List (String × Val))) : List Val :=
  batch.map (fun d => descriptor (.str d.1) (.obj d.2))

/-- A valid batch: the names are non-empty and pairwise distinct, and every attribute
is a valid attribute over the names of the batch. -/
def validBatch (batch : List (String × List (String × Val))) : Prop :=
  (batch.map Prod.fst).Nodup
  ∧ (∀ n ∈ batch.map Prod.fst, n ≠ "")
  ∧ (∀ d ∈ batch, ∀ av ∈ d.2, validAttribute (batch.map Prod.fst) av.2)

end EntitiesManager

namespace EntitiesManager

/-- The property `k` of the list is locked: it is neither writable nor configurable nor
enumerable, as a capability attached by `Object.defineProperty` to a node that
had no property of that name. -/
def Locked (ps : List OwnProp) (k : String) : Prop :=
  ∃ p, ps.find? (fun p => p.name == k) = some p
    ∧ p.writable = false ∧ p.configurable = false ∧ p.enumerable = false

/-- An entry the scan of `getRelatedThrough` reads without harm: it is not named
`getKey`, it is neither `undefined` nor the array-of marker of a built-in member,
and a node it refers to is registered in the bag. -/
def SafeEntry (bag : List (String × Nat)) (k : String) (v : Slot) : Prop :=
  k ≠ "getKey" ∧ v ≠ .undefined ∧ (∀ m, v ≠ .arrayOfInherited m)
    ∧ (∀ b, (v = .schema b ∨ v = .arrayOf b) → ∃ n, bag.lookup n = some b)

/-- Every property of the list is a safe entry. -/
def SafeSlots (bag : List (String × Nat)) (ps : List OwnProp) : Prop :=
  ∀ p ∈ ps, SafeEntry bag p.name p.value

/-- Every registered node is allocated under its name and has safe properties. -/
def RegistrySafe (bag : List (String × Nat)) (h : Heap) : Prop :=
  ∀ k b, bag.lookup k = some b →
    ∃ node, h[b]? = some node ∧ node.key = k ∧ SafeSlots bag node.props

/-- No descriptor of the batch declares an attribute of the given name. -/
def noAttributeNamed (k : String) (batch : List (String × List (String × Val))) : Prop :=
  ∀ d ∈ batch, k ∉ d.2.map Prod.fst

/-- A check of `validAttribute` that can be evaluated. -/
def checkAttribute (names : List String) (v : Val) : Bool :=
  match v with
  | .func _ => true
  | .str s => names.contains s
  | .obj [(k1, .str s), (k2, .bool true)] =>
    k1 == "relatedSchema" && k2 == "isArray" && names.contains s
  | _ => false

/-- A check of `validBatch` that can be evaluated. -/
def checkBatch (batch : List (String × List (String × Val))) : Bool :=
  decide (batch.map Prod.fst).Nodup
    && (batch.map Prod.fst).all (fun n => n != "")
    && batch.all (fun d => d.2.all (fun av => checkAttribute (batch.map Prod.fst) av.2))

end EntitiesManager

namespace EntitiesManager

/-- The property that the assignment `node[k] = v` creates on a node that has none of
that name: enumerable, writable and configurable. -/
def assigned (kv : String × Slot) : OwnProp :=
  { name := kv.1, value := kv.2, enumerable := true, writable := true, configurable := true }

/-- The relation an attribute stands for, in the words of the spec: `{ prop, entity }` for
a string attribute (the entity is the string) and for an array-reference marker
(the entity is its `relatedSchema`), none for any other attribute. -/
def relationOf (av : String × Val) : Option RelatedEntity :=
  match av.2 with
  | .str s => some { prop := av.1, entity := .str s }
  | v =>
    if isArrayReference v then
      match getProp v "relatedSchema" with
      | .ok r => some { prop := av.1, entity := r }
      | .error _ => none
    else none

/-- The relations of an attribute list, in the words of the spec: one per string or
array-reference attribute, in declared order. -/
def recordedRelations (attributes : List (String × Val)) : List RelatedEntity :=
  attributes.filterMap relationOf

/-- Whether the nodes at `b` and `c` have the same key ("keyed like"). -/
def keyedLike (h : Heap) (b c : Nat) : Bool :=
  match h[b]?, h[c]? with
  | some x, some y => x.key == y.key
  | _, _ => false

/-- Whether the slot is, in the words of the spec, "the node keyed like C or an array-of
marker whose item node is keyed like C", for the node `C` at `c`. -/
def refersTo (h : Heap) (v : Slot) (c : Nat) : Bool :=
  match v with
  | .schema b => keyedLike h b c
  | .arrayOf b => keyedLike h b c
  | _ => false

/-- Whether the attribute name is one the back-reference search accepts, in the words
of the spec: it does not start with an underscore and its slot on the node at
`r` refers to the node at `c`. -/
def isBackReferenceName (h : Heap) (r c : Nat) (a : String) : Bool :=
  !startsWithUnderscore a &&
    match ownProp h r a with
    | some p => refersTo h p.value c
    | none => false

/-- The back reference in the words of the spec: the first attribute name, in declared
order, that the search accepts. -/
def firstBackReference (h : Heap) (names : List String) (r c : Nat) : Option String :=
  names.find? (isBackReferenceName h r c)

/-- The entry of the compiled definition that an attribute gives and that the search
can see: none for a name that starts with an underscore and for an attribute
that is not a reference. -/
def visibleEntry (bag : List (String × Nat)) (av : String × Val) : Option (String × Slot) :=
  if startsWithUnderscore av.1 then none
  else
    match av.2 with
    | .str s => some (av.1, bagGet bag (.str s))
    | v =>
      if isArrayReference v then
        match getProp v "relatedSchema" with
        | .ok r =>
          match arrayOf (bagGet bag r) with
          | .ok m => some (av.1, m)
          | .error _ => none
        | .error _ => none
      else none

end EntitiesManager

namespace EntitiesManager

/-- What a slot looks like from outside, with every node named by its key. -/
inductive Shape where
  | undefined
  | fn (id : Nat)
  | node (key : Option String)
  | arrayOfNode (key : Option String)
  | record (fs : List (String × Shape))
  | isRelatedTo
  | getRelation
  | inherited (name : String)
  | arrayOfInherited (name : String)

mutual
/-- The shape of a slot in a heap: a reference is described by the key of the node it
points to. -/
def describe (h : Heap) : Slot → Shape
  | .undefined => .undefined
  | .fn id => .fn id
  | .schema a => .node ((h[a]?).map Node.key)
  | .arrayOf a => .arrayOfNode ((h[a]?).map Node.key)
  | .record fs => .record (describeEntries h fs)
  | .isRelatedTo _ => .isRelatedTo
  | .getRelation _ _ _ => .getRelation
  | .inherited k => .inherited k
  | .arrayOfInherited k => .arrayOfInherited k
/-- The shapes of the entries of a record. -/
def describeEntries (h : Heap) : List (String × Slot) → List (String × Shape)
  | [] => []
  | (k, v) :: rest => (k, describe h v) :: describeEntries h rest
end

/-- The description of an own property: its name, the shape of its value and its
flags (enumerable, writable, configurable). -/
def describeProp (h : Heap) (p : OwnProp) : String × Shape × Bool × Bool × Bool :=
  (p.name, describe h p.value, p.enumerable, p.writable, p.configurable)

/-- The nested definition of the node at `a`, with every node named by its key: the
key of the node and the descriptions of its own properties, in order. -/
def describeNode (h : Heap) (a : Nat) :
    Option (String × List (String × Shape × Bool × Bool × Bool)) :=
  (h[a]?).map (fun node => (node.key, node.props.map (describeProp h)))

/-- Two slots of two generations of the same descriptors correspond: they are the same
plain value, or they refer to the nodes the two bags register under the same
name. -/
inductive SlotRel (bag1 bag2 : List (String × Nat)) : Slot → Slot → Prop where
  | undefined : SlotRel bag1 bag2 .undefined .undefined
  | fn (id : Nat) : SlotRel bag1 bag2 (.fn id) (.fn id)
  | schema (k : String) (b1 b2 : Nat) (h1 : bag1.lookup k = some b1)
      (h2 : bag2.lookup k = some b2) : SlotRel bag1 bag2 (.schema b1) (.schema b2)
  | arrayOf (k : String) (b1 b2 : Nat) (h1 : bag1.lookup k = some b1)
      (h2 : bag2.lookup k = some b2) : SlotRel bag1 bag2 (.arrayOf b1) (.arrayOf b2)
  | record (fs : List (String × Slot)) (hfs : ∀ kv ∈ fs, ∃ id, kv.2 = .fn id) :
      SlotRel bag1 bag2 (.record fs) (.record fs)
  | isRelatedTo (rel : List RelatedEntity) :
      SlotRel bag1 bag2 (.isRelatedTo rel) (.isRelatedTo rel)
  | getRelation (k : String) (a1 a2 : Nat) (rel : List RelatedEntity)
      (h1 : bag1.lookup k = some a1) (h2 : bag2.lookup k = some a2) :
      SlotRel bag1 bag2 (.getRelation a1 rel bag1) (.getRelation a2 rel bag2)

/-- Two entries of two compiled definitions correspond. -/
def EntryRel (bag1 bag2 : List (String × Nat)) (x y : String × Slot) : Prop :=
  x.1 = y.1 ∧ SlotRel bag1 bag2 x.2 y.2

/-- Two own properties correspond: same name, same flags, corresponding values. -/
def PropRel (bag1 bag2 : List (String × Nat)) (p q : OwnProp) : Prop :=
  p.name = q.name ∧ p.enumerable = q.enumerable ∧ p.writable = q.writable
    ∧ p.configurable = q.configurable ∧ SlotRel bag1 bag2 p.value q.value

/-- The nodes that two generations register under the same name correspond. -/
def NodesRel (bag1 bag2 : List (String × Nat)) (h1 h2 : Heap) : Prop :=
  ∀ k b1 b2, bag1.lookup k = some b1 → bag2.lookup k = some b2 →
    ∃ n1 n2, h1[b1]? = some n1 ∧ h2[b2]? = some n2 ∧ n1.key = k ∧ n2.key = k
      ∧ List.Forall₂ (PropRel bag1 bag2) n1.props n2.props

end EntitiesManager

/-! ## Basic facts about values -/

namespace EntitiesManager

theorem isEmpty_str (s : String) : isEmpty (.str s) = decide (s = "") := by
  cases s with
  | mk l =>
    cases l <;> simp [isEmpty, String.ext_iff]

theorem hasOwnProperty_str_name (s : String) : hasOwnProperty (.str s) "name" = .ok false := by
  have h : ("name" : String).data.all Char.isDigit = false := by decide
  simp [hasOwnProperty, indexOfKey, h]

theorem hasOwnProperty_arr_name (xs : List Val) : hasOwnProperty (.arr xs) "name" = .ok false := by
  have h : ("name" : String).data.all Char.isDigit = false := by decide
  simp [hasOwnProperty, indexOfKey, h]

theorem getProp_error (v : Val) (k : String) (e : Err) (h : getProp v k = .error e) :
    e = .typeError := by
  cases v <;> simp [getProp] at h <;> first | exact h.symm | skip
  all_goals (split at h <;> simp at h)

theorem defineSchema_eq (name attrs : Val) :
    defineSchema name attrs =
      if isEmpty name = true then .error .invalidName
      else if truthy attrs = true ∧ typeOf attrs ≠ .object then .error .invalidAttributes
      else .ok (descriptor name (defaultAttributes attrs)) := by
  cases attrs <;> simp [defineSchema, defaultAttributes, typeOf, truthy]

theorem hasMany_str (s : String) (hs : s ≠ "") : hasMany (.str s) = .ok (marker (.str s)) := by
  simp [hasMany, isEmpty_str, hs, typeOf, hasOwnProperty_str_name]

theorem any_name_iff_lookup (ps : List (String × Val)) :
    ps.any (fun p => p.1 == "name") = (ps.lookup "name").isSome := by
  induction ps with
  | nil => rfl
  | cons p rest ih =>
    obtain ⟨k, w⟩ := p
    by_cases hk : k = "name"
    · simp [hk, List.lookup]
    · have hk2 : ("name" == k) = false := by simpa using fun h2 => hk h2.symm
      simp [List.lookup, hk2, hk, ih]

theorem hasMany_obj_of_lookup (ps : List (String × Val)) (v : Val)
    (h : ps.lookup "name" = some v) (hno : ps.lookup "hasOwnProperty" = none) :
    hasMany (.obj ps) = .ok (marker v) := by
  have hne : ps.isEmpty = false := by
    cases ps with
    | nil => simp [List.lookup] at h
    | cons p rest => rfl
  have hown : ps.any (fun p => p.1 == "name") = true := by
    rw [any_name_iff_lookup, h]
    rfl
  simp [hasMany, isEmpty, hne, typeOf, hasOwnProperty, hno, hown, getProp, h, Except.map]

theorem hasMany_obj_shadowed (ps : List (String × Val)) (v : Val) (hne : ps ≠ [])
    (h : ps.lookup "hasOwnProperty" = some v) (hv : ∀ id, v ≠ .func id) :
    hasMany (.obj ps) = .error .typeError := by
  have hemp : ps.isEmpty = false := by
    cases ps with
    | nil => exact absurd rfl hne
    | cons p rest => rfl
  have hown : hasOwnProperty (.obj ps) "name" = .error .typeError := by
    unfold hasOwnProperty
    simp only [h]
  simp [hasMany, isEmpty, hemp, typeOf, hown, Except.map]

end EntitiesManager

/-! ## `defineSchema` and `hasMany` -/

namespace EntitiesManager

/-- C1: for every non-empty string name and every attributes value of type object
(a mapping in particular), `defineSchema` does not throw and returns the
descriptor whose `name` field is the given name and whose `attributes` field is
the given value, unchanged; with the attributes omitted the field is the empty
mapping. -/
theorem defineSchema_returns_descriptor (n : String) (attrs : Val) (hn : n ≠ "")
    (ha : typeOf attrs = .object) :
    defineSchema (.str n) attrs = .ok (descriptor (.str n) attrs)
    ∧ getProp (descriptor (.str n) attrs) "name" = .ok (.str n)
    ∧ getProp (descriptor (.str n) attrs) "attributes" = .ok attrs
    ∧ defineSchema (.str n) .undefined = .ok (descriptor (.str n) (.obj [])) := by
  have hd : defaultAttributes attrs = attrs := by
    cases attrs <;> simp_all [defaultAttributes, typeOf]
  refine ⟨?_, ?_, ?_, ?_⟩
  · simp [defineSchema, isEmpty_str, hn, hd, ha]
  · simp [descriptor, getProp, List.lookup]
  · simp [descriptor, getProp, List.lookup]
  · simp [defineSchema, isEmpty_str, hn, defaultAttributes, typeOf]

/-- Witness of C1 at the name `Task` and the attributes `{ owner: 'User' }`. -/
theorem defineSchema_returns_descriptor_witness :
    defineSchema (.str "Task") (.obj [("owner", .str "User")])
      = .ok (descriptor (.str "Task") (.obj [("owner", .str "User")]))
    ∧ getProp (descriptor (.str "Task") (.obj [("owner", .str "User")])) "name" = .ok (.str "Task")
    ∧ getProp (descriptor (.str "Task") (.obj [("owner", .str "User")])) "attributes"
      = .ok (.obj [("owner", .str "User")])
    ∧ defineSchema (.str "Task") .undefined = .ok (descriptor (.str "Task") (.obj [])) :=
  defineSchema_returns_descriptor "Task" (.obj [("owner", .str "User")]) (by decide) rfl

/-- C2: `defineSchema` fails with the invalid-name error exactly when the name is empty
or absent (whatever the attributes), with the invalid-attributes error exactly
when the name is not empty and the attributes are truthy and not of type object,
and in every other case it returns the descriptor. -/
theorem defineSchema_failure_cases (name attrs : Val) :
    (defineSchema name attrs = .error .invalidName ↔ isEmpty name = true)
    ∧ (defineSchema name attrs = .error .invalidAttributes ↔
        (isEmpty name = false ∧ truthy attrs = true ∧ typeOf attrs ≠ .object))
    ∧ (defineSchema name attrs = .ok (descriptor name (defaultAttributes attrs)) ↔
        (isEmpty name = false ∧ ¬ (truthy attrs = true ∧ typeOf attrs ≠ .object))) := by
  rw [defineSchema_eq]
  by_cases h1 : isEmpty name = true
  · simp [h1]
  · by_cases h2 : (truthy attrs = true ∧ typeOf attrs ≠ .object)
    · simp [h1, h2]
    · rw [if_neg h1, if_neg h2]
      simp only [Bool.not_eq_true] at h1
      simp [h1, h2]

/-- C3, as stated, fails: the attributes `null`, `0`, the empty string and `false` are
present and are not objects (three of them are not even of type object), yet
`defineSchema` accepts each and returns it as the `attributes` field. -/
theorem defineSchema_accepts_falsy_attributes :
    defineSchema (.str "A") .null = .ok (descriptor (.str "A") .null)
    ∧ defineSchema (.str "A") (.num 0) = .ok (descriptor (.str "A") (.num 0))
    ∧ defineSchema (.str "A") (.str "") = .ok (descriptor (.str "A") (.str ""))
    ∧ defineSchema (.str "A") (.bool false) = .ok (descriptor (.str "A") (.bool false))
    ∧ defineSchema (.str "A") (.num 0) ≠ .error .invalidAttributes
    ∧ getProp (descriptor (.str "A") (.num 0)) "attributes" = .ok (.num 0)
    ∧ typeOf (.num 0) ≠ .object :=
  ⟨rfl, rfl, rfl, rfl, by simp [defineSchema_eq, isEmpty_str, truthy], rfl, by decide⟩

/-- C3, amended: the `attributes` field of a returned descriptor is of type object or
is a falsy value.  An argument other than `undefined` is returned unchanged, so
in particular `null`, `0`, the empty string and `false` are; an absent argument
yields the empty mapping; and under a non-empty name an argument that is truthy
and not of type object is rejected with the invalid-attributes error. -/
theorem defineSchema_attributes_object_or_falsy (name attrs d : Val)
    (h : defineSchema name attrs = .ok d) :
    d = descriptor name (defaultAttributes attrs)
    ∧ (typeOf (defaultAttributes attrs) = .object ∨ truthy (defaultAttributes attrs) = false)
    ∧ (attrs ≠ .undefined → defaultAttributes attrs = attrs)
    ∧ defaultAttributes .undefined = .obj []
    ∧ (∀ a : Val, truthy a = true → typeOf a ≠ .object →
        defineSchema name a = .error .invalidAttributes) := by
  rw [defineSchema_eq] at h
  by_cases h1 : isEmpty name = true
  · simp [h1] at h
  · by_cases h2 : (truthy attrs = true ∧ typeOf attrs ≠ .object)
    · simp [h1, h2] at h
    · rw [if_neg h1, if_neg h2] at h
      refine ⟨by simpa using h.symm, ?_, ?_, rfl, ?_⟩
      · cases attrs <;> simp_all [defaultAttributes, typeOf, truthy]
      · intro hu
        cases attrs <;> simp_all [defaultAttributes]
      · intro a ha hb
        rw [defineSchema_eq, if_neg h1, if_pos ⟨ha, hb⟩]

/-- Witness of the amended C3 at the name `A` and the attributes `null`. -/
theorem defineSchema_attributes_object_or_falsy_witness :
    descriptor (.str "A") .null = descriptor (.str "A") (defaultAttributes .null)
    ∧ (typeOf (defaultAttributes .null) = .object ∨ truthy (defaultAttributes .null) = false)
    ∧ (Val.null ≠ .undefined → defaultAttributes .null = .null)
    ∧ defaultAttributes .undefined = .obj []
    ∧ (∀ a : Val, truthy a = true → typeOf a ≠ .object →
        defineSchema (.str "A") a = .error .invalidAttributes) :=
  defineSchema_attributes_object_or_falsy (.str "A") .null (descriptor (.str "A") .null) rfl

/-- C4, as stated, fails: the object `{ name: 'X', hasOwnProperty: 1 }` has its own `name`
field, yet `hasMany` does not return a marker for it: the call
`schema.hasOwnProperty('name')` on line 23 finds the own property, which is not a
function, and raises a `TypeError`. -/
theorem hasMany_own_hasOwnProperty_fails :
    (List.lookup "name" [("name", Val.str "X"), ("hasOwnProperty", Val.num 1)]).isSome = true
    ∧ hasMany (.obj [("name", .str "X"), ("hasOwnProperty", .num 1)]) = .error .typeError :=
  ⟨rfl, rfl⟩

/-- C4, amended: `hasMany` of a non-empty string `s` returns the marker with
`relatedSchema` `s`; `hasMany` of an object that has an own `name` field and no own
property named `hasOwnProperty` returns the marker with `relatedSchema` the value
of that field; and the `isArray` field of every result of `hasMany` is `true`. -/
theorem hasMany_returns_marker (s : String) (hs : s ≠ "") (ps : List (String × Val)) (v : Val)
    (hname : ps.lookup "name" = some v) (hno : ps.lookup "hasOwnProperty" = none) :
    hasMany (.str s) = .ok (marker (.str s))
    ∧ getProp (.obj ps) "name" = .ok v
    ∧ hasMany (.obj ps) = .ok (marker v)
    ∧ (∀ x m, hasMany x = .ok m → getProp m "isArray" = .ok (.bool true)) := by
  refine ⟨hasMany_str s hs, by simp [getProp, hname], hasMany_obj_of_lookup ps v hname hno, ?_⟩
  intro x m hx
  unfold hasMany at hx
  split at hx
  · simp at hx
  · simp only at hx
    split at hx
    · simp at hx
    · simp at hx
    · split at hx
      · simp at hx
      · cases hg : getProp x "name" with
        | error e => simp [hg, Except.map] at hx
        | ok v =>
          simp only [hg, Except.map, Except.ok.injEq] at hx
          subst hx
          rfl
      · simp only [Except.ok.injEq] at hx
        subst hx
        rfl

/-- Witness of the amended C4 at the string `Task` and the descriptor
`{ name: 'Task', attributes: {} }`. -/
theorem hasMany_returns_marker_witness :
    hasMany (.str "Task") = .ok (marker (.str "Task"))
    ∧ getProp (.obj [("name", .str "Task"), ("attributes", .obj [])]) "name" = .ok (.str "Task")
    ∧ hasMany (.obj [("name", .str "Task"), ("attributes", .obj [])])
      = .ok (marker (.str "Task"))
    ∧ (∀ x m, hasMany x = .ok m → getProp m "isArray" = .ok (.bool true)) :=
  hasMany_returns_marker "Task" (by decide) [("name", .str "Task"), ("attributes", .obj [])]
    (.str "Task") rfl rfl

/-- C5, as stated, fails: the object `{ name: 'X', hasOwnProperty: 1 }` has a `name` field and
`hasMany` fails on it; and on `{ a: 1, hasOwnProperty: 2 }` it fails with a `TypeError`, not
with the invalid-schema error.  In both the call `schema.hasOwnProperty('name')` on
line 23 calls the own property, which is not a function. -/
theorem hasMany_fails_with_type_error :
    hasMany (.obj [("name", .str "X"), ("hasOwnProperty", .num 1)]) = .error .typeError
    ∧ hasMany (.obj [("a", .num 1), ("hasOwnProperty", .num 2)]) = .error .typeError
    ∧ Err.typeError ≠ Err.invalidSchema :=
  ⟨rfl, rfl, by decide⟩

/-- C5, amended: for every argument that is not an object with an own property named
`hasOwnProperty`, `hasMany` fails, and then with the invalid-schema error, if and
only if the argument is empty or absent, or is not a string and has no own `name`
field.  It fails for the empty string, `null`, `undefined`, the empty object, every
such object without `name` and every array; it succeeds for every non-empty
string and every such object with a `name` field.  On a non-empty object whose
own property `hasOwnProperty` is not a function it fails with a `TypeError`. -/
theorem hasMany_fails_iff (schema : Val)
    (hno : ∀ ps, schema = .obj ps → ps.lookup "hasOwnProperty" = none) :
    ((∃ e, hasMany schema = .error e) ↔
      (isEmpty schema = true
        ∨ (typeOf schema ≠ .string ∧ hasOwnProperty schema "name" = .ok false)))
    ∧ (∀ e, hasMany schema = .error e → e = .invalidSchema)
    ∧ hasMany (.str "") = .error .invalidSchema
    ∧ hasMany .null = .error .invalidSchema
    ∧ hasMany .undefined = .error .invalidSchema
    ∧ hasMany (.obj []) = .error .invalidSchema
    ∧ (∀ ps : List (String × Val), ps.lookup "hasOwnProperty" = none →
        ps.lookup "name" = none → hasMany (.obj ps) = .error .invalidSchema)
    ∧ (∀ xs : List Val, hasMany (.arr xs) = .error .invalidSchema)
    ∧ (∀ s : String, s ≠ "" → hasMany (.str s) = .ok (marker (.str s)))
    ∧ (∀ (ps : List (String × Val)) (v : Val), ps.lookup "hasOwnProperty" = none →
        ps.lookup "name" = some v → hasMany (.obj ps) = .ok (marker v))
    ∧ (∀ (ps : List (String × Val)) (v : Val), ps ≠ [] →
        ps.lookup "hasOwnProperty" = some v → (∀ id, v ≠ .func id) →
        hasMany (.obj ps) = .error .typeError) := by
  have hobj : ∀ ps : List (String × Val), ps.lookup "hasOwnProperty" = none →
      ps.lookup "name" = none → hasMany (.obj ps) = .error .invalidSchema := by
    intro ps hsh hps
    cases ps with
    | nil => rfl
    | cons p rest =>
      have hown : hasOwnProperty (.obj (p :: rest)) "name" = .ok false := by
        simp only [hasOwnProperty, hsh, any_name_iff_lookup, hps, Option.isSome_none]
      simp [hasMany, isEmpty, typeOf, hown, Except.map]
  have harr : ∀ xs : List Val, hasMany (.arr xs) = .error .invalidSchema := by
    intro xs
    cases xs with
    | nil => rfl
    | cons x rest => simp [hasMany, isEmpty, typeOf, hasOwnProperty_arr_name, Except.map]
  refine ⟨?_, ?_, rfl, rfl, rfl, rfl, hobj, harr, hasMany_str,
    fun ps v h1 h2 => hasMany_obj_of_lookup ps v h2 h1,
    fun ps v h1 h2 h3 => hasMany_obj_shadowed ps v h1 h2 h3⟩
  · cases schema with
    | str s =>
      by_cases hs : s = ""
      · subst hs
        simp [isEmpty, typeOf]
        exact ⟨_, rfl⟩
      · simp [hasMany_str s hs, isEmpty_str, hs, typeOf]
    | obj ps =>
      have hsh := hno ps rfl
      cases hl : ps.lookup "name" with
      | none =>
        simp only [hobj ps hsh hl, hasOwnProperty, hsh, any_name_iff_lookup, hl]
        simp [typeOf]
      | some v =>
        have hne : ps.isEmpty = false := by
          cases ps with
          | nil => simp [List.lookup] at hl
          | cons p rest => rfl
        simp [hasMany_obj_of_lookup ps v hl hsh, hasOwnProperty, hsh, any_name_iff_lookup, hl,
          isEmpty, hne]
    | arr xs =>
      simp only [harr xs, hasOwnProperty_arr_name]
      simp [typeOf]
    | _ => simp [hasMany, isEmpty]
  · intro e he
    cases schema with
    | str s =>
      by_cases hs : s = ""
      · subst hs
        have : hasMany (.str "") = .error .invalidSchema := rfl
        rw [this] at he
        simpa using he.symm
      · simp [hasMany_str s hs] at he
    | obj ps =>
      have hsh := hno ps rfl
      cases hl : ps.lookup "name" with
      | none => rw [hobj ps hsh hl] at he; simpa using he.symm
      | some v => simp [hasMany_obj_of_lookup ps v hl hsh] at he
    | arr xs => rw [harr xs] at he; simpa using he.symm
    | _ =>
      simp only [hasMany, isEmpty, if_true, Except.error.injEq] at he
      exact he.symm

/-- Witness of the amended C5 at the object `{ a: 1 }`, which has no own `name` field. -/
theorem hasMany_fails_iff_witness :
    (∃ e, hasMany (.obj [("a", .num 1)]) = .error e)
    ∧ hasMany (.obj [("a", .num 1)]) = .error .invalidSchema :=
  ⟨(hasMany_fails_iff (.obj [("a", .num 1)]) (by
      intro ps hps
      simp only [Val.obj.injEq] at hps
      subst hps
      rfl)).1.mpr (Or.inr ⟨by decide, rfl⟩),
    rfl⟩

/-- C6: for every non-empty string `n` and every attributes value that `defineSchema`
accepts, `hasMany(defineSchema(n, attrs))` and `hasMany(n)` are the same marker
with `relatedSchema` `n` and `isArray` true. -/
theorem hasMany_defineSchema_eq_hasMany_name (n : String) (attrs : Val) (hn : n ≠ "")
    (ha : typeOf attrs = .object ∨ truthy attrs = false) :
    (defineSchema (.str n) attrs).bind hasMany = hasMany (.str n)
    ∧ hasMany (.str n) = .ok (marker (.str n)) := by
  have h2 : ¬ (truthy attrs = true ∧ typeOf attrs ≠ .object) := by
    rintro ⟨h3, h4⟩
    rcases ha with ha | ha
    · exact h4 ha
    · simp [ha] at h3
  have hd : defineSchema (.str n) attrs = .ok (descriptor (.str n) (defaultAttributes attrs)) := by
    rw [defineSchema_eq, if_neg (by simp [isEmpty_str, hn]), if_neg h2]
  refine ⟨?_, hasMany_str n hn⟩
  rw [hd, hasMany_str n hn]
  exact hasMany_obj_of_lookup _ _ rfl rfl

/-- Witness of C6 at the name `Task` and the attributes `{ owner: 'User' }`. -/
theorem hasMany_defineSchema_eq_hasMany_name_witness :
    (defineSchema (.str "Task") (.obj [("owner", .str "User")])).bind hasMany
      = hasMany (.str "Task")
    ∧ hasMany (.str "Task") = .ok (marker (.str "Task")) :=
  hasMany_defineSchema_eq_hasMany_name "Task" (.obj [("owner", .str "User")]) (by decide)
    (Or.inl rfl)

end EntitiesManager

/-! ## Errors of the generation -/

namespace EntitiesManager

theorem ownKeys_error (v : Val) (e : Err) (h : ownKeys v = .error e) : e = .typeError := by
  cases v <;> simp [ownKeys] at h <;> exact h.symm

theorem arrayOf_error (s : Slot) (e : Err) (h : arrayOf s = .error e) : e = .itemSchema := by
  cases s <;> simp [arrayOf] at h <;> exact h.symm

theorem attributeStep_error (bag : List (String × Nat)) (h : Heap) (attributes : Val)
    (acc : List (String × Slot) × List RelatedEntity) (a : String) (e : Err)
    (he : attributeStep bag h attributes acc a = .error e) :
    e = .typeError ∨ e = .itemSchema := by
  unfold attributeStep at he
  split at he
  · rename_i e1 h1
    simp only [Except.error.injEq] at he
    subst he
    exact Or.inl (getProp_error _ _ _ h1)
  · split at he
    · simp at he
    · simp at he
    · split at he
      · rename_i e1 h1
        simp only [Except.error.injEq] at he
        subst he
        exact Or.inl (getProp_error _ _ _ h1)
      · split at he
        · split at he
          · rename_i e1 h1
            simp only [Except.error.injEq] at he
            subst he
            exact Or.inl (getProp_error _ _ _ h1)
          · split at he
            · rename_i e1 h1
              simp only [Except.error.injEq] at he
              subst he
              exact Or.inr (arrayOf_error _ _ h1)
            · simp at he
        · simp at he

theorem reduceAttributes_error (bag : List (String × Nat)) (h : Heap) (attributes : Val)
    (keys : List String) (acc : List (String × Slot) × List RelatedEntity) (e : Err)
    (he : reduceAttributes bag h attributes keys acc = .error e) :
    e = .typeError ∨ e = .itemSchema := by
  induction keys generalizing acc with
  | nil => simp [reduceAttributes] at he
  | cons a rest ih =>
    unfold reduceAttributes at he
    split at he
    · rename_i e1 h1
      simp only [Except.error.injEq] at he
      subst he
      exact attributeStep_error _ _ _ _ _ _ h1
    · exact ih _ he

theorem assignProp_error (ps : List OwnProp) (k : String) (v : Slot) (e : Err)
    (he : assignProp ps k v = .error e) : e = .typeError := by
  induction ps with
  | nil => simp [assignProp] at he
  | cons p rest ih =>
    unfold assignProp at he
    split at he
    · split at he
      · simp at he
      · simpa using he.symm
    · split at he
      · simp at he
      · rename_i e1 h1
        simp only [Except.error.injEq] at he
        subst he
        exact ih h1

theorem assignAll_error (ps : List OwnProp) (defn : List (String × Slot)) (e : Err)
    (ps1 : List OwnProp) (he : assignAll ps defn = (.error e, ps1)) : e = .typeError := by
  induction defn generalizing ps with
  | nil => simp [assignAll] at he
  | cons kv rest ih =>
    obtain ⟨k, v⟩ := kv
    unfold assignAll at he
    split at he
    · exact ih _ he
    · rename_i e1 h1
      simp only [Prod.mk.injEq, Except.error.injEq] at he
      rw [← he.1]
      exact assignProp_error _ _ _ _ h1

theorem define_error (addr : Nat) (defn : List (String × Slot)) (h h1 : Heap) (e : Err)
    (he : define addr defn h = (.error e, h1)) : e = .typeError := by
  unfold define at he
  split at he
  · simp only [Prod.mk.injEq, Except.error.injEq] at he
    exact he.1.symm
  · split at he
    · simp only [Prod.mk.injEq, Except.error.injEq] at he
      exact he.1.symm
    · split at he
      rename_i r ps hr
      simp only [Prod.mk.injEq] at he
      rw [he.1] at hr
      exact assignAll_error _ _ _ _ hr

theorem definePropertyOn_error (ps : List OwnProp) (k : String) (v : Slot) (e : Err)
    (he : definePropertyOn ps k v = .error e) : e = .typeError := by
  induction ps with
  | nil => simp [definePropertyOn] at he
  | cons p rest ih =>
    unfold definePropertyOn at he
    split at he
    · split at he
      · simp at he
      · split at he
        · simpa using he.symm
        · split at he
          · simp at he
          · simpa using he.symm
    · split at he
      · simp at he
      · rename_i e1 h1
        simp only [Except.error.injEq] at he
        subst he
        exact ih h1

theorem defineProperty_error (addr : Nat) (k : String) (v : Slot) (h h1 : Heap) (e : Err)
    (he : defineProperty addr k v h = (.error e, h1)) : e = .typeError := by
  unfold defineProperty at he
  split at he
  · simp only [Prod.mk.injEq, Except.error.injEq] at he
    exact he.1.symm
  · split at he
    · simp at he
    · rename_i e1 h2
      simp only [Prod.mk.injEq, Except.error.injEq] at he
      rw [← he.1]
      exact definePropertyOn_error _ _ _ _ h2

theorem generateSchema_error (schema : Val) (bag : List (String × Nat)) (h h1 : Heap) (e : Err)
    (he : generateSchema schema bag h = (.error e, h1)) :
    e = .typeError ∨ e = .itemSchema := by
  unfold generateSchema at he
  split at he
  · rename_i e1 h2
    simp only [Prod.mk.injEq, Except.error.injEq] at he
    rw [← he.1]
    exact Or.inl (getProp_error _ _ _ h2)
  · split at he
    · rename_i e1 h2
      simp only [Prod.mk.injEq, Except.error.injEq] at he
      rw [← he.1]
      exact Or.inl (ownKeys_error _ _ h2)
    · split at he
      · rename_i e1 h2
        simp only [Prod.mk.injEq, Except.error.injEq] at he
        rw [← he.1]
        exact reduceAttributes_error _ _ _ _ _ _ h2
      · split at he
        · rename_i e1 h2
          simp only [Prod.mk.injEq, Except.error.injEq] at he
          rw [← he.1]
          exact Or.inl (getProp_error _ _ _ h2)
        · split at he
          · split at he
            · rename_i e1 h3 h2
              simp only [Prod.mk.injEq, Except.error.injEq] at he
              rw [← he.1]
              exact Or.inl (define_error _ _ _ _ _ h2)
            · split at he
              · rename_i e1 h3 h2
                simp only [Prod.mk.injEq, Except.error.injEq] at he
                rw [← he.1]
                exact Or.inl (defineProperty_error _ _ _ _ _ _ h2)
              · split at he
                · rename_i e1 h3 h2
                  simp only [Prod.mk.injEq, Except.error.injEq] at he
                  rw [← he.1]
                  exact Or.inl (defineProperty_error _ _ _ _ _ _ h2)
                · simp at he
          · simp only [Prod.mk.injEq, Except.error.injEq] at he
            exact Or.inl he.1.symm

theorem buildBag_error (ss : List Val) (bag : List (String × Nat)) (h h1 : Heap) (e : Err)
    (he : buildBag ss bag h = (.error e, h1)) : e = .typeError ∨ e = .schemaKey := by
  induction ss generalizing bag h with
  | nil => simp [buildBag] at he
  | cons s rest ih =>
    unfold buildBag at he
    split at he
    · rename_i e1 h2
      simp only [Prod.mk.injEq, Except.error.injEq] at he
      rw [← he.1]
      exact Or.inl (getProp_error _ _ _ h2)
    · split at he
      · rename_i e1 h3 h2
        simp only [newSchema] at h2
        split at h2
        · simp only [Prod.mk.injEq, Except.error.injEq] at h2 he
          rw [← he.1, ← h2.1]
          exact Or.inr rfl
        · simp at h2
      · exact ih _ _ he
    · simp only [Prod.mk.injEq, Except.error.injEq] at he
      exact Or.inr he.1.symm

theorem generateAll_error (ss : List Val) (bag result : List (String × Nat)) (h h1 : Heap)
    (e : Err) (he : generateAll ss bag result h = (.error e, h1)) :
    e = .typeError ∨ e = .itemSchema := by
  induction ss generalizing result h with
  | nil => simp [generateAll] at he
  | cons s rest ih =>
    unfold generateAll at he
    split at he
    · rename_i e1 h2
      simp only [Prod.mk.injEq, Except.error.injEq] at he
      rw [← he.1]
      exact Or.inl (getProp_error _ _ _ h2)
    · split at he
      · rename_i e1 h3 h2
        simp only [Prod.mk.injEq, Except.error.injEq] at he
        rw [← he.1]
        exact generateSchema_error _ _ _ _ _ h2
      · split at he
        · exact ih _ _ he
        · simp only [Prod.mk.injEq, Except.error.injEq] at he
          exact Or.inl he.1.symm

/-- C7: `generateSchemas` fails with the invalid-schemas error whenever its argument is
empty or absent (the empty list, `null`, `undefined`) or is not an array (a
plain object, a string), and it has then created no node (the heap of the call
is empty); for a non-empty list the invalid-schemas error is never raised. -/
theorem generateSchemas_invalid_input :
    (∀ schemas : Val, isEmpty schemas = true →
      generateSchemas schemas = (.error .invalidSchemas, []))
    ∧ (∀ schemas : Val, (∀ xs, schemas ≠ .arr xs) →
      generateSchemas schemas = (.error .invalidSchemas, []))
    ∧ generateSchemas (.arr []) = (.error .invalidSchemas, [])
    ∧ generateSchemas .null = (.error .invalidSchemas, [])
    ∧ generateSchemas .undefined = (.error .invalidSchemas, [])
    ∧ (∀ ps : List (String × Val), generateSchemas (.obj ps) = (.error .invalidSchemas, []))
    ∧ (∀ s : String, generateSchemas (.str s) = (.error .invalidSchemas, []))
    ∧ (∀ (x : Val) (xs : List Val),
        (generateSchemas (.arr (x :: xs))).1 ≠ .error .invalidSchemas) := by
  have hnot : ∀ schemas : Val, (∀ xs, schemas ≠ .arr xs) →
      generateSchemas schemas = (.error .invalidSchemas, []) := by
    intro schemas hs
    unfold generateSchemas
    split
    · rfl
    · split
      · exact absurd rfl (hs _)
      · rfl
  refine ⟨?_, hnot, rfl, rfl, rfl, ?_, ?_, ?_⟩
  · intro schemas hs
    simp [generateSchemas, hs]
  · intro ps
    exact hnot _ (by intro xs hx; cases hx)
  · intro s
    exact hnot _ (by intro xs hx; cases hx)
  · intro x xs hx
    have hne : isEmpty (.arr (x :: xs)) = false := rfl
    simp only [generateSchemas, hne] at hx
    cases hb : buildBag (x :: xs) [] [] with
    | mk r h1 =>
      cases r with
      | error e =>
        simp only [hb] at hx
        have := buildBag_error _ _ _ _ _ hb
        simp only [Bool.false_eq_true, if_false, Except.error.injEq] at hx
        subst hx
        simp at this
      | ok bag =>
        simp only [hb, Bool.false_eq_true, if_false] at hx
        cases hg : generateAll (x :: xs) bag [] h1 with
        | mk r2 h2 =>
          rw [hg] at hx
          simp only at hx
          subst hx
          have := generateAll_error _ _ _ _ _ _ hg
          simp at this

end EntitiesManager

/-! ## The order of enumeration -/

namespace EntitiesManager

theorem insertByIndex_perm {α : Type} (f : α → Nat) (x : α) (l : List α) :
    (insertByIndex f x l).Perm (x :: l) := by
  induction l with
  | nil => exact List.Perm.refl _
  | cons y ys ih =>
    unfold insertByIndex
    split
    · exact List.Perm.refl _
    · exact (List.Perm.cons y ih).trans (List.Perm.swap x y ys)

theorem sortByIndex_perm {α : Type} (f : α → Nat) (l : List α) : (sortByIndex f l).Perm l := by
  induction l with
  | nil => exact List.Perm.refl _
  | cons x xs ih =>
    unfold sortByIndex
    exact (insertByIndex_perm f x _).trans (List.Perm.cons x ih)

theorem propertyOrder_perm {α : Type} (name : α → String) (l : List α) :
    (propertyOrder name l).Perm l := by
  unfold propertyOrder
  exact (List.Perm.append_right _ (sortByIndex_perm _ _)).trans
    (List.filter_append_perm (fun x => (arrayIndex (name x)).isSome) l)

theorem mem_propertyOrder {α : Type} (name : α → String) (l : List α) (x : α) :
    x ∈ propertyOrder name l ↔ x ∈ l :=
  (propertyOrder_perm name l).mem_iff

theorem propertyOrder_eq_self {α : Type} (name : α → String) (l : List α)
    (h : ∀ x ∈ l, arrayIndex (name x) = none) : propertyOrder name l = l := by
  unfold propertyOrder
  have h1 : l.filter (fun x => (arrayIndex (name x)).isSome) = [] := by
    rw [List.filter_eq_nil_iff]
    intro x hx
    simp [h x hx]
  have h2 : l.filter (fun x => !(arrayIndex (name x)).isSome) = l := by
    rw [List.filter_eq_self]
    intro x hx
    simp [h x hx]
  rw [h1, h2]
  rfl

theorem insertByIndex_map {α β : Type} (g : α → β) (f : β → Nat) (x : α) (l : List α) :
    insertByIndex f (g x) (l.map g) = (insertByIndex (fun y => f (g y)) x l).map g := by
  induction l with
  | nil => rfl
  | cons y ys ih =>
    simp only [List.map_cons, insertByIndex]
    split
    · rfl
    · simp only [List.map_cons, ih]

theorem sortByIndex_map {α β : Type} (g : α → β) (f : β → Nat) (l : List α) :
    sortByIndex f (l.map g) = (sortByIndex (fun y => f (g y)) l).map g := by
  induction l with
  | nil => rfl
  | cons x xs ih =>
    simp only [List.map_cons, sortByIndex, ih, insertByIndex_map]

theorem propertyOrder_map {α : Type} (name : α → String) (l : List α) :
    propertyOrder id (l.map name) = (propertyOrder name l).map name := by
  unfold propertyOrder
  simp only [List.map_append, List.filter_map, sortByIndex_map, id, Function.comp_def]

theorem forall2_insertByIndex {α β : Type} (R : α → β → Prop) (f : α → Nat) (g : β → Nat)
    (hfg : ∀ x y, R x y → f x = g y) (x : α) (y : β) (hxy : R x y) (l1 : List α) (l2 : List β)
    (h : List.Forall₂ R l1 l2) :
    List.Forall₂ R (insertByIndex f x l1) (insertByIndex g y l2) := by
  induction h with
  | nil => exact List.Forall₂.cons hxy List.Forall₂.nil
  | @cons a b t1 t2 hab ht ih =>
    unfold insertByIndex
    rw [← hfg x y hxy, ← hfg a b hab]
    split
    · exact List.Forall₂.cons hxy (List.Forall₂.cons hab ht)
    · exact List.Forall₂.cons hab ih

theorem forall2_sortByIndex {α β : Type} (R : α → β → Prop) (f : α → Nat) (g : β → Nat)
    (hfg : ∀ x y, R x y → f x = g y) (l1 : List α) (l2 : List β)
    (h : List.Forall₂ R l1 l2) :
    List.Forall₂ R (sortByIndex f l1) (sortByIndex g l2) := by
  induction h with
  | nil => exact List.Forall₂.nil
  | @cons a b t1 t2 hab _ ih =>
    unfold sortByIndex
    exact forall2_insertByIndex R f g hfg a b hab _ _ ih

theorem forall2_filter {α β : Type} (R : α → β → Prop) (p : α → Bool) (q : β → Bool)
    (hpq : ∀ x y, R x y → p x = q y) (l1 : List α) (l2 : List β)
    (h : List.Forall₂ R l1 l2) :
    List.Forall₂ R (l1.filter p) (l2.filter q) := by
  induction h with
  | nil => exact List.Forall₂.nil
  | @cons a b t1 t2 hab _ ih =>
    simp only [List.filter_cons, ← hpq a b hab]
    split
    · exact List.Forall₂.cons hab ih
    · exact ih

theorem forall2_propertyOrder {α β : Type} (R : α → β → Prop) (n1 : α → String)
    (n2 : β → String) (hn : ∀ x y, R x y → n1 x = n2 y) (l1 : List α) (l2 : List β)
    (h : List.Forall₂ R l1 l2) :
    List.Forall₂ R (propertyOrder n1 l1) (propertyOrder n2 l2) := by
  unfold propertyOrder
  refine List.rel_append ?_ ?_
  · exact forall2_sortByIndex R _ _ (fun x y hxy => by rw [hn x y hxy]) _ _
      (forall2_filter R _ _ (fun x y hxy => by rw [hn x y hxy]) _ _ h)
  · exact forall2_filter R _ _ (fun x y hxy => by rw [hn x y hxy]) _ _ h

theorem propertyOrder_nil {α : Type} (name : α → String) : propertyOrder name [] = [] := rfl

theorem propertyOrder_singleton {α : Type} (name : α → String) (x : α) :
    propertyOrder name [x] = [x] := by
  unfold propertyOrder
  cases h : arrayIndex (name x) <;> simp [List.filter_cons, h, sortByIndex, insertByIndex]

theorem ownKeys_obj (ps : List (String × Val)) :
    ownKeys (.obj ps) = .ok ((propertyOrder Prod.fst ps).map Prod.fst) := by
  simp only [ownKeys, propertyOrder_map]

end EntitiesManager

/-! ## Property lists and the heap -/

namespace EntitiesManager

theorem getProp_obj (ps : List (String × Val)) (k : String) :
    getProp (.obj ps) k = .ok ((ps.lookup k).getD (inheritedMember k)) := rfl

theorem getProp_obj_some (ps : List (String × Val)) (k : String) (v : Val)
    (h : ps.lookup k = some v) : getProp (.obj ps) k = .ok v := by
  simp [getProp, h]

@[simp] theorem inheritedMember_isArray : inheritedMember "isArray" = .undefined := rfl

@[simp] theorem inheritedMember_relatedSchema : inheritedMember "relatedSchema" = .undefined :=
  rfl

@[simp] theorem inheritedMember_name : inheritedMember "name" = .undefined := rfl

@[simp] theorem inheritedMember_attributes : inheritedMember "attributes" = .undefined :=
  rfl

theorem lookup_setProp {α : Type} (ps : List (String × α)) (k k1 : String) (v : α) :
    (setProp ps k v).lookup k1 = if k1 = k then some v else ps.lookup k1 := by
  induction ps with
  | nil =>
    by_cases h : k1 = k
    · simp [setProp, List.lookup, h]
    · have hb : (k1 == k) = false := by simpa using h
      simp [setProp, List.lookup, h, hb]
  | cons p rest ih =>
    obtain ⟨k2, v2⟩ := p
    by_cases h2 : k2 = k
    · by_cases h : k1 = k
      · simp [setProp, List.lookup, h, h2]
      · have hb : (k1 == k) = false := by simpa using h
        simp [setProp, List.lookup, h, h2, hb]
    · by_cases h : k1 = k2
      · have h3 : ¬ k1 = k := fun h4 => h2 (h ▸ h4)
        simp [setProp, List.lookup, h, h2]
      · have hb : (k1 == k2) = false := by simpa using h
        simp [setProp, List.lookup, h2, hb, ih]

theorem find_definePropertyOn_self (ps ps1 : List OwnProp) (k : String) (v : Slot)
    (h : definePropertyOn ps k v = .ok ps1) :
    ∃ p, ps1.find? (fun p => p.name == k) = some p ∧ p.value = v := by
  induction ps generalizing ps1 with
  | nil =>
    simp only [definePropertyOn, Except.ok.injEq] at h
    subst h
    simp
  | cons p rest ih =>
    unfold definePropertyOn at h
    split at h
    · rename_i hk
      split at h
      · simp only [Except.ok.injEq] at h
        subst h
        simp [hk]
      · split at h
        · simp at h
        · split at h
          · simp only [Except.ok.injEq] at h
            subst h
            simp [hk]
          · simp at h
    · rename_i hk
      split at h
      · rename_i rest1 hr
        simp only [Except.ok.injEq] at h
        subst h
        obtain ⟨q, hq1, hq2⟩ := ih _ hr
        exact ⟨q, by simp [hk, hq1], hq2⟩
      · simp at h

theorem find_definePropertyOn_other (ps ps1 : List OwnProp) (k k1 : String) (v : Slot)
    (h : definePropertyOn ps k v = .ok ps1) (hk1 : k1 ≠ k) :
    ps1.find? (fun p => p.name == k1) = ps.find? (fun p => p.name == k1) := by
  induction ps generalizing ps1 with
  | nil =>
    simp only [definePropertyOn, Except.ok.injEq] at h
    subst h
    simp [Ne.symm hk1]
  | cons p rest ih =>
    unfold definePropertyOn at h
    split at h
    · rename_i hk
      have hne : ¬ p.name = k1 := fun h2 => hk1 (h2 ▸ hk)
      split at h
      · simp only [Except.ok.injEq] at h
        subst h
        simp [hne]
      · split at h
        · simp at h
        · split at h
          · simp only [Except.ok.injEq] at h
            subst h
            simp [hne]
          · simp at h
    · split at h
      · rename_i rest1 hr
        simp only [Except.ok.injEq] at h
        subst h
        by_cases hp : p.name = k1
        · simp [hp]
        · simp [hp, ih _ hr]
      · simp at h

theorem sameKeys_refl (h : Heap) : SameKeys h h := fun _ => rfl

theorem sameKeys_trans (h h1 h2 : Heap) (a : SameKeys h h1) (b : SameKeys h1 h2) :
    SameKeys h h2 := fun x => (b x).trans (a x)

theorem frame_refl (addr : Nat) (h : Heap) : Frame addr h h :=
  ⟨fun _ _ => rfl, sameKeys_refl h⟩

theorem frame_trans (addr : Nat) (h h1 h2 : Heap) (a : Frame addr h h1) (b : Frame addr h1 h2) :
    Frame addr h h2 :=
  ⟨fun x hx => (b.1 x hx).trans (a.1 x hx), sameKeys_trans _ _ _ a.2 b.2⟩

theorem frame_set (addr : Nat) (h : Heap) (node : Node) (ps : List OwnProp)
    (hn : h[addr]? = some node) : Frame addr h (h.set addr { node with props := ps }) := by
  refine ⟨?_, ?_⟩
  · intro b hb
    exact List.getElem?_set_ne (Ne.symm hb)
  · intro b
    by_cases hb : b = addr
    · subst hb
      have hlt : b < h.length := by
        rcases List.getElem?_eq_some.mp hn with ⟨hlt, _⟩
        exact hlt
      rw [List.getElem?_set_self hlt, hn]
      rfl
    · rw [List.getElem?_set_ne (Ne.symm hb)]

theorem getElem?_set_node (addr : Nat) (h : Heap) (node n1 : Node)
    (hn : h[addr]? = some node) : (h.set addr n1)[addr]? = some n1 := by
  have hlt : addr < h.length := by
    rcases List.getElem?_eq_some.mp hn with ⟨hlt, _⟩
    exact hlt
  exact List.getElem?_set_self hlt

theorem define_ok (addr : Nat) (defn : List (String × Slot)) (h h1 : Heap)
    (he : define addr defn h = (.ok (), h1)) :
    ∃ node ps, h[addr]? = some node ∧ assignAll node.props defn = (.ok (), ps)
      ∧ h1 = h.set addr { node with props := ps } := by
  unfold define at he
  split at he
  · simp at he
  · rename_i node hn
    split at he
    · simp at he
    · split at he
      rename_i r ps hr
      simp only [Prod.mk.injEq] at he
      refine ⟨node, ps, hn, ?_, he.2.symm⟩
      rw [hr, he.1]

theorem defineProperty_ok (addr : Nat) (k : String) (v : Slot) (h h1 : Heap)
    (he : defineProperty addr k v h = (.ok (), h1)) :
    ∃ node ps, h[addr]? = some node ∧ definePropertyOn node.props k v = .ok ps
      ∧ h1 = h.set addr { node with props := ps } := by
  unfold defineProperty at he
  split at he
  · simp at he
  · rename_i node hn
    split at he
    · rename_i ps hp
      simp only [Prod.mk.injEq, true_and] at he
      exact ⟨node, ps, hn, hp, he.symm⟩
    · simp at he

end EntitiesManager

/-! ## What a successful generation leaves in the heap -/

namespace EntitiesManager

theorem isRelatedTo_append (rel : List RelatedEntity) (e : RelatedEntity) (n : String) :
    isRelatedTo (rel ++ [e]) n = (isRelatedTo rel n || strictEqStr e.entity n) := by
  simp [isRelatedTo]

theorem attributeStep_targets (bag : List (String × Nat)) (h : Heap) (attributes : Val)
    (acc acc1 : List (String × Slot) × List RelatedEntity) (a n : String)
    (hs : attributeStep bag h attributes acc a = .ok acc1) :
    isRelatedTo acc1.2 n = (isRelatedTo acc.2 n || attributeTargets attributes n a) := by
  unfold attributeStep at hs
  unfold attributeTargets
  cases hg : getProp attributes a with
  | error e => simp [hg] at hs
  | ok v =>
    simp only [hg] at hs
    cases v with
    | func id =>
      simp only [Except.ok.injEq] at hs
      subst hs
      simp [targetsName, strictEqStr, isArrayReference]
    | str s =>
      simp only [Except.ok.injEq] at hs
      subst hs
      simp [targetsName, isArrayReference, isRelatedTo_append]
    | obj ps =>
      simp only [getProp_obj, inheritedMember_isArray, inheritedMember_relatedSchema] at hs
      by_cases hf : truthy ((ps.lookup "isArray").getD .undefined) = true
      · simp only [hf, if_true] at hs
        split at hs
        · simp at hs
        · simp only [Except.ok.injEq] at hs
          subst hs
          simp [targetsName, isArrayReference, getProp_obj, hf, isRelatedTo_append, strictEqStr]
      · simp only [hf] at hs
        simp only [Bool.false_eq_true, if_false, Except.ok.injEq] at hs
        subst hs
        simp [targetsName, isArrayReference, getProp_obj, hf, strictEqStr]
    | arr xs =>
      cases hi : getProp (.arr xs) "isArray" with
      | error e => simp [getProp] at hi
      | ok flag =>
        simp only [hi] at hs
        by_cases hf : truthy flag = true
        · simp only [hf, if_true] at hs
          cases hr : getProp (.arr xs) "relatedSchema" with
          | error e => simp [hr] at hs
          | ok r =>
            simp only [hr] at hs
            split at hs
            · simp at hs
            · simp only [Except.ok.injEq] at hs
              subst hs
              simp [targetsName, isArrayReference, hi, hr, hf, isRelatedTo_append, strictEqStr]
        · simp only [hf] at hs
          simp only [Bool.false_eq_true, if_false, Except.ok.injEq] at hs
          subst hs
          simp [targetsName, isArrayReference, hi, hf, strictEqStr]
    | undefined => simp [getProp] at hs
    | null => simp [getProp] at hs
    | bool b =>
      simp only [getProp, truthy, Bool.false_eq_true, if_false, Except.ok.injEq] at hs
      subst hs
      simp [targetsName, isArrayReference, getProp, truthy, strictEqStr]
    | num m =>
      simp only [getProp, truthy, Bool.false_eq_true, if_false, Except.ok.injEq] at hs
      subst hs
      simp [targetsName, isArrayReference, getProp, truthy, strictEqStr]
    | nan =>
      simp only [getProp, truthy, Bool.false_eq_true, if_false, Except.ok.injEq] at hs
      subst hs
      simp [targetsName, isArrayReference, getProp, truthy, strictEqStr]

theorem reduceAttributes_targets (bag : List (String × Nat)) (h : Heap) (attributes : Val)
    (keys : List String) (acc acc1 : List (String × Slot) × List RelatedEntity) (n : String)
    (hs : reduceAttributes bag h attributes keys acc = .ok acc1) :
    isRelatedTo acc1.2 n = (isRelatedTo acc.2 n || keys.any (attributeTargets attributes n)) := by
  induction keys generalizing acc with
  | nil =>
    simp only [reduceAttributes, Except.ok.injEq] at hs
    subst hs
    simp
  | cons a rest ih =>
    unfold reduceAttributes at hs
    split at hs
    · simp at hs
    · rename_i acc2 h2
      rw [ih _ hs, attributeStep_targets _ _ _ _ _ _ n h2]
      simp [Bool.or_assoc]

theorem generateSchema_ok (schema : Val) (bag : List (String × Nat)) (h h1 : Heap) (a : Nat)
    (he : generateSchema schema bag h = (.ok a, h1)) :
    ∃ attributes keys defn rel name,
      getProp schema "attributes" = .ok attributes
      ∧ ownKeys attributes = .ok keys
      ∧ reduceAttributes bag h attributes keys ([], []) = .ok (defn, rel)
      ∧ getProp schema "name" = .ok name
      ∧ bagGet bag name = .schema a
      ∧ Frame a h h1
      ∧ (∃ p, ownProp h1 a "isRelatedTo" = some p ∧ p.value = .isRelatedTo rel)
      ∧ (∃ p, ownProp h1 a "getRelation" = some p ∧ p.value = .getRelation a rel bag) := by
  unfold generateSchema at he
  split at he
  · simp at he
  · rename_i attributes hattr
    split at he
    · simp at he
    · rename_i keys hkeys
      split at he
      · simp at he
      · rename_i defn rel hred
        split at he
        · simp at he
        · rename_i name hname
          split at he
          · rename_i finalSchema hbag
            split at he
            · simp at he
            · rename_i u1 h2 hdef
              split at he
              · simp at he
              · rename_i u2 h3 hp1
                split at he
                · simp at he
                · rename_i u3 h4 hp2
                  simp only [Prod.mk.injEq, Except.ok.injEq] at he
                  obtain ⟨hfa, hh⟩ := he
                  subst hfa
                  subst hh
                  obtain ⟨n0, ps0, hn0, _, e2⟩ := define_ok _ _ _ _ hdef
                  obtain ⟨n1, ps1, hn1, hd1, e3⟩ := defineProperty_ok _ _ _ _ _ hp1
                  obtain ⟨n2, ps2, hn2, hd2, e4⟩ := defineProperty_ok _ _ _ _ _ hp2
                  have f1 : Frame finalSchema h h2 := e2 ▸ frame_set _ _ _ _ hn0
                  have f2 : Frame finalSchema h2 h3 := e3 ▸ frame_set _ _ _ _ hn1
                  have f3 : Frame finalSchema h3 h4 := e4 ▸ frame_set _ _ _ _ hn2
                  have g3 : h3[finalSchema]? = some { n1 with props := ps1 } :=
                    e3 ▸ getElem?_set_node _ _ _ _ hn1
                  have g4 : h4[finalSchema]? = some { n2 with props := ps2 } :=
                    e4 ▸ getElem?_set_node _ _ _ _ hn2
                  have e5 : n2 = { n1 with props := ps1 } := by
                    rw [g3] at hn2
                    exact (Option.some.inj hn2).symm
                  refine ⟨attributes, keys, defn, rel, name, hattr, hkeys, hred, hname, hbag,
                    frame_trans _ _ _ _ (frame_trans _ _ _ _ f1 f2) f3, ?_, ?_⟩
                  · obtain ⟨p, hp, hv⟩ := find_definePropertyOn_self _ _ _ _ hd1
                    refine ⟨p, ?_, hv⟩
                    simp only [ownProp, g4, Option.some_bind]
                    rw [find_definePropertyOn_other _ _ _ _ _ hd2 (by decide), e5]
                    exact hp
                  · obtain ⟨p, hp, hv⟩ := find_definePropertyOn_self _ _ _ _ hd2
                    refine ⟨p, ?_, hv⟩
                    simp only [ownProp, g4, Option.some_bind]
                    exact hp
          · simp at he

end EntitiesManager

/-! ## The two passes of `generateSchemas` -/

namespace EntitiesManager

theorem bagGet_str (bag : List (String × Nat)) (k : String) (a : Nat) :
    bagGet bag (.str k) = .schema a ↔ bag.lookup k = some a := by
  unfold bagGet
  simp only [propertyKey]
  cases bag.lookup k with
  | none =>
    simp only [reduceCtorEq, iff_false]
    split <;> simp
  | some b => simp

theorem bagOk_of_sameKeys (bag : List (String × Nat)) (h h1 : Heap) (hb : BagOk bag h)
    (hs : SameKeys h h1) : BagOk bag h1 := by
  intro k a hk
  obtain ⟨node, hn, hkey⟩ := hb k a hk
  have h2 := hs a
  rw [hn] at h2
  cases h3 : h1[a]? with
  | none => simp [h3] at h2
  | some n1 =>
    rw [h3] at h2
    simp only [Option.map_some', Option.some.injEq] at h2
    exact ⟨n1, rfl, h2.trans hkey⟩

theorem newSchema_ok (name : String) (h h1 : Heap) (addr : Nat)
    (he : newSchema name h = (.ok addr, h1)) :
    name ≠ "" ∧ addr = h.length ∧ h1 = h ++ [{ key := name, props := [] }] := by
  unfold newSchema at he
  split at he
  · simp at he
  · rename_i hne
    simp only [Prod.mk.injEq, Except.ok.injEq] at he
    exact ⟨hne, he.1.symm, he.2.symm⟩

theorem bagOk_alloc (bag : List (String × Nat)) (h : Heap) (name : String) (hb : BagOk bag h) :
    BagOk (setProp bag name h.length) (h ++ [{ key := name, props := [] }]) := by
  intro k a hk
  rw [lookup_setProp] at hk
  by_cases hkn : k = name
  · simp only [hkn, if_true, Option.some.injEq] at hk
    subst hk
    exact ⟨_, List.getElem?_concat_length _ _, hkn.symm⟩
  · simp only [hkn, if_false] at hk
    obtain ⟨node, hn, hkey⟩ := hb k a hk
    have hlt : a < h.length := by
      rcases List.getElem?_eq_some.mp hn with ⟨hlt, _⟩
      exact hlt
    exact ⟨node, by rw [List.getElem?_append_left hlt]; exact hn, hkey⟩

theorem buildBag_bagOk (ss : List Val) (bag bag1 : List (String × Nat)) (h h1 : Heap)
    (he : buildBag ss bag h = (.ok bag1, h1)) (hb : BagOk bag h) : BagOk bag1 h1 := by
  induction ss generalizing bag h with
  | nil =>
    simp only [buildBag, Prod.mk.injEq, Except.ok.injEq] at he
    rw [← he.1, ← he.2]
    exact hb
  | cons s rest ih =>
    unfold buildBag at he
    split at he
    · simp at he
    · rename_i name hname
      split at he
      · simp at he
      · rename_i addr h2 hnew
        obtain ⟨_, ha, hh⟩ := newSchema_ok _ _ _ _ hnew
        subst ha
        subst hh
        exact ih _ _ he (bagOk_alloc _ _ _ hb)
    · simp at he

theorem buildBag_keeps (ss : List Val) (bag bag1 : List (String × Nat)) (h h1 : Heap)
    (he : buildBag ss bag h = (.ok bag1, h1)) (k : String)
    (hk : (bag.lookup k).isSome = true) : (bag1.lookup k).isSome = true := by
  induction ss generalizing bag h with
  | nil =>
    simp only [buildBag, Prod.mk.injEq, Except.ok.injEq] at he
    rw [← he.1]
    exact hk
  | cons s rest ih =>
    unfold buildBag at he
    split at he
    · simp at he
    · rename_i name hname
      split at he
      · simp at he
      · rename_i addr h2 hnew
        refine ih _ _ he ?_
        rw [lookup_setProp]
        split
        · rfl
        · exact hk
    · simp at he

theorem buildBag_names (ss : List Val) (bag bag1 : List (String × Nat)) (h h1 : Heap)
    (he : buildBag ss bag h = (.ok bag1, h1)) :
    ∀ s ∈ ss, ∃ nm, getProp s "name" = .ok (.str nm) ∧ nm ≠ ""
      ∧ (bag1.lookup nm).isSome = true := by
  induction ss generalizing bag h with
  | nil => intro s hs; cases hs
  | cons s rest ih =>
    unfold buildBag at he
    split at he
    · simp at he
    · rename_i name hname
      split at he
      · simp at he
      · rename_i addr h2 hnew
        obtain ⟨hne, _, _⟩ := newSchema_ok _ _ _ _ hnew
        intro s1 hs1
        rcases List.mem_cons.mp hs1 with hs1 | hs1
        · subst hs1
          refine ⟨name, hname, hne, buildBag_keeps _ _ _ _ _ he name ?_⟩
          rw [lookup_setProp]
          simp
        · exact ih _ _ he s1 hs1
    · simp at he

theorem ownProp_congr (h h1 : Heap) (a : Nat) (k : String) (he : h1[a]? = h[a]?) :
    ownProp h1 a k = ownProp h a k := by
  simp only [ownProp, he]

theorem generateAll_later (rest : List Val) (bag result reg : List (String × Nat))
    (h h1 : Heap) (nm : String) (a : Nat)
    (he : generateAll rest bag result h = (.ok reg, h1)) (hb : BagOk bag h)
    (ha : bag.lookup nm = some a)
    (hn : ∀ s ∈ rest, ∃ nm1, getProp s "name" = .ok (.str nm1) ∧ nm1 ≠ nm) :
    h1[a]? = h[a]? ∧ reg.lookup nm = result.lookup nm ∧ SameKeys h h1 := by
  induction rest generalizing result h with
  | nil =>
    simp only [generateAll, Prod.mk.injEq, Except.ok.injEq] at he
    rw [← he.1, ← he.2]
    exact ⟨rfl, rfl, sameKeys_refl h⟩
  | cons s rest ih =>
    unfold generateAll at he
    split at he
    · simp at he
    · rename_i name hname
      split at he
      · simp at he
      · rename_i a1 h2 hgen
        obtain ⟨nm1, hnm1, hne⟩ := hn s (List.mem_cons_self _ _)
        rw [hname] at hnm1
        simp only [Except.ok.injEq] at hnm1
        subst hnm1
        simp only [propertyKey] at he
        obtain ⟨_, _, _, _, name2, _, _, _, hname2, hbag, hframe, _, _⟩ :=
          generateSchema_ok _ _ _ _ _ hgen
        rw [hname] at hname2
        simp only [Except.ok.injEq] at hname2
        subst hname2
        have ha1 : bag.lookup nm1 = some a1 := (bagGet_str _ _ _).mp hbag
        have hne2 : a ≠ a1 := by
          intro h3
          subst h3
          obtain ⟨n1, hn1, hk1⟩ := hb _ _ ha
          obtain ⟨n2, hn2, hk2⟩ := hb _ _ ha1
          rw [hn1] at hn2
          simp only [Option.some.injEq] at hn2
          subst hn2
          exact hne (hk2.symm.trans hk1)
        have hb2 : BagOk bag h2 := bagOk_of_sameKeys _ _ _ hb hframe.2
        obtain ⟨i1, i2, i3⟩ := ih _ _ he hb2
          (fun s1 hs1 => hn s1 (List.mem_cons_of_mem _ hs1))
        refine ⟨i1.trans (hframe.1 a hne2), ?_, sameKeys_trans _ _ _ hframe.2 i3⟩
        rw [i2, lookup_setProp, if_neg (Ne.symm hne)]

theorem generateAll_node (pre post : List Val) (D : Val) (nm : String)
    (bag result reg : List (String × Nat)) (h h1 : Heap)
    (he : generateAll (pre ++ D :: post) bag result h = (.ok reg, h1)) (hb : BagOk bag h)
    (hstr : ∀ s ∈ pre ++ D :: post, ∃ nm1, getProp s "name" = .ok (.str nm1))
    (hD : getProp D "name" = .ok (.str nm))
    (hlast : ∀ s ∈ post, getProp s "name" ≠ .ok (.str nm)) :
    ∃ a attributes keys defn rel h0,
      bag.lookup nm = some a ∧ reg.lookup nm = some a
      ∧ getProp D "attributes" = .ok attributes
      ∧ ownKeys attributes = .ok keys
      ∧ reduceAttributes bag h0 attributes keys ([], []) = .ok (defn, rel)
      ∧ (∃ p, ownProp h1 a "isRelatedTo" = some p ∧ p.value = .isRelatedTo rel)
      ∧ (∃ p, ownProp h1 a "getRelation" = some p ∧ p.value = .getRelation a rel bag)
      ∧ BagOk bag h1 := by
  induction pre generalizing result h with
  | nil =>
    simp only [List.nil_append] at he hstr
    unfold generateAll at he
    split at he
    · simp at he
    · rename_i name hname
      split at he
      · simp at he
      · rename_i a1 h2 hgen
        rw [hD] at hname
        simp only [Except.ok.injEq] at hname
        subst hname
        simp only [propertyKey] at he
        obtain ⟨attributes, keys, defn, rel, name2, hattr, hkeys, hred, hname2, hbag, hframe,
          hp1, hp2⟩ := generateSchema_ok _ _ _ _ _ hgen
        rw [hD] at hname2
        simp only [Except.ok.injEq] at hname2
        subst hname2
        have ha1 : bag.lookup nm = some a1 := (bagGet_str _ _ _).mp hbag
        have hb2 : BagOk bag h2 := bagOk_of_sameKeys _ _ _ hb hframe.2
        have hn : ∀ s ∈ post, ∃ nm1, getProp s "name" = .ok (.str nm1) ∧ nm1 ≠ nm := by
          intro s hs
          obtain ⟨nm1, h3⟩ := hstr s (List.mem_cons_of_mem _ hs)
          refine ⟨nm1, h3, ?_⟩
          intro h4
          subst h4
          exact hlast s hs h3
        obtain ⟨i1, i2, i3⟩ := generateAll_later _ _ _ _ _ _ _ _ he hb2 ha1 hn
        refine ⟨a1, attributes, keys, defn, rel, h, ha1, ?_, hattr, hkeys, hred, ?_, ?_,
          bagOk_of_sameKeys _ _ _ hb2 i3⟩
        · rw [i2, lookup_setProp, if_pos rfl]
        · rw [ownProp_congr _ _ _ _ i1]
          exact hp1
        · rw [ownProp_congr _ _ _ _ i1]
          exact hp2
  | cons s pre ih =>
    simp only [List.cons_append] at he hstr
    unfold generateAll at he
    split at he
    · simp at he
    · rename_i name hname
      split at he
      · simp at he
      · rename_i a1 h2 hgen
        obtain ⟨nm1, hnm1⟩ := hstr s (List.mem_cons_self _ _)
        rw [hname] at hnm1
        simp only [Except.ok.injEq] at hnm1
        subst hnm1
        simp only [propertyKey] at he
        obtain ⟨_, _, _, _, _, _, _, _, _, _, hframe, _, _⟩ := generateSchema_ok _ _ _ _ _ hgen
        exact ih _ _ he (bagOk_of_sameKeys _ _ _ hb hframe.2)
          (fun s1 hs1 => hstr s1 (List.mem_cons_of_mem _ hs1))

end EntitiesManager

/-! ## Generation of a valid batch succeeds -/

namespace EntitiesManager

theorem lookup_of_mem_keys {α : Type} (ps : List (String × α)) (a : String)
    (h : a ∈ ps.map Prod.fst) : ∃ v, ps.lookup a = some v ∧ (a, v) ∈ ps := by
  induction ps with
  | nil => simp at h
  | cons p rest ih =>
    obtain ⟨k, w⟩ := p
    by_cases hk : a = k
    · subst hk
      exact ⟨w, by simp [List.lookup], List.mem_cons_self _ _⟩
    · have hb : (a == k) = false := by simpa using hk
      simp only [List.map_cons, List.mem_cons, hk, false_or] at h
      obtain ⟨v, hv, hm⟩ := ih h
      exact ⟨v, by simp [List.lookup, hb, hv], List.mem_cons_of_mem _ hm⟩

theorem keys_of_lookup {α : Type} (ps : List (String × α)) (a : String) (v : α)
    (h : ps.lookup a = some v) : a ∈ ps.map Prod.fst := by
  induction ps with
  | nil => simp [List.lookup] at h
  | cons p rest ih =>
    obtain ⟨k, w⟩ := p
    by_cases hk : a = k
    · simp [hk]
    · have hb : (a == k) = false := by simpa using hk
      simp only [List.lookup, hb] at h
      simp [ih h]

theorem setProp_keys_absent {α : Type} (ps : List (String × α)) (k : String) (v : α)
    (h : k ∉ ps.map Prod.fst) : (setProp ps k v).map Prod.fst = ps.map Prod.fst ++ [k] := by
  induction ps with
  | nil => rfl
  | cons p rest ih =>
    simp only [List.map_cons, List.mem_cons, not_or] at h
    have hne : ¬ p.1 = k := fun h2 => h.1 h2.symm
    simp [setProp, hne, ih h.2]

theorem assignProp_open (ps : List OwnProp) (k : String) (v : Slot) (ho : AllOpen ps) :
    ∃ ps1, assignProp ps k v = .ok ps1 ∧ AllOpen ps1 := by
  induction ps with
  | nil =>
    refine ⟨_, rfl, ?_⟩
    intro p hp
    simp only [List.mem_singleton] at hp
    subst hp
    exact ⟨rfl, rfl⟩
  | cons p rest ih =>
    have hp := ho p (List.mem_cons_self _ _)
    have hrest : AllOpen rest := fun q hq => ho q (List.mem_cons_of_mem _ hq)
    by_cases hk : p.name = k
    · refine ⟨{ p with value := v } :: rest, by simp [assignProp, hk, hp.1], ?_⟩
      intro q hq
      rcases List.mem_cons.mp hq with hq | hq
      · subst hq
        exact hp
      · exact hrest q hq
    · obtain ⟨ps1, h1, h2⟩ := ih hrest
      refine ⟨p :: ps1, by simp [assignProp, hk, h1], ?_⟩
      intro q hq
      rcases List.mem_cons.mp hq with hq | hq
      · subst hq
        exact hp
      · exact h2 q hq

theorem assignAll_open (ps : List OwnProp) (defn : List (String × Slot)) (ho : AllOpen ps) :
    ∃ ps1, assignAll ps defn = (.ok (), ps1) ∧ AllOpen ps1 := by
  induction defn generalizing ps with
  | nil => exact ⟨ps, rfl, ho⟩
  | cons kv rest ih =>
    obtain ⟨k, v⟩ := kv
    obtain ⟨ps1, h1, h2⟩ := assignProp_open ps k v ho
    obtain ⟨ps2, h3, h4⟩ := ih ps1 h2
    exact ⟨ps2, by simp [assignAll, h1, h3], h4⟩

theorem definePropertyOn_succeeds (ps : List OwnProp) (k : String) (v : Slot)
    (hc : ∀ p ∈ ps, p.name = k → p.configurable = true) :
    ∃ ps1, definePropertyOn ps k v = .ok ps1 := by
  induction ps with
  | nil => exact ⟨_, rfl⟩
  | cons p rest ih =>
    by_cases hk : p.name = k
    · exact ⟨{ p with value := v, enumerable := false } :: rest,
        by simp [definePropertyOn, hk, hc p (List.mem_cons_self _ _) hk]⟩
    · obtain ⟨ps1, h1⟩ := ih (fun q hq => hc q (List.mem_cons_of_mem _ hq))
      exact ⟨p :: ps1, by simp [definePropertyOn, hk, h1]⟩

theorem definePropertyOn_others (ps ps1 : List OwnProp) (k : String) (v : Slot)
    (h : definePropertyOn ps k v = .ok ps1)
    (hc : ∀ p ∈ ps, p.name ≠ k → p.configurable = true) :
    ∀ p ∈ ps1, p.name ≠ k → p.configurable = true := by
  induction ps generalizing ps1 with
  | nil =>
    simp only [definePropertyOn, Except.ok.injEq] at h
    subst h
    intro p hp hne
    simp only [List.mem_singleton] at hp
    subst hp
    exact absurd rfl hne
  | cons p rest ih =>
    have hrest : ∀ q ∈ rest, q.name ≠ k → q.configurable = true :=
      fun q hq => hc q (List.mem_cons_of_mem _ hq)
    unfold definePropertyOn at h
    split at h
    · rename_i hk
      have key : ∀ p1 : OwnProp, p1.name = p.name → ∀ q ∈ p1 :: rest, q.name ≠ k →
          q.configurable = true := by
        intro p1 hp1 q hq hne
        rcases List.mem_cons.mp hq with hq | hq
        · subst hq
          exact absurd (hp1.trans hk) hne
        · exact hrest q hq hne
      split at h
      · simp only [Except.ok.injEq] at h
        subst h
        exact key _ rfl
      · split at h
        · simp at h
        · split at h
          · simp only [Except.ok.injEq] at h
            subst h
            exact key _ rfl
          · simp at h
    · rename_i hk
      split at h
      · rename_i rest1 hr
        simp only [Except.ok.injEq] at h
        subst h
        intro q hq hne
        rcases List.mem_cons.mp hq with hq | hq
        · subst hq
          exact hc _ (List.mem_cons_self _ _) hne
        · exact ih _ hr hrest q hq hne
      · simp at h

theorem attributeStep_succeeds (names : List String) (bag : List (String × Nat)) (h : Heap)
    (attributes : Val) (acc : List (String × Slot) × List RelatedEntity) (a : String) (v : Val)
    (hcover : ∀ n ∈ names, (bag.lookup n).isSome = true)
    (hv : getProp attributes a = .ok v) (hvalid : validAttribute names v) :
    ∃ acc1, attributeStep bag h attributes acc a = .ok acc1 := by
  unfold attributeStep
  rw [hv]
  rcases hvalid with ⟨id, rfl⟩ | ⟨s, rfl, _⟩ | ⟨s, rfl, hs⟩
  · exact ⟨_, rfl⟩
  · exact ⟨_, rfl⟩
  · obtain ⟨b, hb⟩ := Option.isSome_iff_exists.mp (hcover s hs)
    have hg : bagGet bag (.str s) = .schema b := (bagGet_str _ _ _).mpr hb
    simp [marker, getProp_obj, List.lookup, truthy, hg, arrayOf]

theorem reduceAttributes_succeeds (names : List String) (bag : List (String × Nat)) (h : Heap)
    (attributes : Val) (keys : List String) (acc : List (String × Slot) × List RelatedEntity)
    (hcover : ∀ n ∈ names, (bag.lookup n).isSome = true)
    (hvalid : ∀ a ∈ keys, ∃ v, getProp attributes a = .ok v ∧ validAttribute names v) :
    ∃ acc1, reduceAttributes bag h attributes keys acc = .ok acc1 := by
  induction keys generalizing acc with
  | nil => exact ⟨acc, rfl⟩
  | cons a rest ih =>
    obtain ⟨v, hv, hva⟩ := hvalid a (List.mem_cons_self _ _)
    obtain ⟨acc1, h1⟩ := attributeStep_succeeds names bag h attributes acc a v hcover hv hva
    obtain ⟨acc2, h2⟩ := ih acc1 (fun b hb => hvalid b (List.mem_cons_of_mem _ hb))
    exact ⟨acc2, by simp [reduceAttributes, h1, h2]⟩

theorem generateSchema_succeeds (names : List String) (bag : List (String × Nat)) (h : Heap)
    (nm : String) (ps : List (String × Val)) (a : Nat) (node : Node)
    (hcover : ∀ n ∈ names, (bag.lookup n).isSome = true)
    (hvalid : ∀ av ∈ ps, validAttribute names av.2)
    (ha : bag.lookup nm = some a) (hn : h[a]? = some node) (hfresh : node.props = []) :
    ∃ h1, generateSchema (descriptor (.str nm) (.obj ps)) bag h = (.ok a, h1) := by
  have hred : ∃ acc1, reduceAttributes bag h (.obj ps) (propertyOrder id (ps.map Prod.fst))
      ([], []) = .ok acc1 := by
    refine reduceAttributes_succeeds names bag h _ _ _ hcover ?_
    intro k hk
    obtain ⟨v, hv, hm⟩ := lookup_of_mem_keys ps k ((mem_propertyOrder id _ k).mp hk)
    exact ⟨v, by simp [getProp_obj, hv], hvalid _ hm⟩
  obtain ⟨⟨defn, rel⟩, hred⟩ := hred
  have hg : bagGet bag (.str nm) = .schema a := (bagGet_str _ _ _).mpr ha
  obtain ⟨ps1, hps1, ho1⟩ := assignAll_open [] defn (by intro p hp; cases hp)
  have hdef : define a defn h = (.ok (), h.set a { node with props := ps1 }) := by
    simp [define, hn, hfresh, hps1]
  have g1 : (h.set a { node with props := ps1 })[a]? = some { node with props := ps1 } :=
    getElem?_set_node _ _ _ _ hn
  obtain ⟨ps2, hps2⟩ := definePropertyOn_succeeds ps1 "isRelatedTo" (.isRelatedTo rel)
    (fun p hp _ => (ho1 p hp).2)
  have hc2 := definePropertyOn_others _ _ _ _ hps2 (fun p hp _ => (ho1 p hp).2)
  obtain ⟨ps3, hps3⟩ := definePropertyOn_succeeds ps2 "getRelation" (.getRelation a rel bag)
    (fun p hp hk => hc2 p hp (by rw [hk]; decide))
  have g2 : (h.set a { node with props := ps2 })[a]? = some { node with props := ps2 } :=
    getElem?_set_node _ _ _ _ hn
  refine ⟨((h.set a { node with props := ps1 }).set a { node with props := ps2 }).set a
    { node with props := ps3 }, ?_⟩
  simp [generateSchema, descriptor, getProp_obj, List.lookup, ownKeys, hred, hg, hdef,
    defineProperty, g1, hps2, g2, hps3]

theorem bagFresh_alloc (bag : List (String × Nat)) (h : Heap) (name : String)
    (hb : BagFresh bag h) :
    BagFresh (setProp bag name h.length) (h ++ [{ key := name, props := [] }]) := by
  intro k a hk
  rw [lookup_setProp] at hk
  by_cases hkn : k = name
  · simp only [hkn, if_true, Option.some.injEq] at hk
    subst hk
    exact ⟨_, List.getElem?_concat_length _ _, hkn.symm, rfl⟩
  · simp only [hkn, if_false] at hk
    obtain ⟨node, hn, hkey, hp⟩ := hb k a hk
    have hlt : a < h.length := by
      rcases List.getElem?_eq_some.mp hn with ⟨hlt, _⟩
      exact hlt
    exact ⟨node, by rw [List.getElem?_append_left hlt]; exact hn, hkey, hp⟩

theorem buildBag_succeeds (batch : List (String × List (String × Val)))
    (bag : List (String × Nat)) (h : Heap) (hne : ∀ n ∈ batch.map Prod.fst, n ≠ "")
    (hb : BagFresh bag h) :
    ∃ bag1 h1, buildBag (descriptors batch) bag h = (.ok bag1, h1) ∧ BagFresh bag1 h1 := by
  induction batch generalizing bag h with
  | nil => exact ⟨bag, h, rfl, hb⟩
  | cons d rest ih =>
    have hd : d.1 ≠ "" := hne d.1 (by simp)
    obtain ⟨bag1, h1, e1, f1⟩ := ih (setProp bag d.1 h.length)
      (h ++ [{ key := d.1, props := [] }])
      (fun n hn => hne n (by simp only [List.map_cons, List.mem_cons]; exact Or.inr hn))
      (bagFresh_alloc _ _ _ hb)
    refine ⟨bag1, h1, ?_, f1⟩
    simp [descriptors, buildBag, descriptor, getProp_obj, List.lookup, newSchema, hd]
    simpa [descriptors, descriptor] using e1

end EntitiesManager

namespace EntitiesManager

theorem generateAll_succeeds (names : List String) (batch : List (String × List (String × Val)))
    (bag result : List (String × Nat)) (h : Heap)
    (hb : BagOk bag h)
    (hcover : ∀ n ∈ names, (bag.lookup n).isSome = true)
    (hnodup : (batch.map Prod.fst).Nodup)
    (hvalid : ∀ d ∈ batch, ∀ av ∈ d.2, validAttribute names av.2)
    (hfresh : ∀ d ∈ batch, ∃ a node, bag.lookup d.1 = some a ∧ h[a]? = some node
      ∧ node.props = [])
    (hres : ∀ d ∈ batch, d.1 ∉ result.map Prod.fst) :
    ∃ reg h1, generateAll (descriptors batch) bag result h = (.ok reg, h1)
      ∧ reg.map Prod.fst = result.map Prod.fst ++ batch.map Prod.fst
      ∧ (∀ k a, reg.lookup k = some a → result.lookup k = some a ∨ bag.lookup k = some a)
      ∧ SameKeys h h1 := by
  induction batch generalizing result h with
  | nil =>
    exact ⟨result, h, rfl, by simp, fun k a hk => Or.inl hk, sameKeys_refl h⟩
  | cons d rest ih =>
    obtain ⟨a, node, ha, hn, hp⟩ := hfresh d (List.mem_cons_self _ _)
    obtain ⟨h1, e1⟩ := generateSchema_succeeds names bag h d.1 d.2 a node hcover
      (hvalid d (List.mem_cons_self _ _)) ha hn hp
    obtain ⟨_, _, _, _, _, _, _, _, _, _, hframe, _, _⟩ := generateSchema_ok _ _ _ _ _ e1
    simp only [List.map_cons, List.nodup_cons] at hnodup
    have hb1 : BagOk bag h1 := bagOk_of_sameKeys _ _ _ hb hframe.2
    have hkeys : (setProp result d.1 a).map Prod.fst = result.map Prod.fst ++ [d.1] :=
      setProp_keys_absent _ _ _ (hres d (List.mem_cons_self _ _))
    have hfresh1 : ∀ d1 ∈ rest, ∃ a1 node1, bag.lookup d1.1 = some a1 ∧ h1[a1]? = some node1
        ∧ node1.props = [] := by
      intro d1 hd1
      obtain ⟨a1, node1, ha1, hn1, hp1⟩ := hfresh d1 (List.mem_cons_of_mem _ hd1)
      have hne : a1 ≠ a := by
        intro h3
        subst h3
        obtain ⟨n2, hn2, hk2⟩ := hb _ _ ha
        obtain ⟨n3, hn3, hk3⟩ := hb _ _ ha1
        rw [hn2] at hn3
        simp only [Option.some.injEq] at hn3
        subst hn3
        exact hnodup.1 (List.mem_map.mpr ⟨d1, hd1, hk3.symm.trans hk2⟩)
      exact ⟨a1, node1, ha1, by rw [hframe.1 a1 hne]; exact hn1, hp1⟩
    have hres1 : ∀ d1 ∈ rest, d1.1 ∉ (setProp result d.1 a).map Prod.fst := by
      intro d1 hd1
      rw [hkeys]
      simp only [List.mem_append, List.mem_singleton, not_or]
      refine ⟨hres d1 (List.mem_cons_of_mem _ hd1), ?_⟩
      intro h3
      exact hnodup.1 (List.mem_map.mpr ⟨d1, hd1, h3⟩)
    obtain ⟨reg, h2, e2, k2, l2, s2⟩ := ih (setProp result d.1 a) h1 hb1 hnodup.2
      (fun d1 hd1 => hvalid d1 (List.mem_cons_of_mem _ hd1)) hfresh1 hres1
    refine ⟨reg, h2, ?_, ?_, ?_, sameKeys_trans _ _ _ hframe.2 s2⟩
    · have hname : getProp (descriptor (.str d.1) (.obj d.2)) "name" = .ok (.str d.1) := rfl
      simp only [descriptors, List.map_cons, generateAll, hname, e1, propertyKey]
      exact e2
    · rw [k2, hkeys]
      simp
    · intro k x hk
      rcases l2 k x hk with h3 | h3
      · rw [lookup_setProp] at h3
        by_cases hkd : k = d.1
        · simp only [hkd, if_true, Option.some.injEq] at h3
          subst h3
          exact Or.inr (hkd ▸ ha)
        · simp only [hkd, if_false] at h3
          exact Or.inl h3
      · exact Or.inr h3

theorem bagOk_of_bagFresh (bag : List (String × Nat)) (h : Heap) (hb : BagFresh bag h) :
    BagOk bag h := by
  intro k a hk
  obtain ⟨node, hn, hkey, _⟩ := hb k a hk
  exact ⟨node, hn, hkey⟩

theorem getProp_descriptor_name (n : String) (v : Val) :
    getProp (descriptor (.str n) v) "name" = .ok (.str n) := rfl

end EntitiesManager

/-! ## Generated nodes -/

namespace EntitiesManager

/-- C8, as stated, fails for three attribute names.  With `q = isRelatedTo` or
`q = getRelation` (neither starts with an underscore) the slot of `B` is replaced
by the capability of the same name and is no longer enumerable, so the
back-reference is not found: `relatedPropName` is `undefined` instead of `q`.
With `p = getKey` the slot of `A` hides the key accessor of the node and
`getRelation` raises a `TypeError`. -/
theorem getRelation_reserved_attribute_names :
    defineSchema (.str "A") (.obj [("b", .str "B")])
      = .ok (descriptor (.str "A") (.obj [("b", .str "B")]))
    ∧ hasMany (descriptor (.str "A") (.obj [("b", .str "B")])) = .ok (marker (.str "A"))
    ∧ defineSchema (.str "B") (.obj [("isRelatedTo", marker (.str "A"))])
      = .ok (descriptor (.str "B") (.obj [("isRelatedTo", marker (.str "A"))]))
    ∧ startsWithUnderscore "isRelatedTo" = false
    ∧ (generateSchemas (.arr [descriptor (.str "A") (.obj [("b", .str "B")]),
        descriptor (.str "B") (.obj [("isRelatedTo", marker (.str "A"))])])).1
      = .ok [("A", 0), ("B", 1)]
    ∧ callGetRelation (generateSchemas (.arr [descriptor (.str "A") (.obj [("b", .str "B")]),
        descriptor (.str "B") (.obj [("isRelatedTo", marker (.str "A"))])])).2 0
        (.obj [("id", .num 1), ("b", .num 5)]) "B"
      = .ok { related := "B", relatedPropName := none, relatedId := .num 5 }
    ∧ startsWithUnderscore "getRelation" = false
    ∧ (generateSchemas (.arr [descriptor (.str "A") (.obj [("b", .str "B")]),
        descriptor (.str "B") (.obj [("getRelation", marker (.str "A"))])])).1
      = .ok [("A", 0), ("B", 1)]
    ∧ callGetRelation (generateSchemas (.arr [descriptor (.str "A") (.obj [("b", .str "B")]),
        descriptor (.str "B") (.obj [("getRelation", marker (.str "A"))])])).2 0
        (.obj [("id", .num 1), ("b", .num 5)]) "B"
      = .ok { related := "B", relatedPropName := none, relatedId := .num 5 }
    ∧ (generateSchemas (.arr [descriptor (.str "A") (.obj [("getKey", .str "B")]),
        descriptor (.str "B") (.obj [("as", marker (.str "A"))])])).1
      = .ok [("A", 0), ("B", 1)]
    ∧ callGetRelation (generateSchemas (.arr [descriptor (.str "A") (.obj [("getKey", .str "B")]),
        descriptor (.str "B") (.obj [("as", marker (.str "A"))])])).2 0
        (.obj [("id", .num 1), ("getKey", .num 5)]) "B"
      = .error .typeError :=
  ⟨rfl, rfl, rfl, rfl, rfl, rfl, rfl, rfl, rfl, rfl, rfl⟩

/-- C8, amended: for distinct non-empty schema names `X` and `Y`, attribute names `p`
other than `getKey` and `q` not starting with an underscore and other than
`isRelatedTo` and `getRelation`, and every entity `e`: when `X` is defined with the
single attribute `p` referencing `Y` by name and `Y` with the single attribute
`q = hasMany(X)`, `generateSchemas([X, Y])` succeeds, node `X` is related to `Y`,
node `Y` is related to `X`, and `X.getRelation(e, Y)` is
`{ related: Y, relatedPropName: q, relatedId: e[p] }` (it fails only where reading
`e[p]` does). -/
theorem getRelation_discovers_back_reference (X Y p q : String) (e : Val)
    (hXY : X ≠ Y) (hX : X ≠ "") (hY : Y ≠ "") (hp : p ≠ "getKey")
    (hq1 : startsWithUnderscore q = false) (hq2 : q ≠ "isRelatedTo")
    (hq3 : q ≠ "getRelation") :
    defineSchema (.str X) (.obj [(p, .str Y)]) = .ok (descriptor (.str X) (.obj [(p, .str Y)]))
    ∧ hasMany (descriptor (.str X) (.obj [(p, .str Y)])) = .ok (marker (.str X))
    ∧ defineSchema (.str Y) (.obj [(q, marker (.str X))])
      = .ok (descriptor (.str Y) (.obj [(q, marker (.str X))]))
    ∧ ∃ h, generateSchemas (.arr [descriptor (.str X) (.obj [(p, .str Y)]),
          descriptor (.str Y) (.obj [(q, marker (.str X))])]) = (.ok [(X, 0), (Y, 1)], h)
        ∧ callIsRelatedTo h 0 Y = .ok true
        ∧ callIsRelatedTo h 1 X = .ok true
        ∧ callGetRelation h 0 e Y = (getProp e p).map
            (fun v => { related := Y, relatedPropName := some q, relatedId := v }) := by
  refine ⟨by simp [defineSchema_eq, isEmpty_str, hX, typeOf, defaultAttributes],
    hasMany_obj_of_lookup _ _ rfl rfl,
    by simp [defineSchema_eq, isEmpty_str, hY, typeOf, defaultAttributes], ?_⟩
  have hYX : Y ≠ X := Ne.symm hXY
  have b1 : (Y == X) = false := by simpa using hYX
  have b2 : (X == Y) = false := by simpa using hXY
  have hq2s : ("isRelatedTo" == q) = false := by simpa using Ne.symm hq2
  have hq3s : ("getRelation" == q) = false := by simpa using Ne.symm hq3
  by_cases hp1 : p = "isRelatedTo"
  · subst hp1
    simp [generateSchemas, isEmpty, buildBag, descriptor, getProp_obj, List.lookup, newSchema,
      hX, hY, setProp, hXY, hYX, generateAll, generateSchema, ownKeys, reduceAttributes,
      attributeStep, marker, truthy, bagGet, propertyKey, arrayOf, define, assignAll,
      assignProp, defineProperty, definePropertyOn, hq2, hq3, b1, b2, hq2s, hq3s,
      callIsRelatedTo, ownProp, isRelatedTo, strictEqStr, callGetRelation, getRelation,
      getRelatedThrough, enumerableProps, propertyOrder_singleton, findBackReference,
      isBackReference, hq1, sameKey,
      getKey]
    cases getProp e _ <;> rfl
  · by_cases hp2 : p = "getRelation"
    · subst hp2
      simp [generateSchemas, isEmpty, buildBag, descriptor, getProp_obj, List.lookup, newSchema,
        hX, hY, setProp, hXY, hYX, generateAll, generateSchema, ownKeys, reduceAttributes,
        attributeStep, marker, truthy, bagGet, propertyKey, arrayOf, define, assignAll,
        assignProp, defineProperty, definePropertyOn, hq2, hq3, b1, b2, hq2s, hq3s,
        callIsRelatedTo, ownProp, isRelatedTo, strictEqStr, callGetRelation, getRelation,
        getRelatedThrough, enumerableProps, propertyOrder_singleton, findBackReference,
        isBackReference, hq1, sameKey,
        getKey]
      cases getProp e _ <;> rfl
    · have c1 : ("isRelatedTo" == p) = false := by simpa using Ne.symm hp1
      have c2 : ("getRelation" == p) = false := by simpa using Ne.symm hp2
      have c3 : ("getKey" == p) = false := by simpa using Ne.symm hp
      have c4 : (p == "getKey") = false := by simpa using hp
      simp [generateSchemas, isEmpty, buildBag, descriptor, getProp_obj, List.lookup, newSchema,
        hX, hY, setProp, hXY, hYX, generateAll, generateSchema, ownKeys, reduceAttributes,
        attributeStep, marker, truthy, bagGet, propertyKey, arrayOf, define, assignAll,
        assignProp, defineProperty, definePropertyOn, hq2, hq3, b1, b2, hq2s, hq3s,
        callIsRelatedTo, ownProp, isRelatedTo, strictEqStr, callGetRelation, getRelation,
        getRelatedThrough, enumerableProps, propertyOrder_singleton, findBackReference,
        isBackReference, hq1, sameKey,
        getKey, hp1, hp2, hp, c1, c2, c3, c4]
      cases getProp e _ <;> rfl

/-- Witness of the amended C8: the descriptors `A = { b: 'B' }`, `B = { as: hasMany(A) }`
and the entity `a = { id: 1, b: 5 }` of the spec. -/
theorem getRelation_discovers_back_reference_witness :
    ∃ h, generateSchemas (.arr [descriptor (.str "A") (.obj [("b", .str "B")]),
          descriptor (.str "B") (.obj [("as", marker (.str "A"))])])
          = (.ok [("A", 0), ("B", 1)], h)
        ∧ callIsRelatedTo h 0 "B" = .ok true
        ∧ callIsRelatedTo h 1 "A" = .ok true
        ∧ callGetRelation h 0 (.obj [("id", .num 1), ("b", .num 5)]) "B"
          = .ok { related := "B", relatedPropName := some "as", relatedId := .num 5 } :=
  (getRelation_discovers_back_reference "A" "B" "b" "as" (.obj [("id", .num 1), ("b", .num 5)])
    (by decide) (by decide) (by decide) (by decide) rfl (by decide) (by decide)).2.2.2

/-- C9: in a successful generation, the node registered under the name of a
descriptor `D` (the last one of that name in the list) answers `isRelatedTo(n)`
with `true` exactly when some attribute of `D` is the string `n` or an
array-reference marker whose `relatedSchema` is `n`, and with `false` otherwise;
a function attribute targets no name. -/
theorem isRelatedTo_iff_references (pre post : List Val) (D : Val) (nm n : String)
    (reg : List (String × Nat)) (h : Heap)
    (hgen : generateSchemas (.arr (pre ++ D :: post)) = (.ok reg, h))
    (hD : getProp D "name" = .ok (.str nm))
    (hlast : ∀ s ∈ post, getProp s "name" ≠ .ok (.str nm)) :
    ∃ a attributes, reg.lookup nm = some a
      ∧ getProp D "attributes" = .ok attributes
      ∧ callIsRelatedTo h a n = .ok (referencesName attributes n)
      ∧ (∀ id, targetsName (.func id) n = false) := by
  have hne : isEmpty (.arr (pre ++ D :: post)) = false := by
    cases pre <;> rfl
  simp only [generateSchemas, hne, Bool.false_eq_true, if_false] at hgen
  cases hb : buildBag (pre ++ D :: post) [] [] with
  | mk r h0 =>
    cases r with
    | error e => simp [hb] at hgen
    | ok bag =>
      simp only [hb] at hgen
      have hok : BagOk bag h0 :=
        buildBag_bagOk _ _ _ _ _ hb (by intro k a hk; simp [List.lookup] at hk)
      have hstr : ∀ s ∈ pre ++ D :: post, ∃ nm1, getProp s "name" = .ok (.str nm1) := by
        intro s hs
        obtain ⟨nm1, h1, _, _⟩ := buildBag_names _ _ _ _ _ hb s hs
        exact ⟨nm1, h1⟩
      obtain ⟨a, attributes, keys, defn, rel, h1, _, hreg, hattr, hkeys, hred, ⟨p, hp, hv⟩, _, _⟩ :=
        generateAll_node pre post D nm bag [] reg h0 h hgen hok hstr hD hlast
      refine ⟨a, attributes, hreg, hattr, ?_, ?_⟩
      · have ht := reduceAttributes_targets _ _ _ _ _ _ n hred
        simp only [callIsRelatedTo, hp, hv, referencesName, hkeys]
        rw [ht]
        simp [isRelatedTo]
      · intro id
        rfl

/-- Witness of C9: in the batch `A = { b: 'B' }`, `B = { as: hasMany(A) }` the node of `A`
answers for the name `B`. -/
theorem isRelatedTo_iff_references_witness :
    ∃ a attributes, [("A", 0), ("B", 1)].lookup "A" = some a
      ∧ getProp (descriptor (.str "A") (.obj [("b", .str "B")])) "attributes" = .ok attributes
      ∧ callIsRelatedTo (generateSchemas (.arr ([] ++ descriptor (.str "A") (.obj [("b", .str "B")])
          :: [descriptor (.str "B") (.obj [("as", marker (.str "A"))])]))).2 a "B"
        = .ok (referencesName attributes "B")
      ∧ (∀ id, targetsName (.func id) "B" = false) :=
  isRelatedTo_iff_references [] [descriptor (.str "B") (.obj [("as", marker (.str "A"))])]
    (descriptor (.str "A") (.obj [("b", .str "B")])) "A" "B" [("A", 0), ("B", 1)] _ rfl rfl
    (by
      intro s hs
      simp only [List.mem_singleton] at hs
      subst hs
      simp [getProp_descriptor_name])

/-- C10: for every non-empty batch of descriptors with pairwise distinct non-empty
names whose attributes are functions, strings naming a schema of the batch or
`hasMany` markers for such a name, `generateSchemas` does not fail, whatever the
references are, and the keys of the returned mapping are exactly the names of
the descriptors, each mapped to a node whose key is that name. -/
theorem generateSchemas_valid_batch (batch : List (String × List (String × Val)))
    (hne : batch ≠ []) (hv : validBatch batch) :
    ∃ reg h, generateSchemas (.arr (descriptors batch)) = (.ok reg, h)
      ∧ reg.map Prod.fst = batch.map Prod.fst
      ∧ (∀ n ∈ batch.map Prod.fst, ∃ a node, reg.lookup n = some a ∧ h[a]? = some node
          ∧ node.key = n) := by
  obtain ⟨hnodup, hnames, hvalid⟩ := hv
  have hemp : isEmpty (.arr (descriptors batch)) = false := by
    cases batch with
    | nil => exact absurd rfl hne
    | cons d rest => rfl
  obtain ⟨bag, h0, e0, f0⟩ := buildBag_succeeds batch [] [] hnames
    (by intro k a hk; simp [List.lookup] at hk)
  have hcover : ∀ n ∈ batch.map Prod.fst, (bag.lookup n).isSome = true := by
    intro n hn
    obtain ⟨d, hd, hdn⟩ := List.mem_map.mp hn
    have hm : descriptor (.str d.1) (.obj d.2) ∈ descriptors batch :=
      List.mem_map.mpr ⟨d, hd, rfl⟩
    obtain ⟨nm, h1, _, h3⟩ := buildBag_names _ _ _ _ _ e0 _ hm
    rw [getProp_descriptor_name] at h1
    simp only [Except.ok.injEq, Val.str.injEq] at h1
    rw [← hdn, h1]
    exact h3
  have hfresh : ∀ d ∈ batch, ∃ a node, bag.lookup d.1 = some a ∧ h0[a]? = some node
      ∧ node.props = [] := by
    intro d hd
    obtain ⟨a, ha⟩ := Option.isSome_iff_exists.mp (hcover d.1 (List.mem_map.mpr ⟨d, hd, rfl⟩))
    obtain ⟨node, hn, _, hp⟩ := f0 _ _ ha
    exact ⟨a, node, ha, hn, hp⟩
  have hok : BagOk bag h0 := bagOk_of_bagFresh _ _ f0
  obtain ⟨reg, h1, e1, k1, l1, s1⟩ := generateAll_succeeds (batch.map Prod.fst) batch bag [] h0
    hok hcover hnodup hvalid hfresh (by intro d _; simp)
  refine ⟨reg, h1, ?_, by simpa using k1, ?_⟩
  · simp only [generateSchemas, hemp, Bool.false_eq_true, if_false, e0]
    exact e1
  · intro n hn
    have hn2 : n ∈ reg.map Prod.fst := by
      rw [k1]
      simpa using hn
    obtain ⟨a, ha, _⟩ := lookup_of_mem_keys reg n hn2
    rcases l1 n a ha with h3 | h3
    · simp [List.lookup] at h3
    · obtain ⟨node, hnode, hkey⟩ := bagOk_of_sameKeys _ _ _ hok s1 n a h3
      exact ⟨a, node, ha, hnode, hkey⟩

/-- Witness of C10: the self-referencing descriptor
`{ name: 'Node', attributes: { parent: 'Node' } }` of the spec generates without error. -/
theorem generateSchemas_valid_batch_witness :
    ∃ reg h, generateSchemas (.arr (descriptors [("Node", [("parent", .str "Node")])]))
        = (.ok reg, h)
      ∧ reg.map Prod.fst = [("Node", [("parent", Val.str "Node")])].map Prod.fst
      ∧ (∀ n ∈ [("Node", [("parent", Val.str "Node")])].map Prod.fst,
          ∃ a node, reg.lookup n = some a ∧ h[a]? = some node ∧ node.key = n) :=
  generateSchemas_valid_batch [("Node", [("parent", .str "Node")])] (by simp)
    ⟨by simp, by simp, by
      intro d hd av hav
      simp only [List.mem_singleton] at hd
      subst hd
      simp only [List.mem_singleton] at hav
      subst hav
      exact Or.inr (Or.inl ⟨"Node", rfl, by simp⟩)⟩

end EntitiesManager

/-! ## More on the two passes -/

namespace EntitiesManager

theorem mem_setProp {α : Type} (ps : List (String × α)) (k : String) (v : α) (e : String × α)
    (he : e ∈ setProp ps k v) : e ∈ ps ∨ e = (k, v) := by
  induction ps with
  | nil =>
    simp only [setProp, List.mem_singleton] at he
    exact Or.inr he
  | cons p rest ih =>
    unfold setProp at he
    split at he
    · rcases List.mem_cons.mp he with h1 | h1
      · exact Or.inr h1
      · exact Or.inl (List.mem_cons_of_mem _ h1)
    · rcases List.mem_cons.mp he with h1 | h1
      · exact Or.inl (h1 ▸ List.mem_cons_self _ _)
      · rcases ih h1 with h2 | h2
        · exact Or.inl (List.mem_cons_of_mem _ h2)
        · exact Or.inr h2

theorem keys_setProp {α : Type} (ps : List (String × α)) (k : String) (v : α) (x : String)
    (hx : x ∈ (setProp ps k v).map Prod.fst) : x ∈ ps.map Prod.fst ∨ x = k := by
  obtain ⟨e, he, hxe⟩ := List.mem_map.mp hx
  rcases mem_setProp ps k v e he with h1 | h1
  · exact Or.inl (List.mem_map.mpr ⟨e, h1, hxe⟩)
  · subst h1
    exact Or.inr hxe.symm

theorem lookup_none_of_not_mem_keys {α : Type} (ps : List (String × α)) (k : String)
    (h : k ∉ ps.map Prod.fst) : ps.lookup k = none := by
  cases hl : ps.lookup k with
  | none => rfl
  | some v => exact absurd (keys_of_lookup ps k v hl) h

theorem generateSchema_props (schema : Val) (bag : List (String × Nat)) (h h1 : Heap) (a : Nat)
    (he : generateSchema schema bag h = (.ok a, h1)) :
    ∃ attributes keys defn rel name node ps1 ps2 ps3,
      getProp schema "attributes" = .ok attributes
      ∧ ownKeys attributes = .ok keys
      ∧ reduceAttributes bag h attributes keys ([], []) = .ok (defn, rel)
      ∧ getProp schema "name" = .ok name
      ∧ bagGet bag name = .schema a
      ∧ h[a]? = some node
      ∧ assignAll node.props defn = (.ok (), ps1)
      ∧ definePropertyOn ps1 "isRelatedTo" (.isRelatedTo rel) = .ok ps2
      ∧ definePropertyOn ps2 "getRelation" (.getRelation a rel bag) = .ok ps3
      ∧ h1 = h.set a { node with props := ps3 } := by
  unfold generateSchema at he
  split at he
  · simp at he
  · rename_i attributes hattr
    split at he
    · simp at he
    · rename_i keys hkeys
      split at he
      · simp at he
      · rename_i defn rel hred
        split at he
        · simp at he
        · rename_i name hname
          split at he
          · rename_i finalSchema hbag
            split at he
            · simp at he
            · rename_i u1 h2 hdef
              split at he
              · simp at he
              · rename_i u2 h3 hp1
                split at he
                · simp at he
                · rename_i u3 h4 hp2
                  simp only [Prod.mk.injEq, Except.ok.injEq] at he
                  obtain ⟨hfa, hh⟩ := he
                  subst hfa
                  subst hh
                  obtain ⟨n0, ps0, hn0, ha0, e2⟩ := define_ok _ _ _ _ hdef
                  obtain ⟨n1, ps1, hn1, hd1, e3⟩ := defineProperty_ok _ _ _ _ _ hp1
                  obtain ⟨n2, ps2, hn2, hd2, e4⟩ := defineProperty_ok _ _ _ _ _ hp2
                  have g2 : h2[finalSchema]? = some { n0 with props := ps0 } :=
                    e2 ▸ getElem?_set_node _ _ _ _ hn0
                  have g3 : h3[finalSchema]? = some { n1 with props := ps1 } :=
                    e3 ▸ getElem?_set_node _ _ _ _ hn1
                  have e5 : n1 = { n0 with props := ps0 } := by
                    rw [g2] at hn1
                    exact (Option.some.inj hn1).symm
                  have e6 : n2 = { n1 with props := ps1 } := by
                    rw [g3] at hn2
                    exact (Option.some.inj hn2).symm
                  subst e5
                  subst e6
                  refine ⟨attributes, keys, defn, rel, name, n0, ps0, ps1, ps2, hattr, hkeys,
                    hred, hname, hbag, hn0, ha0, hd1, hd2, ?_⟩
                  rw [e4, e3, e2, List.set_set, List.set_set]
          · simp at he

theorem generateAll_append (xs ys : List Val) (bag result reg : List (String × Nat))
    (h h2 : Heap) (he : generateAll (xs ++ ys) bag result h = (.ok reg, h2)) :
    ∃ r1 h1, generateAll xs bag result h = (.ok r1, h1)
      ∧ generateAll ys bag r1 h1 = (.ok reg, h2) := by
  induction xs generalizing result h with
  | nil => exact ⟨result, h, rfl, he⟩
  | cons s rest ih =>
    simp only [List.cons_append] at he
    unfold generateAll at he
    split at he
    · simp at he
    · rename_i name hname
      split at he
      · simp at he
      · rename_i a1 h3 hgen
        split at he
        · rename_i key hkey
          obtain ⟨r1, h1, e1, e2⟩ := ih _ _ he
          refine ⟨r1, h1, ?_, e2⟩
          simp only [generateAll, hname, hgen, hkey]
          exact e1
        · simp at he

theorem buildBag_bagFresh (ss : List Val) (bag bag1 : List (String × Nat)) (h h1 : Heap)
    (he : buildBag ss bag h = (.ok bag1, h1)) (hb : BagFresh bag h) : BagFresh bag1 h1 := by
  induction ss generalizing bag h with
  | nil =>
    simp only [buildBag, Prod.mk.injEq, Except.ok.injEq] at he
    rw [← he.1, ← he.2]
    exact hb
  | cons s rest ih =>
    unfold buildBag at he
    split at he
    · simp at he
    · rename_i name hname
      split at he
      · simp at he
      · rename_i addr h2 hnew
        obtain ⟨_, ha, hh⟩ := newSchema_ok _ _ _ _ hnew
        subst ha
        subst hh
        exact ih _ _ he (bagFresh_alloc _ _ _ hb)
    · simp at he

theorem buildBag_keys (ss : List Val) (bag bag1 : List (String × Nat)) (h h1 : Heap)
    (he : buildBag ss bag h = (.ok bag1, h1)) (k : String) (a : Nat)
    (hk : bag1.lookup k = some a) :
    (bag.lookup k).isSome = true ∨ ∃ s ∈ ss, getProp s "name" = .ok (.str k) := by
  induction ss generalizing bag h with
  | nil =>
    simp only [buildBag, Prod.mk.injEq, Except.ok.injEq] at he
    rw [← he.1] at hk
    exact Or.inl (by simp [hk])
  | cons s rest ih =>
    unfold buildBag at he
    split at he
    · simp at he
    · rename_i name hname
      split at he
      · simp at he
      · rename_i addr h2 hnew
        rcases ih _ _ he with h3 | ⟨s1, hs1, h4⟩
        · rw [lookup_setProp] at h3
          by_cases hkn : k = name
          · subst hkn
            exact Or.inr ⟨s, List.mem_cons_self _ _, hname⟩
          · simp only [hkn, if_false] at h3
            exact Or.inl h3
        · exact Or.inr ⟨s1, List.mem_cons_of_mem _ hs1, h4⟩
    · simp at he

theorem generateAll_lookup_other (ss : List Val) (bag result reg : List (String × Nat))
    (h h1 : Heap) (n : String)
    (he : generateAll ss bag result h = (.ok reg, h1))
    (hstr : ∀ s ∈ ss, ∃ nm, getProp s "name" = .ok (.str nm))
    (hn : ∀ s ∈ ss, getProp s "name" ≠ .ok (.str n)) :
    reg.lookup n = result.lookup n := by
  induction ss generalizing result h with
  | nil =>
    simp only [generateAll, Prod.mk.injEq, Except.ok.injEq] at he
    rw [← he.1]
  | cons s rest ih =>
    unfold generateAll at he
    split at he
    · simp at he
    · rename_i name hname
      split at he
      · simp at he
      · rename_i a1 h2 hgen
        obtain ⟨nm, hnm⟩ := hstr s (List.mem_cons_self _ _)
        rw [hname] at hnm
        simp only [Except.ok.injEq] at hnm
        subst hnm
        simp only [propertyKey] at he
        rw [ih _ _ he (fun s1 hs1 => hstr s1 (List.mem_cons_of_mem _ hs1))
          (fun s1 hs1 => hn s1 (List.mem_cons_of_mem _ hs1)), lookup_setProp]
        have hne : ¬ n = nm := by
          intro h3
          subst h3
          exact hn s (List.mem_cons_self _ _) hname
        simp [hne]

theorem generateAll_lookup_name (ss : List Val) (bag result reg : List (String × Nat))
    (h h1 : Heap) (n : String)
    (he : generateAll ss bag result h = (.ok reg, h1))
    (hstr : ∀ s ∈ ss, ∃ nm, getProp s "name" = .ok (.str nm))
    (hn : ∃ s ∈ ss, getProp s "name" = .ok (.str n)) :
    reg.lookup n = bag.lookup n := by
  induction ss generalizing result h with
  | nil =>
    obtain ⟨s, hs, _⟩ := hn
    cases hs
  | cons s rest ih =>
    unfold generateAll at he
    split at he
    · simp at he
    · rename_i name hname
      split at he
      · simp at he
      · rename_i a1 h2 hgen
        obtain ⟨nm, hnm⟩ := hstr s (List.mem_cons_self _ _)
        rw [hname] at hnm
        simp only [Except.ok.injEq] at hnm
        subst hnm
        simp only [propertyKey] at he
        have hstr1 : ∀ s1 ∈ rest, ∃ nm1, getProp s1 "name" = .ok (.str nm1) :=
          fun s1 hs1 => hstr s1 (List.mem_cons_of_mem _ hs1)
        by_cases hrest : ∃ s1 ∈ rest, getProp s1 "name" = .ok (.str n)
        · exact ih _ _ he hstr1 hrest
        · have hrest1 : ∀ s1 ∈ rest, getProp s1 "name" ≠ .ok (.str n) :=
            fun s1 hs1 h3 => hrest ⟨s1, hs1, h3⟩
          obtain ⟨s0, hs0, h0⟩ := hn
          rcases List.mem_cons.mp hs0 with h4 | h4
          · subst h4
            rw [hname] at h0
            simp only [Except.ok.injEq, Val.str.injEq] at h0
            subst h0
            rw [generateAll_lookup_other _ _ _ _ _ _ _ he hstr1 hrest1, lookup_setProp,
              if_pos rfl]
            obtain ⟨_, _, _, _, name2, _, _, _, hname2, hbag, _, _, _⟩ :=
              generateSchema_ok _ _ _ _ _ hgen
            rw [hname] at hname2
            simp only [Except.ok.injEq] at hname2
            subst hname2
            exact ((bagGet_str _ _ _).mp hbag).symm
          · exact absurd h0 (hrest1 s0 h4)

/-- What `generateSchemas` returns for a list: the bag of the first pass and the run of the
second pass on it. -/
theorem generateSchemas_ok (ss : List Val) (reg : List (String × Nat)) (h : Heap)
    (he : generateSchemas (.arr ss) = (.ok reg, h)) :
    ∃ bag h0, buildBag ss [] [] = (.ok bag, h0) ∧ generateAll ss bag [] h0 = (.ok reg, h)
      ∧ BagFresh bag h0
      ∧ (∀ s ∈ ss, ∃ nm, getProp s "name" = .ok (.str nm))
      ∧ (∀ n, reg.lookup n = bag.lookup n) := by
  unfold generateSchemas at he
  split at he
  · simp at he
  · cases hb : buildBag ss [] [] with
    | mk r h0 =>
      cases r with
      | error e => simp [hb] at he
      | ok bag =>
        simp only [hb] at he
        have hstr : ∀ s ∈ ss, ∃ nm, getProp s "name" = .ok (.str nm) := by
          intro s hs
          obtain ⟨nm1, h1, _, _⟩ := buildBag_names _ _ _ _ _ hb s hs
          exact ⟨nm1, h1⟩
        refine ⟨bag, h0, rfl, he,
          buildBag_bagFresh _ _ _ _ _ hb (by intro k a hk; simp [List.lookup] at hk), hstr, ?_⟩
        intro n
        by_cases hn : ∃ s ∈ ss, getProp s "name" = .ok (.str n)
        · exact generateAll_lookup_name _ _ _ _ _ _ _ he hstr hn
        · have hn1 : ∀ s ∈ ss, getProp s "name" ≠ .ok (.str n) :=
            fun s hs h3 => hn ⟨s, hs, h3⟩
          rw [generateAll_lookup_other _ _ _ _ _ _ _ he hstr hn1]
          cases hl : bag.lookup n with
          | none => simp [List.lookup]
          | some a =>
            rcases buildBag_keys _ _ _ _ _ hb n a hl with h3 | h3
            · simp [List.lookup] at h3
            · exact absurd h3 hn

end EntitiesManager

/-! ## Unresolved references, unrecognised attribute shapes, repeated names -/

namespace EntitiesManager

theorem reduceAttributes_fails_at (bag : List (String × Nat)) (h : Heap) (attributes : Val)
    (keys : List String) (a : String) (ha : a ∈ keys)
    (hf : ∀ acc, ∃ e, attributeStep bag h attributes acc a = .error e)
    (acc : List (String × Slot) × List RelatedEntity) :
    ∃ e, reduceAttributes bag h attributes keys acc = .error e := by
  induction keys generalizing acc with
  | nil => cases ha
  | cons k rest ih =>
    unfold reduceAttributes
    cases hs : attributeStep bag h attributes acc k with
    | error e => exact ⟨e, rfl⟩
    | ok acc1 =>
      rcases List.mem_cons.mp ha with h1 | h1
      · subst h1
        obtain ⟨e, he⟩ := hf acc
        rw [hs] at he
        cases he
      · exact ih h1 acc1

/-- C12, as stated, fails for a single reference: the descriptor `{ name: 'A',
attributes: { b: 'B' } }` alone names the schema `B`, which is in no descriptor of
the batch, and `generateSchemas` returns the registry; the slot `b` of the node
is `undefined`.  The same name behind `hasMany` makes the generation fail.  It
fails also for an array reference to a name that the bag inherits from
`Object.prototype`: with `{ bs: hasMany('toString') }` the read `bag['toString']` gives
the built-in function, `arrayOf` accepts it, and the registry is returned. -/
theorem generateSchemas_unresolved_single_reference :
    (generateSchemas (.arr [descriptor (.str "A") (.obj [("b", .str "B")])])).1
      = .ok [("A", 0)]
    ∧ (ownProp (generateSchemas (.arr [descriptor (.str "A") (.obj [("b", .str "B")])])).2
        0 "b").map (fun p => p.value.truthy) = some false
    ∧ (generateSchemas (.arr [descriptor (.str "A") (.obj [("bs", marker (.str "B"))])])).1
      = .error .itemSchema
    ∧ (generateSchemas (.arr [descriptor (.str "A")
        (.obj [("bs", marker (.str "toString"))])])).1 = .ok [("A", 0)] :=
  ⟨rfl, rfl, rfl, rfl⟩

/-- C12, amended: for every batch of descriptors in which some attribute is an array
reference given by `hasMany` that names a schema which is neither the name of a
descriptor of the batch nor the name of a member of `Object.prototype`,
`generateSchemas` fails and returns no registry. -/
theorem generateSchemas_unresolved_array_reference
    (batch : List (String × List (String × Val))) (d : String × List (String × Val))
    (a s : String) (hd : d ∈ batch) (ha : d.2.lookup a = some (marker (.str s)))
    (hs : s ∉ batch.map Prod.fst) (hp : s ∉ objectPrototypeNames) :
    ∃ e, (generateSchemas (.arr (descriptors batch))).1 = .error e := by
  cases hg : generateSchemas (.arr (descriptors batch)) with
  | mk r h =>
    cases r with
    | error e => exact ⟨e, rfl⟩
    | ok reg =>
      exfalso
      obtain ⟨bag, h0, hb, hall, _, _, _⟩ := generateSchemas_ok _ _ _ hg
      obtain ⟨pre, post, hsplit⟩ := List.append_of_mem hd
      have hdesc : descriptors batch
          = descriptors pre ++ descriptor (.str d.1) (.obj d.2) :: descriptors post := by
        rw [hsplit]
        simp [descriptors]
      rw [hdesc] at hall
      obtain ⟨r1, h1, _, e2⟩ := generateAll_append _ _ _ _ _ _ _ hall
      unfold generateAll at e2
      rw [getProp_descriptor_name] at e2
      simp only at e2
      cases hgen : generateSchema (descriptor (.str d.1) (.obj d.2)) bag h1 with
      | mk r2 h2 =>
        cases r2 with
        | error e => simp [hgen] at e2
        | ok a1 =>
          obtain ⟨attributes, keys, defn, rel, _, hattr, hkeys, hred, _, _, _, _, _⟩ :=
            generateSchema_ok _ _ _ _ _ hgen
          have hattr2 : getProp (descriptor (.str d.1) (.obj d.2)) "attributes"
              = .ok (.obj d.2) := rfl
          rw [hattr2] at hattr
          simp only [Except.ok.injEq] at hattr
          subst hattr
          simp only [ownKeys, Except.ok.injEq] at hkeys
          subst hkeys
          have hnone : bag.lookup s = none := by
            cases hl : bag.lookup s with
            | none => rfl
            | some b =>
              rcases buildBag_keys _ _ _ _ _ hb s b hl with h3 | ⟨x, hx, hxn⟩
              · simp [List.lookup] at h3
              · obtain ⟨d1, hd1, rfl⟩ := List.mem_map.mp hx
                rw [getProp_descriptor_name] at hxn
                simp only [Except.ok.injEq, Val.str.injEq] at hxn
                exact absurd (List.mem_map.mpr ⟨d1, hd1, hxn⟩) hs
          have hstep : ∀ acc, ∃ e, attributeStep bag h1 (.obj d.2) acc a = .error e := by
            intro acc
            refine ⟨.itemSchema, ?_⟩
            simp [attributeStep, getProp_obj, ha, marker, List.lookup, truthy, bagGet,
              propertyKey, hnone, hp, arrayOf]
          obtain ⟨e, he⟩ := reduceAttributes_fails_at bag h1 (.obj d.2) _ a
            ((mem_propertyOrder id _ a).mpr (keys_of_lookup _ _ _ ha)) hstep ([], [])
          rw [hred] at he
          cases he

/-- Witness of the amended C12: `{ name: 'A', attributes: { bs: hasMany('B') } }` alone. -/
theorem generateSchemas_unresolved_array_reference_witness :
    ∃ e, (generateSchemas (.arr (descriptors [("A", [("bs", marker (.str "B"))])]))).1
      = .error e :=
  generateSchemas_unresolved_array_reference [("A", [("bs", marker (.str "B"))])]
    ("A", [("bs", marker (.str "B"))]) "bs" "B" (by simp) rfl (by simp) (by decide)

end EntitiesManager

namespace EntitiesManager

theorem attributeStep_ignores (bag : List (String × Nat)) (h : Heap) (attributes : Val)
    (acc : List (String × Slot) × List RelatedEntity) (a : String) (v flag : Val)
    (hv : getProp attributes a = .ok v) (hf : typeOf v ≠ .function) (hs : typeOf v ≠ .string)
    (hflag : getProp v "isArray" = .ok flag) (hfalsy : truthy flag = false) :
    attributeStep bag h attributes acc a = .ok acc := by
  unfold attributeStep
  rw [hv]
  cases v <;> simp_all [typeOf]

/-- C16 at the failing inputs: an attribute whose value is `null` or `undefined` is
accepted by `defineSchema`, but `generateSchemas` raises a `TypeError` on it
(the read of `isArray` on the value), where the claim says it is ignored.  A
number, a boolean, an object without `isArray` and an object with a false
`isArray` are ignored: the result is that of the descriptor without the
attribute. -/
theorem generateSchemas_null_attribute :
    defineSchema (.str "A") (.obj [("x", .null)])
      = .ok (descriptor (.str "A") (.obj [("x", .null)]))
    ∧ (generateSchemas (.arr [descriptor (.str "A") (.obj [("x", .null)])])).1
      = .error .typeError
    ∧ (generateSchemas (.arr [descriptor (.str "A") (.obj [("x", .undefined)])])).1
      = .error .typeError
    ∧ generateSchemas (.arr [descriptor (.str "A") (.obj [])])
      = (.ok [("A", 0)], (generateSchemas (.arr [descriptor (.str "A") (.obj [])])).2)
    ∧ generateSchemas (.arr [descriptor (.str "A") (.obj [("x", .num 3)])])
      = generateSchemas (.arr [descriptor (.str "A") (.obj [])])
    ∧ generateSchemas (.arr [descriptor (.str "A") (.obj [("x", .bool true)])])
      = generateSchemas (.arr [descriptor (.str "A") (.obj [])])
    ∧ generateSchemas (.arr [descriptor (.str "A") (.obj [("x", .obj [("y", .num 1)])])])
      = generateSchemas (.arr [descriptor (.str "A") (.obj [])])
    ∧ generateSchemas (.arr [descriptor (.str "A")
        (.obj [("x", .obj [("relatedSchema", .str "A"), ("isArray", .bool false)])])])
      = generateSchemas (.arr [descriptor (.str "A") (.obj [])]) :=
  ⟨rfl, rfl, rfl, rfl, rfl, rfl, rfl, rfl⟩

theorem find_relation_append (rel : List RelatedEntity) (e : RelatedEntity) (n : String) :
    ((rel ++ [e]).find? (fun x => strictEqStr x.entity n)).map RelatedEntity.prop
      = ((rel.find? (fun x => strictEqStr x.entity n)).map RelatedEntity.prop).or
          (if strictEqStr e.entity n then some e.prop else none) := by
  rw [List.find?_append]
  cases rel.find? (fun x => strictEqStr x.entity n) with
  | some x => simp
  | none =>
    by_cases hx : strictEqStr e.entity n = true
    · simp [hx]
    · simp [hx]

theorem attributeStep_first (bag : List (String × Nat)) (h : Heap) (attributes : Val)
    (acc acc1 : List (String × Slot) × List RelatedEntity) (a n : String)
    (hs : attributeStep bag h attributes acc a = .ok acc1) :
    (acc1.2.find? (fun x => strictEqStr x.entity n)).map RelatedEntity.prop
      = ((acc.2.find? (fun x => strictEqStr x.entity n)).map RelatedEntity.prop).or
          (if attributeTargets attributes n a then some a else none) := by
  unfold attributeStep at hs
  unfold attributeTargets
  cases hg : getProp attributes a with
  | error e => simp [hg] at hs
  | ok v =>
    simp only [hg] at hs
    cases v with
    | func id =>
      simp only [Except.ok.injEq] at hs
      subst hs
      simp [targetsName, strictEqStr, isArrayReference]
    | str s =>
      simp only [Except.ok.injEq] at hs
      subst hs
      rw [find_relation_append]
      simp [targetsName, isArrayReference]
    | obj ps =>
      simp only [getProp_obj, inheritedMember_isArray, inheritedMember_relatedSchema] at hs
      by_cases hf : truthy ((ps.lookup "isArray").getD .undefined) = true
      · simp only [hf, if_true] at hs
        split at hs
        · simp at hs
        · simp only [Except.ok.injEq] at hs
          subst hs
          rw [find_relation_append]
          simp [targetsName, isArrayReference, getProp_obj, hf, strictEqStr]
      · simp only [hf] at hs
        simp only [Bool.false_eq_true, if_false, Except.ok.injEq] at hs
        subst hs
        simp [targetsName, isArrayReference, getProp_obj, hf, strictEqStr]
    | arr xs =>
      cases hi : getProp (.arr xs) "isArray" with
      | error e => simp [getProp] at hi
      | ok flag =>
        simp only [hi] at hs
        by_cases hf : truthy flag = true
        · simp only [hf, if_true] at hs
          cases hr : getProp (.arr xs) "relatedSchema" with
          | error e => simp [hr] at hs
          | ok r =>
            simp only [hr] at hs
            split at hs
            · simp at hs
            · simp only [Except.ok.injEq] at hs
              subst hs
              rw [find_relation_append]
              simp [targetsName, isArrayReference, hi, hr, hf, strictEqStr]
        · simp only [hf] at hs
          simp only [Bool.false_eq_true, if_false, Except.ok.injEq] at hs
          subst hs
          simp [targetsName, isArrayReference, hi, hf, strictEqStr]
    | undefined => simp [getProp] at hs
    | null => simp [getProp] at hs
    | bool b =>
      simp only [getProp, truthy, Bool.false_eq_true, if_false, Except.ok.injEq] at hs
      subst hs
      simp [targetsName, isArrayReference, getProp, truthy, strictEqStr]
    | num m =>
      simp only [getProp, truthy, Bool.false_eq_true, if_false, Except.ok.injEq] at hs
      subst hs
      simp [targetsName, isArrayReference, getProp, truthy, strictEqStr]
    | nan =>
      simp only [getProp, truthy, Bool.false_eq_true, if_false, Except.ok.injEq] at hs
      subst hs
      simp [targetsName, isArrayReference, getProp, truthy, strictEqStr]

theorem reduceAttributes_first (bag : List (String × Nat)) (h : Heap) (attributes : Val)
    (keys : List String) (acc acc1 : List (String × Slot) × List RelatedEntity) (n : String)
    (hs : reduceAttributes bag h attributes keys acc = .ok acc1) :
    (acc1.2.find? (fun x => strictEqStr x.entity n)).map RelatedEntity.prop
      = ((acc.2.find? (fun x => strictEqStr x.entity n)).map RelatedEntity.prop).or
          (keys.find? (attributeTargets attributes n)) := by
  induction keys generalizing acc with
  | nil =>
    simp only [reduceAttributes, Except.ok.injEq] at hs
    subst hs
    simp
  | cons a rest ih =>
    unfold reduceAttributes at hs
    split at hs
    · simp at hs
    · rename_i acc2 h2
      rw [ih _ hs, attributeStep_first _ _ _ _ _ _ n h2]
      by_cases ht : attributeTargets attributes n a = true
      · simp [ht, Option.or_assoc]
      · simp [ht, Option.or_assoc]

end EntitiesManager

namespace EntitiesManager

theorem bagGet_congr (bag1 bag2 : List (String × Nat)) (hl : ∀ n, bag1.lookup n = bag2.lookup n)
    (k : Val) : bagGet bag1 k = bagGet bag2 k := by
  unfold bagGet
  cases propertyKey k with
  | none => rfl
  | some name => simp only [hl name]

/-- C17, as stated, fails when an attribute name is an array index: in
`Task = { owner: 'User', 1: 'User' }` the first declared attribute targeting `User` is `owner`, but
`Object.keys` lists the name `1` first, so for the entity `{ owner: 1, 1: 2 }` the related
id is `2`, the value at the later attribute. -/
theorem getRelation_uses_index_name_first :
    ([("owner", Val.str "User"), ("1", Val.str "User")].find?
        (fun av => targetsName av.2 "User")).map Prod.fst = some "owner"
    ∧ ownKeys (.obj [("owner", .str "User"), ("1", .str "User")]) = .ok ["1", "owner"]
    ∧ (generateSchemas (.arr [descriptor (.str "Task")
          (.obj [("owner", .str "User"), ("1", .str "User")]),
          descriptor (.str "User") (.obj [])])).1 = .ok [("Task", 0), ("User", 1)]
    ∧ callGetRelation (generateSchemas (.arr [descriptor (.str "Task")
          (.obj [("owner", .str "User"), ("1", .str "User")]),
          descriptor (.str "User") (.obj [])])).2 0
          (.obj [("owner", .num 1), ("1", .num 2)]) "User"
        = .ok { related := "User", relatedPropName := none, relatedId := .num 2 } :=
  ⟨rfl, rfl, rfl, rfl⟩

/-- C17, amended: in a successful generation, for the node registered under the name
of a descriptor `D` (the last one of that name in the list), `getRelation(e, n)` on
an entity `e` (an object) reads it at the first attribute of `D` that targets `n`,
first in the order in which `Object.keys` enumerates the attributes: the names that
are array indices in ascending order, then the other names in declared order,
which is the declared order when no attribute name is an array index.
`relatedId` is the value of `e` at that attribute, whatever later attributes
target `n` as well; the call fails only where the back-reference search does. -/
theorem getRelation_uses_first_reference (pre post : List Val) (D : Val) (nm n a1 : String)
    (reg : List (String × Nat)) (h : Heap) (fields : List (String × Val))
    (hgen : generateSchemas (.arr (pre ++ D :: post)) = (.ok reg, h))
    (hD : getProp D "name" = .ok (.str nm))
    (hlast : ∀ s ∈ post, getProp s "name" ≠ .ok (.str nm)) :
    ∃ a attributes keys, reg.lookup nm = some a
      ∧ getProp D "attributes" = .ok attributes
      ∧ ownKeys attributes = .ok keys
      ∧ (∀ ps, attributes = .obj ps →
          keys = propertyOrder id (ps.map Prod.fst)
          ∧ ((∀ k ∈ ps.map Prod.fst, arrayIndex k = none) → keys = ps.map Prod.fst))
      ∧ (keys.find? (attributeTargets attributes n) = some a1 →
          callGetRelation h a (.obj fields) n =
            (getRelatedThrough h (bagGet reg (.str n)) a).map
              (fun r => { related := n, relatedPropName := r,
                          relatedId := (fields.lookup a1).getD (inheritedMember a1) })) := by
  obtain ⟨bag, h0, _, hall, hfresh, hstr, hreg⟩ := generateSchemas_ok _ _ _ hgen
  obtain ⟨a, attributes, keys, defn, rel, h1, _, hra, hattr, hkeys, hred, _, ⟨p, hp, hv⟩, _⟩ :=
    generateAll_node pre post D nm bag [] reg h0 h hall (bagOk_of_bagFresh _ _ hfresh) hstr hD
      hlast
  refine ⟨a, attributes, keys, hra, hattr, hkeys, ?_, ?_⟩
  · intro ps hps
    subst hps
    simp only [ownKeys, Except.ok.injEq] at hkeys
    refine ⟨hkeys.symm, fun hno => ?_⟩
    rw [← hkeys]
    exact propertyOrder_eq_self id _ hno
  · intro hfirst
    have hf := reduceAttributes_first _ _ _ _ _ _ n hred
    simp only [List.find?_nil, Option.map_none', Option.none_or, hfirst] at hf
    cases hfind : rel.find? (fun x => strictEqStr x.entity n) with
    | none => simp [hfind] at hf
    | some x =>
      rw [hfind] at hf
      simp only [Option.map_some', Option.some.injEq] at hf
      simp only [callGetRelation, hp, hv, getRelation, hfind, hf, getProp,
        bagGet_congr reg bag hreg]
      cases getRelatedThrough h (bagGet bag (.str n)) a with
      | error err => rfl
      | ok r => rfl

/-- Witness of the amended C17: `Task = { owner: 'User', assignee: 'User' }` and `User = {}`;
for the entity `{ owner: 1, assignee: 2 }` the related id is `1`. -/
theorem getRelation_uses_first_reference_witness :
    (∃ a attributes keys, [("Task", 0), ("User", 1)].lookup "Task" = some a
      ∧ getProp (descriptor (.str "Task")
          (.obj [("owner", .str "User"), ("assignee", .str "User")])) "attributes"
        = .ok attributes
      ∧ ownKeys attributes = .ok keys
      ∧ (∀ ps, attributes = .obj ps →
          keys = propertyOrder id (ps.map Prod.fst)
          ∧ ((∀ k ∈ ps.map Prod.fst, arrayIndex k = none) → keys = ps.map Prod.fst))
      ∧ (keys.find? (attributeTargets attributes "User") = some "owner" →
          callGetRelation (generateSchemas (.arr ([] ++ descriptor (.str "Task")
              (.obj [("owner", .str "User"), ("assignee", .str "User")])
              :: [descriptor (.str "User") (.obj [])]))).2 a
              (.obj [("owner", .num 1), ("assignee", .num 2)]) "User" =
            (getRelatedThrough (generateSchemas (.arr ([] ++ descriptor (.str "Task")
                (.obj [("owner", .str "User"), ("assignee", .str "User")])
                :: [descriptor (.str "User") (.obj [])]))).2
                (bagGet [("Task", 0), ("User", 1)] (.str "User")) a).map
                (fun r => { related := "User", relatedPropName := r,
                            relatedId := (List.lookup "owner"
                              [("owner", Val.num 1), ("assignee", Val.num 2)]).getD
                                (inheritedMember "owner") })))
    ∧ callGetRelation (generateSchemas (.arr [descriptor (.str "Task")
          (.obj [("owner", .str "User"), ("assignee", .str "User")]),
          descriptor (.str "User") (.obj [])])).2 0
          (.obj [("owner", .num 1), ("assignee", .num 2)]) "User"
        = .ok { related := "User", relatedPropName := none, relatedId := .num 1 } :=
  ⟨getRelation_uses_first_reference [] [descriptor (.str "User") (.obj [])]
    (descriptor (.str "Task") (.obj [("owner", .str "User"), ("assignee", .str "User")]))
    "Task" "User" "owner" [("Task", 0), ("User", 1)] _
    [("owner", .num 1), ("assignee", .num 2)] rfl rfl
    (by
      intro s hs
      simp only [List.mem_singleton] at hs
      subst hs
      simp [getProp_descriptor_name]), rfl⟩

end EntitiesManager

namespace EntitiesManager

theorem find_assignProp_other (ps ps1 : List OwnProp) (k k1 : String) (v : Slot)
    (h : assignProp ps k v = .ok ps1) (hk1 : k1 ≠ k) :
    ps1.find? (fun p => p.name == k1) = ps.find? (fun p => p.name == k1) := by
  induction ps generalizing ps1 with
  | nil =>
    simp only [assignProp, Except.ok.injEq] at h
    subst h
    simp [Ne.symm hk1]
  | cons p rest ih =>
    unfold assignProp at h
    split at h
    · rename_i hk
      have hne : ¬ p.name = k1 := fun h2 => hk1 (h2 ▸ hk)
      split at h
      · simp only [Except.ok.injEq] at h
        subst h
        simp [hne]
      · simp at h
    · split at h
      · rename_i rest1 hr
        simp only [Except.ok.injEq] at h
        subst h
        by_cases hp : p.name = k1
        · simp [hp]
        · simp [hp, ih _ hr]
      · simp at h

theorem assignProp_locked_fails (ps : List OwnProp) (k : String) (v : Slot)
    (hl : Locked ps k) : ∃ e, assignProp ps k v = .error e := by
  obtain ⟨p0, hfind, hw, _, _⟩ := hl
  induction ps with
  | nil => simp at hfind
  | cons p rest ih =>
    by_cases hk : p.name = k
    · simp only [List.find?_cons, hk, beq_self_eq_true, Option.some.injEq] at hfind
      subst hfind
      exact ⟨.typeError, by simp [assignProp, hk, hw]⟩
    · have hb : (p.name == k) = false := by simpa using hk
      simp only [List.find?_cons, hb] at hfind
      obtain ⟨e, he⟩ := ih hfind
      exact ⟨e, by simp [assignProp, hk, he]⟩

theorem assignProp_locked (ps ps1 : List OwnProp) (k k1 : String) (v : Slot)
    (hl : Locked ps k) (h : assignProp ps k1 v = .ok ps1) : Locked ps1 k := by
  by_cases hk : k1 = k
  · subst hk
    obtain ⟨e, he⟩ := assignProp_locked_fails ps k1 v hl
    rw [h] at he
    cases he
  · obtain ⟨p0, hfind, hrest⟩ := hl
    exact ⟨p0, by rw [find_assignProp_other _ _ _ _ _ h (Ne.symm hk)]; exact hfind, hrest⟩

theorem assignAll_locked (ps ps1 : List OwnProp) (defn : List (String × Slot)) (k : String)
    (hl : Locked ps k) (h : assignAll ps defn = (.ok (), ps1)) : Locked ps1 k := by
  induction defn generalizing ps with
  | nil =>
    simp only [assignAll, Prod.mk.injEq, true_and] at h
    subst h
    exact hl
  | cons kv rest ih =>
    obtain ⟨k1, v⟩ := kv
    unfold assignAll at h
    split at h
    · rename_i ps2 h2
      exact ih _ (assignProp_locked _ _ _ _ _ hl h2) h
    · simp at h

theorem assignAll_find_absent (ps ps1 : List OwnProp) (defn : List (String × Slot)) (k : String)
    (hk : k ∉ defn.map Prod.fst) (h : assignAll ps defn = (.ok (), ps1)) :
    ps1.find? (fun p => p.name == k) = ps.find? (fun p => p.name == k) := by
  induction defn generalizing ps with
  | nil =>
    simp only [assignAll, Prod.mk.injEq, true_and] at h
    subst h
    rfl
  | cons kv rest ih =>
    obtain ⟨k1, v⟩ := kv
    simp only [List.map_cons, List.mem_cons, not_or] at hk
    unfold assignAll at h
    split at h
    · rename_i ps2 h2
      rw [ih _ hk.2 h, find_assignProp_other _ _ _ _ _ h2 hk.1]
    · simp at h

theorem definePropertyOn_locked_fails (ps : List OwnProp) (k : String) (v : Slot)
    (hl : Locked ps k) : ∃ e, definePropertyOn ps k v = .error e := by
  obtain ⟨p0, hfind, hw, hc, hen⟩ := hl
  induction ps with
  | nil => simp at hfind
  | cons p rest ih =>
    by_cases hk : p.name = k
    · simp only [List.find?_cons, hk, beq_self_eq_true, Option.some.injEq] at hfind
      subst hfind
      exact ⟨.typeError, by simp [definePropertyOn, hk, hw, hc, hen]⟩
    · have hb : (p.name == k) = false := by simpa using hk
      simp only [List.find?_cons, hb] at hfind
      obtain ⟨e, he⟩ := ih hfind
      exact ⟨e, by simp [definePropertyOn, hk, he]⟩

theorem definePropertyOn_creates (ps ps1 : List OwnProp) (k : String) (v : Slot)
    (hnone : ps.find? (fun p => p.name == k) = none)
    (h : definePropertyOn ps k v = .ok ps1) : Locked ps1 k := by
  induction ps generalizing ps1 with
  | nil =>
    simp only [definePropertyOn, Except.ok.injEq] at h
    subst h
    exact ⟨⟨k, v, false, false, false⟩, by simp, rfl, rfl, rfl⟩
  | cons p rest ih =>
    by_cases hk : p.name = k
    · simp [List.find?_cons, hk] at hnone
    · have hb : (p.name == k) = false := by simpa using hk
      simp only [List.find?_cons, hb] at hnone
      unfold definePropertyOn at h
      simp only [hk, if_false] at h
      split at h
      · rename_i rest1 hr
        simp only [Except.ok.injEq] at h
        subst h
        obtain ⟨p0, hf, hrest⟩ := ih _ hnone hr
        exact ⟨p0, by simp [List.find?_cons, hb, hf], hrest⟩
      · simp at h

theorem definePropertyOn_locked_other (ps ps1 : List OwnProp) (k k1 : String) (v : Slot)
    (hl : Locked ps k) (hk : k ≠ k1) (h : definePropertyOn ps k1 v = .ok ps1) :
    Locked ps1 k := by
  obtain ⟨p0, hfind, hrest⟩ := hl
  exact ⟨p0, by rw [find_definePropertyOn_other _ _ _ _ _ h hk]; exact hfind, hrest⟩

theorem attributeStep_keys (bag : List (String × Nat)) (h : Heap) (attributes : Val)
    (acc acc1 : List (String × Slot) × List RelatedEntity) (a x : String)
    (hs : attributeStep bag h attributes acc a = .ok acc1)
    (hx : x ∈ acc1.1.map Prod.fst) : x ∈ acc.1.map Prod.fst ∨ x = a ∨ x = "_computed" := by
  unfold attributeStep at hs
  split at hs
  · simp at hs
  · split at hs
    · simp only [Except.ok.injEq] at hs
      subst hs
      rcases keys_setProp _ _ _ _ hx with h1 | h1
      · exact Or.inl h1
      · exact Or.inr (Or.inr h1)
    · simp only [Except.ok.injEq] at hs
      subst hs
      rcases keys_setProp _ _ _ _ hx with h1 | h1
      · exact Or.inl h1
      · exact Or.inr (Or.inl h1)
    · split at hs
      · simp at hs
      · split at hs
        · split at hs
          · simp at hs
          · split at hs
            · simp at hs
            · simp only [Except.ok.injEq] at hs
              subst hs
              rcases keys_setProp _ _ _ _ hx with h1 | h1
              · exact Or.inl h1
              · exact Or.inr (Or.inl h1)
        · simp only [Except.ok.injEq] at hs
          subst hs
          exact Or.inl hx

theorem reduceAttributes_keys (bag : List (String × Nat)) (h : Heap) (attributes : Val)
    (keys : List String) (acc acc1 : List (String × Slot) × List RelatedEntity) (x : String)
    (hs : reduceAttributes bag h attributes keys acc = .ok acc1)
    (hx : x ∈ acc1.1.map Prod.fst) :
    x ∈ acc.1.map Prod.fst ∨ x ∈ keys ∨ x = "_computed" := by
  induction keys generalizing acc with
  | nil =>
    simp only [reduceAttributes, Except.ok.injEq] at hs
    subst hs
    exact Or.inl hx
  | cons a rest ih =>
    unfold reduceAttributes at hs
    split at hs
    · simp at hs
    · rename_i acc2 h2
      rcases ih _ hs with h3 | h3 | h3
      · rcases attributeStep_keys _ _ _ _ _ _ _ h2 h3 with h4 | h4 | h4
        · exact Or.inl h4
        · exact Or.inr (Or.inl (h4 ▸ List.mem_cons_self _ _))
        · exact Or.inr (Or.inr h4)
      · exact Or.inr (Or.inl (List.mem_cons_of_mem _ h3))
      · exact Or.inr (Or.inr h3)

theorem generateAll_cons (s : Val) (rest : List Val) (bag result reg : List (String × Nat))
    (h h2 : Heap) (he : generateAll (s :: rest) bag result h = (.ok reg, h2)) :
    ∃ a h1 name key, getProp s "name" = .ok name ∧ generateSchema s bag h = (.ok a, h1)
      ∧ propertyKey name = some key
      ∧ generateAll rest bag (setProp result key a) h1 = (.ok reg, h2) := by
  unfold generateAll at he
  split at he
  · simp at he
  · rename_i name hname
    split at he
    · simp at he
    · rename_i a1 h3 hgen
      split at he
      · rename_i key hkey
        exact ⟨a1, h3, name, key, hname, hgen, hkey, he⟩
      · simp at he

/-- C18, as stated, fails: when the first descriptor of a name declares reference
attributes called `isRelatedTo` and `getRelation`, the two properties of the node
are created by assignment and stay writable and configurable, so the second
descriptor of the same name attaches its capabilities without rejection and the
registry is returned. -/
theorem generateSchemas_repeated_name_accepted :
    (generateSchemas (.arr [
        descriptor (.str "A") (.obj [("isRelatedTo", .str "A"), ("getRelation", .str "A")]),
        descriptor (.str "A") (.obj [])])).1 = .ok [("A", 1)]
    ∧ (generateSchemas (.arr [descriptor (.str "A") (.obj []),
        descriptor (.str "A") (.obj [])])).1 = .error .typeError :=
  ⟨rfl, rfl⟩

/-- C18, amended: for every list of descriptors in which two descriptors share a name
and the first descriptor of that name does not declare both an attribute named
`isRelatedTo` and an attribute named `getRelation`, `generateSchemas` fails and
returns no registry: the capability attached by the first generation is neither
writable nor configurable, and the second generation on the same node is
rejected. -/
theorem generateSchemas_repeated_name (pre mid post : List Val) (D1 D2 : Val) (nm : String)
    (h1 : getProp D1 "name" = .ok (.str nm)) (h2 : getProp D2 "name" = .ok (.str nm))
    (hpre : ∀ s ∈ pre, getProp s "name" ≠ .ok (.str nm))
    (hmid : ∀ s ∈ mid, getProp s "name" ≠ .ok (.str nm))
    (hcap : ∀ attributes keys, getProp D1 "attributes" = .ok attributes →
      ownKeys attributes = .ok keys → "isRelatedTo" ∉ keys ∨ "getRelation" ∉ keys) :
    ∃ e, (generateSchemas (.arr (pre ++ D1 :: (mid ++ D2 :: post)))).1 = .error e := by
  cases hg : generateSchemas (.arr (pre ++ D1 :: (mid ++ D2 :: post))) with
  | mk r h =>
    cases r with
    | error e => exact ⟨e, rfl⟩
    | ok reg =>
      exfalso
      obtain ⟨bag, h0, _, hall, hfresh, hstr, _⟩ := generateSchemas_ok _ _ _ hg
      have hok0 : BagOk bag h0 := bagOk_of_bagFresh _ _ hfresh
      have hne : ∀ (l : List Val), (∀ s ∈ l, s ∈ pre ++ D1 :: (mid ++ D2 :: post)) →
          (∀ s ∈ l, getProp s "name" ≠ .ok (.str nm)) →
          ∀ s ∈ l, ∃ nm1, getProp s "name" = .ok (.str nm1) ∧ nm1 ≠ nm := by
        intro l hsub hl s hs
        obtain ⟨nm1, h3⟩ := hstr s (hsub s hs)
        refine ⟨nm1, h3, ?_⟩
        intro h4
        subst h4
        exact hl s hs h3
      obtain ⟨r1, hA, eA, e1⟩ := generateAll_append _ _ _ _ _ _ _ hall
      obtain ⟨a, hB, name1, key1, hname1, hgen1, _, e2⟩ := generateAll_cons _ _ _ _ _ _ _ e1
      obtain ⟨r3, hC, eC, e3⟩ := generateAll_append _ _ _ _ _ _ _ e2
      obtain ⟨a2, hD, name2, key2, hname2, hgen2, _, _⟩ := generateAll_cons _ _ _ _ _ _ _ e3
      obtain ⟨attributes, keys, defn, rel, nameA, node, ps1, ps2, ps3, hattr, hkeys, hred,
        hnameA, hbagA, hnode, hassign, hdp1, hdp2, hhB⟩ := generateSchema_props _ _ _ _ _ hgen1
      rw [h1] at hnameA
      simp only [Except.ok.injEq] at hnameA
      subst hnameA
      have hla : bag.lookup nm = some a := (bagGet_str _ _ _).mp hbagA
      obtain ⟨iA, _, sA⟩ := generateAll_later pre bag [] r1 h0 hA nm a eA hok0 hla
        (hne pre (fun s hs => List.mem_append_left _ hs) hpre)
      obtain ⟨node0, hn0, _, hp0⟩ := hfresh _ _ hla
      rw [iA, hn0] at hnode
      simp only [Option.some.injEq] at hnode
      subst hnode
      rw [hp0] at hassign
      have hdefn : ∀ x, x ≠ "_computed" → x ∉ keys → x ∉ defn.map Prod.fst := by
        intro x hx1 hx2 hx3
        rcases reduceAttributes_keys _ _ _ _ _ _ x hred hx3 with h4 | h4 | h4
        · simp at h4
        · exact hx2 h4
        · exact hx1 h4
      have hlocked : Locked ps3 "isRelatedTo" ∨ Locked ps3 "getRelation" := by
        rcases hcap attributes keys hattr hkeys with hc | hc
        · left
          have hf := assignAll_find_absent _ _ _ _ (hdefn _ (by decide) hc) hassign
          exact definePropertyOn_locked_other _ _ _ _ _
            (definePropertyOn_creates _ _ _ _ (by rw [hf]; rfl) hdp1) (by decide) hdp2
        · right
          have hf := assignAll_find_absent _ _ _ _ (hdefn _ (by decide) hc) hassign
          have hf2 := find_definePropertyOn_other _ _ _ "getRelation" _ hdp1 (by decide)
          exact definePropertyOn_creates _ _ _ _ (by rw [hf2, hf]; rfl) hdp2
      have hokA : BagOk bag hA := bagOk_of_sameKeys _ _ _ hok0 sA
      have hnodeA : hA[a]? = some node0 := by rw [iA]; exact hn0
      have hokB : BagOk bag hB := by
        rw [hhB]
        exact bagOk_of_sameKeys _ _ _ hokA (frame_set _ _ _ _ hnodeA).2
      have hnodeB : hB[a]? = some { node0 with props := ps3 } := by
        rw [hhB]
        exact getElem?_set_node _ _ _ _ hnodeA
      obtain ⟨iC, _, _⟩ := generateAll_later mid bag _ r3 hB hC nm a eC hokB hla
        (hne mid (fun s hs => List.mem_append_right _
          (List.mem_cons_of_mem _ (List.mem_append_left _ hs))) hmid)
      obtain ⟨_, _, defn2, rel2, nameB, nodeB, qs1, qs2, qs3, _, _, _,
        hnameB, hbagB, hnodeC, hassign2, hdq1, hdq2, _⟩ := generateSchema_props _ _ _ _ _ hgen2
      rw [h2] at hnameB
      simp only [Except.ok.injEq] at hnameB
      subst hnameB
      have hla2 : bag.lookup nm = some a2 := (bagGet_str _ _ _).mp hbagB
      rw [hla] at hla2
      simp only [Option.some.injEq] at hla2
      subst hla2
      rw [iC, hnodeB] at hnodeC
      simp only [Option.some.injEq] at hnodeC
      subst hnodeC
      rcases hlocked with hl | hl
      · obtain ⟨e, he⟩ := definePropertyOn_locked_fails qs1 "isRelatedTo" (.isRelatedTo rel2)
          (assignAll_locked _ _ _ _ hl hassign2)
        rw [hdq1] at he
        cases he
      · obtain ⟨e, he⟩ := definePropertyOn_locked_fails qs2 "getRelation"
          (.getRelation a rel2 bag)
          (definePropertyOn_locked_other _ _ _ _ _ (assignAll_locked _ _ _ _ hl hassign2)
            (by decide) hdq1)
        rw [hdq2] at he
        cases he

/-- Witness of the amended C18: two descriptors `{ name: 'A', attributes: {} }`. -/
theorem generateSchemas_repeated_name_witness :
    ∃ e, (generateSchemas (.arr ([] ++ descriptor (.str "A") (.obj [])
      :: ([] ++ descriptor (.str "A") (.obj []) :: [])))).1 = .error e :=
  generateSchemas_repeated_name [] [] [] (descriptor (.str "A") (.obj []))
    (descriptor (.str "A") (.obj [])) "A" rfl rfl (by simp) (by simp)
    (by
      intro attributes keys ha hk
      have h3 : getProp (descriptor (.str "A") (.obj [])) "attributes" = .ok (.obj []) := rfl
      rw [h3] at ha
      simp only [Except.ok.injEq] at ha
      subst ha
      simp only [ownKeys, List.map_nil, propertyOrder_nil, Except.ok.injEq] at hk
      subst hk
      exact Or.inl (by simp))

end EntitiesManager

/-! ## The node of a descriptor after the generation -/

namespace EntitiesManager

theorem generateAll_props (pre post : List Val) (D : Val) (nm : String)
    (bag result reg : List (String × Nat)) (h h1 : Heap)
    (he : generateAll (pre ++ D :: post) bag result h = (.ok reg, h1)) (hb : BagOk bag h)
    (hstr : ∀ s ∈ pre ++ D :: post, ∃ nm1, getProp s "name" = .ok (.str nm1))
    (hD : getProp D "name" = .ok (.str nm))
    (hpre : ∀ s ∈ pre, getProp s "name" ≠ .ok (.str nm))
    (hlast : ∀ s ∈ post, getProp s "name" ≠ .ok (.str nm)) :
    ∃ a node attributes keys defn rel hd ps1 ps2 ps3,
      bag.lookup nm = some a ∧ h[a]? = some node
      ∧ getProp D "attributes" = .ok attributes
      ∧ ownKeys attributes = .ok keys
      ∧ reduceAttributes bag hd attributes keys ([], []) = .ok (defn, rel)
      ∧ assignAll node.props defn = (.ok (), ps1)
      ∧ definePropertyOn ps1 "isRelatedTo" (.isRelatedTo rel) = .ok ps2
      ∧ definePropertyOn ps2 "getRelation" (.getRelation a rel bag) = .ok ps3
      ∧ h1[a]? = some { node with props := ps3 }
      ∧ SameKeys h h1 := by
  have hne : ∀ (l : List Val), (∀ s ∈ l, s ∈ pre ++ D :: post) →
      (∀ s ∈ l, getProp s "name" ≠ .ok (.str nm)) →
      ∀ s ∈ l, ∃ nm1, getProp s "name" = .ok (.str nm1) ∧ nm1 ≠ nm := by
    intro l hsub hl s hs
    obtain ⟨nm1, h3⟩ := hstr s (hsub s hs)
    refine ⟨nm1, h3, ?_⟩
    intro h4
    subst h4
    exact hl s hs h3
  obtain ⟨r1, hA, eA, e1⟩ := generateAll_append _ _ _ _ _ _ _ he
  obtain ⟨a, hB, name1, key1, hname1, hgen1, _, e2⟩ := generateAll_cons _ _ _ _ _ _ _ e1
  obtain ⟨attributes, keys, defn, rel, nameA, node, ps1, ps2, ps3, hattr, hkeys, hred,
    hnameA, hbagA, hnode, hassign, hdp1, hdp2, hhB⟩ := generateSchema_props _ _ _ _ _ hgen1
  rw [hD] at hnameA
  simp only [Except.ok.injEq] at hnameA
  subst hnameA
  have hla : bag.lookup nm = some a := (bagGet_str _ _ _).mp hbagA
  obtain ⟨iA, _, sA⟩ := generateAll_later pre bag result r1 h hA nm a eA hb hla
    (hne pre (fun s hs => List.mem_append_left _ hs) hpre)
  have hokA : BagOk bag hA := bagOk_of_sameKeys _ _ _ hb sA
  have hokB : BagOk bag hB := by
    rw [hhB]
    exact bagOk_of_sameKeys _ _ _ hokA (frame_set _ _ _ _ hnode).2
  have hnodeB : hB[a]? = some { node with props := ps3 } := by
    rw [hhB]
    exact getElem?_set_node _ _ _ _ hnode
  obtain ⟨iC, _, sC⟩ := generateAll_later post bag _ reg hB h1 nm a e2 hokB hla
    (hne post (fun s hs => List.mem_append_right _ (List.mem_cons_of_mem _ hs)) hlast)
  refine ⟨a, node, attributes, keys, defn, rel, hA, ps1, ps2, ps3, hla, by rw [← iA]; exact hnode,
    hattr, hkeys, hred, hassign, hdp1, hdp2, by rw [iC]; exact hnodeB, ?_⟩
  have sB : SameKeys hA hB := by
    rw [hhB]
    exact (frame_set _ _ _ _ hnode).2
  exact sameKeys_trans _ _ _ (sameKeys_trans _ _ _ sA sB) sC

theorem mem_assignProp (ps ps1 : List OwnProp) (k : String) (v : Slot)
    (h : assignProp ps k v = .ok ps1) :
    ∀ p ∈ ps1, p ∈ ps ∨ (p.name = k ∧ p.value = v) := by
  induction ps generalizing ps1 with
  | nil =>
    simp only [assignProp, Except.ok.injEq] at h
    subst h
    intro p hp
    simp only [List.mem_singleton] at hp
    subst hp
    exact Or.inr ⟨rfl, rfl⟩
  | cons q rest ih =>
    unfold assignProp at h
    split at h
    · rename_i hk
      split at h
      · simp only [Except.ok.injEq] at h
        subst h
        intro p hp
        rcases List.mem_cons.mp hp with h1 | h1
        · subst h1
          exact Or.inr ⟨hk, rfl⟩
        · exact Or.inl (List.mem_cons_of_mem _ h1)
      · simp at h
    · split at h
      · rename_i rest1 hr
        simp only [Except.ok.injEq] at h
        subst h
        intro p hp
        rcases List.mem_cons.mp hp with h1 | h1
        · subst h1
          exact Or.inl (List.mem_cons_self _ _)
        · rcases ih _ hr p h1 with h2 | h2
          · exact Or.inl (List.mem_cons_of_mem _ h2)
          · exact Or.inr h2
      · simp at h

theorem mem_assignAll (ps ps1 : List OwnProp) (defn : List (String × Slot))
    (h : assignAll ps defn = (.ok (), ps1)) :
    ∀ p ∈ ps1, p ∈ ps ∨ (p.name, p.value) ∈ defn := by
  induction defn generalizing ps with
  | nil =>
    simp only [assignAll, Prod.mk.injEq, true_and] at h
    subst h
    intro p hp
    exact Or.inl hp
  | cons kv rest ih =>
    obtain ⟨k, v⟩ := kv
    unfold assignAll at h
    split at h
    · rename_i ps2 h2
      intro p hp
      rcases ih _ h p hp with h3 | h3
      · rcases mem_assignProp _ _ _ _ h2 p h3 with h4 | h4
        · exact Or.inl h4
        · refine Or.inr ?_
          have : (p.name, p.value) = (k, v) := by rw [h4.1, h4.2]
          rw [this]
          exact List.mem_cons_self _ _
      · exact Or.inr (List.mem_cons_of_mem _ h3)
    · simp at h

theorem mem_definePropertyOn (ps ps1 : List OwnProp) (k : String) (v : Slot)
    (h : definePropertyOn ps k v = .ok ps1) :
    ∀ p ∈ ps1, p ∈ ps ∨ (p.name = k ∧ p.value = v) := by
  induction ps generalizing ps1 with
  | nil =>
    simp only [definePropertyOn, Except.ok.injEq] at h
    subst h
    intro p hp
    simp only [List.mem_singleton] at hp
    subst hp
    exact Or.inr ⟨rfl, rfl⟩
  | cons q rest ih =>
    unfold definePropertyOn at h
    split at h
    · rename_i hk
      have key : ∀ q1 : OwnProp, q1.name = k → q1.value = v →
          ∀ p ∈ q1 :: rest, p ∈ q :: rest ∨ (p.name = k ∧ p.value = v) := by
        intro q1 hq1 hq2 p hp
        rcases List.mem_cons.mp hp with h1 | h1
        · subst h1
          exact Or.inr ⟨hq1, hq2⟩
        · exact Or.inl (List.mem_cons_of_mem _ h1)
      split at h
      · simp only [Except.ok.injEq] at h
        subst h
        exact key _ hk rfl
      · split at h
        · simp at h
        · split at h
          · simp only [Except.ok.injEq] at h
            subst h
            exact key _ hk rfl
          · simp at h
    · split at h
      · rename_i rest1 hr
        simp only [Except.ok.injEq] at h
        subst h
        intro p hp
        rcases List.mem_cons.mp hp with h1 | h1
        · subst h1
          exact Or.inl (List.mem_cons_self _ _)
        · rcases ih _ hr p h1 with h2 | h2
          · exact Or.inl (List.mem_cons_of_mem _ h2)
          · exact Or.inr h2
      · simp at h

/-- The bag of the first pass registers exactly the names of the batch. -/
theorem validBatch_bag (batch : List (String × List (String × Val)))
    (bag : List (String × Nat)) (h0 : Heap)
    (hb : buildBag (descriptors batch) [] [] = (.ok bag, h0)) :
    (∀ n ∈ batch.map Prod.fst, (bag.lookup n).isSome = true)
      ∧ (∀ n b, bag.lookup n = some b → n ∈ batch.map Prod.fst) := by
  refine ⟨?_, ?_⟩
  · intro n hn
    obtain ⟨d, hd, hdn⟩ := List.mem_map.mp hn
    have hm : descriptor (.str d.1) (.obj d.2) ∈ descriptors batch :=
      List.mem_map.mpr ⟨d, hd, rfl⟩
    obtain ⟨nm, h1, _, h3⟩ := buildBag_names _ _ _ _ _ hb _ hm
    rw [getProp_descriptor_name] at h1
    simp only [Except.ok.injEq, Val.str.injEq] at h1
    rw [← hdn, h1]
    exact h3
  · intro n b hnb
    rcases buildBag_keys _ _ _ _ _ hb n b hnb with h3 | ⟨x, hx, hxn⟩
    · simp [List.lookup] at h3
    · obtain ⟨d1, hd1, rfl⟩ := List.mem_map.mp hx
      rw [getProp_descriptor_name] at hxn
      simp only [Except.ok.injEq, Val.str.injEq] at hxn
      exact List.mem_map.mpr ⟨d1, hd1, hxn⟩

end EntitiesManager

/-! ## Relation lookup on the nodes of a valid batch -/

namespace EntitiesManager

theorem getProp_defined (e : Val) (k : String) (h1 : e ≠ .undefined) (h2 : e ≠ .null) :
    ∃ v, getProp e k = .ok v := by
  cases e with
  | undefined => exact absurd rfl h1
  | null => exact absurd rfl h2
  | arr xs =>
    simp only [getProp]
    split
    · exact ⟨_, rfl⟩
    · exact ⟨_, rfl⟩
  | str s =>
    simp only [getProp]
    split
    · exact ⟨_, rfl⟩
    · exact ⟨_, rfl⟩
  | _ => exact ⟨_, rfl⟩

theorem inheritedMember_cases (k : String) :
    inheritedMember k = .obj [] ∨ (∃ id, inheritedMember k = .func id)
      ∨ inheritedMember k = .undefined := by
  unfold inheritedMember
  split
  · exact Or.inl rfl
  · split
    · exact Or.inr (Or.inl ⟨_, rfl⟩)
    · exact Or.inr (Or.inr rfl)

theorem attributeStep_safe (names : List String) (bag : List (String × Nat)) (h : Heap)
    (ps : List (String × Val)) (acc acc1 : List (String × Slot) × List RelatedEntity) (a : String)
    (ha : a ≠ "getKey") (hv : ∀ v, ps.lookup a = some v → validAttribute names v)
    (hcov : ∀ n ∈ names, (bag.lookup n).isSome = true)
    (hacc : ∀ kv ∈ acc.1, SafeEntry bag kv.1 kv.2)
    (hs : attributeStep bag h (.obj ps) acc a = .ok acc1) :
    ∀ kv ∈ acc1.1, SafeEntry bag kv.1 kv.2 := by
  have hget : ∀ s, s ∈ names → ∃ b, bagGet bag (.str s) = .schema b ∧ bag.lookup s = some b := by
    intro s hs1
    have h1 := hcov s hs1
    cases hl : bag.lookup s with
    | none => rw [hl] at h1; simp at h1
    | some b => exact ⟨b, (bagGet_str _ _ _).mpr hl, rfl⟩
  unfold attributeStep at hs
  simp only [getProp] at hs
  cases hl : ps.lookup a with
  | none =>
    rw [hl] at hs
    simp only [Option.getD_none] at hs
    rcases inheritedMember_cases a with hm | ⟨id, hm⟩ | hm
    · rw [hm] at hs
      simp only [List.lookup, Option.getD_none, inheritedMember_isArray, truthy,
        Bool.false_eq_true, if_false, Except.ok.injEq] at hs
      subst hs
      exact hacc
    · rw [hm] at hs
      simp only [Except.ok.injEq] at hs
      subst hs
      intro kv hkv
      rcases mem_setProp _ _ _ _ hkv with h1 | h1
      · exact hacc kv h1
      · subst h1
        exact ⟨by simp, by simp, by simp, by simp⟩
    · rw [hm] at hs
      simp at hs
  | some v =>
    rw [hl] at hs
    simp only [Option.getD_some] at hs
    rcases hv v hl with ⟨id, rfl⟩ | ⟨s, rfl, hs1⟩ | ⟨s, rfl, hs1⟩
    · simp only [Except.ok.injEq] at hs
      subst hs
      intro kv hkv
      rcases mem_setProp _ _ _ _ hkv with h1 | h1
      · exact hacc kv h1
      · subst h1
        exact ⟨by simp, by simp, by simp, by simp⟩
    · simp only [Except.ok.injEq] at hs
      subst hs
      obtain ⟨b, hb1, hb2⟩ := hget s hs1
      intro kv hkv
      rcases mem_setProp _ _ _ _ hkv with h1 | h1
      · exact hacc kv h1
      · subst h1
        rw [hb1]
        refine ⟨ha, by simp, by simp, ?_⟩
        intro b1 hb
        simp only [Slot.schema.injEq, reduceCtorEq, or_false] at hb
        subst hb
        exact ⟨s, hb2⟩
    · obtain ⟨b, hb1, hb2⟩ := hget s hs1
      simp only [marker, getProp, List.lookup, truthy] at hs
      simp only [show ("isArray" == "relatedSchema") = false from by decide,
        show ("isArray" == "isArray") = true from by decide,
        show ("relatedSchema" == "relatedSchema") = true from by decide,
        Option.getD_some, if_true, hb1, arrayOf, Except.ok.injEq] at hs
      subst hs
      intro kv hkv
      rcases mem_setProp _ _ _ _ hkv with h1 | h1
      · exact hacc kv h1
      · subst h1
        refine ⟨ha, by simp, by simp, ?_⟩
        intro b1 hb
        simp only [Slot.arrayOf.injEq, reduceCtorEq, false_or] at hb
        subst hb
        exact ⟨s, hb2⟩

theorem reduceAttributes_safe (names : List String) (bag : List (String × Nat)) (h : Heap)
    (ps : List (String × Val)) (keys : List String)
    (acc acc1 : List (String × Slot) × List RelatedEntity)
    (hk : ∀ a ∈ keys, a ≠ "getKey")
    (hv : ∀ a v, ps.lookup a = some v → validAttribute names v)
    (hcov : ∀ n ∈ names, (bag.lookup n).isSome = true)
    (hacc : ∀ kv ∈ acc.1, SafeEntry bag kv.1 kv.2)
    (hs : reduceAttributes bag h (.obj ps) keys acc = .ok acc1) :
    ∀ kv ∈ acc1.1, SafeEntry bag kv.1 kv.2 := by
  induction keys generalizing acc with
  | nil =>
    simp only [reduceAttributes, Except.ok.injEq] at hs
    subst hs
    exact hacc
  | cons a rest ih =>
    unfold reduceAttributes at hs
    split at hs
    · simp at hs
    · rename_i acc2 h2
      exact ih _ (fun x hx => hk x (List.mem_cons_of_mem _ hx))
        (attributeStep_safe names bag h ps acc acc2 a (hk a (List.mem_cons_self _ _))
          (hv a) hcov hacc h2) hs

theorem lookup_mem {α : Type} (ps : List (String × α)) (a : String) (v : α)
    (h : ps.lookup a = some v) : (a, v) ∈ ps := by
  obtain ⟨v1, h1, h2⟩ := lookup_of_mem_keys ps a (keys_of_lookup ps a v h)
  rw [h] at h1
  simp only [Option.some.injEq] at h1
  subst h1
  exact h2

theorem safeSlots_no_getKey (bag : List (String × Nat)) (ps : List OwnProp)
    (h : SafeSlots bag ps) : ps.find? (fun p => p.name == "getKey") = none := by
  rw [List.find?_eq_none]
  intro p hp
  simp only [beq_iff_eq]
  exact (h p hp).1

theorem getKey_safe (bag : List (String × Nat)) (h : Heap) (hr : RegistrySafe bag h)
    (k : String) (b : Nat) (hb : bag.lookup k = some b) : getKey h b = .ok k := by
  obtain ⟨node, h1, h2, h3⟩ := hr k b hb
  unfold getKey
  rw [h1]
  simp only
  rw [safeSlots_no_getKey bag _ h3, h2]

theorem isBackReference_safe (bag : List (String × Nat)) (h : Heap) (hr : RegistrySafe bag h)
    (kc : String) (c : Nat) (hc : bag.lookup kc = some c) (p : OwnProp)
    (hp : SafeEntry bag p.name p.value) : ∃ r, isBackReference h c p = .ok r := by
  unfold isBackReference
  split
  · exact ⟨_, rfl⟩
  · obtain ⟨_, h2, h2a, h3⟩ := hp
    cases hval : p.value with
    | undefined => exact absurd hval h2
    | arrayOfInherited m => exact absurd hval (h2a m)
    | schema b =>
      obtain ⟨n, hn⟩ := h3 b (Or.inl hval)
      obtain ⟨node, g1, g2, g3⟩ := hr n b hn
      have : ownProp h b "getKey" = none := by
        unfold ownProp
        rw [g1]
        exact safeSlots_no_getKey bag _ g3
      simp only [this, sameKey, getKey_safe bag h hr n b hn, getKey_safe bag h hr kc c hc]
      exact ⟨_, rfl⟩
    | arrayOf b =>
      obtain ⟨n, hn⟩ := h3 b (Or.inr hval)
      simp only [sameKey, getKey_safe bag h hr n b hn, getKey_safe bag h hr kc c hc]
      exact ⟨_, rfl⟩
    | _ => exact ⟨_, rfl⟩

theorem findBackReference_safe (bag : List (String × Nat)) (h : Heap) (hr : RegistrySafe bag h)
    (kc : String) (c : Nat) (hc : bag.lookup kc = some c) (ps : List OwnProp)
    (hp : SafeSlots bag ps) : ∃ r, findBackReference h c ps = .ok r := by
  induction ps with
  | nil => exact ⟨none, rfl⟩
  | cons p rest ih =>
    obtain ⟨r, hr1⟩ := isBackReference_safe bag h hr kc c hc p (hp p (List.mem_cons_self _ _))
    unfold findBackReference
    rw [hr1]
    cases r with
    | true => exact ⟨_, rfl⟩
    | false => exact ih (fun q hq => hp q (List.mem_cons_of_mem _ hq))

theorem getRelatedThrough_safe (bag : List (String × Nat)) (h : Heap) (hr : RegistrySafe bag h)
    (kr kc : String) (r c : Nat) (hrr : bag.lookup kr = some r) (hc : bag.lookup kc = some c) :
    ∃ x, getRelatedThrough h (.schema r) c = .ok x := by
  obtain ⟨node, h1, _, h3⟩ := hr kr r hrr
  unfold getRelatedThrough enumerableProps
  simp only [h1]
  apply findBackReference_safe bag h hr kc c hc
  intro p hp
  exact h3 p (List.mem_of_mem_filter ((mem_propertyOrder _ _ p).mp hp))

/-- The node of a descriptor of a valid batch, after the generation: it is the node the
bag registers under the name, it has the key of the name, and its properties
are those the definition and the two capabilities have put on an empty node. -/
theorem validBatch_node (batch : List (String × List (String × Val)))
    (bag reg : List (String × Nat)) (h0 h : Heap) (hv : validBatch batch)
    (hall : generateAll (descriptors batch) bag [] h0 = (.ok reg, h))
    (hfresh : BagFresh bag h0)
    (d : String × List (String × Val)) (hd : d ∈ batch) :
    ∃ a defn rel hd ps1 ps2 ps3,
      bag.lookup d.1 = some a
      ∧ reduceAttributes bag hd (.obj d.2) (propertyOrder id (d.2.map Prod.fst)) ([], [])
        = .ok (defn, rel)
      ∧ assignAll [] defn = (.ok (), ps1)
      ∧ definePropertyOn ps1 "isRelatedTo" (.isRelatedTo rel) = .ok ps2
      ∧ definePropertyOn ps2 "getRelation" (.getRelation a rel bag) = .ok ps3
      ∧ h[a]? = some { key := d.1, props := ps3 } := by
  obtain ⟨pre, post, hsplit⟩ := List.append_of_mem hd
  obtain ⟨hnodup, _, _⟩ := hv
  rw [hsplit] at hnodup hall
  simp only [List.map_append, List.map_cons, List.nodup_append, List.nodup_cons,
    List.mem_append, List.mem_cons, List.mem_map] at hnodup
  have hds : descriptors (pre ++ d :: post)
      = descriptors pre ++ descriptor (.str d.1) (.obj d.2) :: descriptors post := by
    simp [descriptors]
  rw [hds] at hall
  have hne : ∀ l : List (String × List (String × Val)), (∀ x ∈ l, x.1 ≠ d.1) →
      ∀ s ∈ descriptors l, getProp s "name" ≠ .ok (.str d.1) := by
    intro l hl s hs
    obtain ⟨x, hx, rfl⟩ := List.mem_map.mp hs
    rw [getProp_descriptor_name]
    intro h4
    simp only [Except.ok.injEq, Val.str.injEq] at h4
    exact hl x hx h4
  have hstr : ∀ s ∈ descriptors pre ++ descriptor (.str d.1) (.obj d.2) :: descriptors post,
      ∃ nm1, getProp s "name" = .ok (.str nm1) := by
    intro s hs
    rw [← hds] at hs
    obtain ⟨x, _, rfl⟩ := List.mem_map.mp hs
    exact ⟨x.1, rfl⟩
  have hpre : ∀ x ∈ pre, x.1 ≠ d.1 := by
    intro x hx hxd
    exact hnodup.2.2 (List.mem_map.mpr ⟨x, hx, hxd⟩) (List.mem_cons_self _ _)
  have hpost : ∀ x ∈ post, x.1 ≠ d.1 := by
    intro x hx hxd
    exact hnodup.2.1.1 ⟨x, hx, hxd⟩
  obtain ⟨a, node, attributes, keys, defn, rel, hd1, ps1, ps2, ps3, hla, hnode, hattr, hkeys,
    hred, hassign, hdp1, hdp2, hfinal, _⟩ :=
    generateAll_props _ _ _ d.1 bag [] reg h0 h hall (bagOk_of_bagFresh _ _ hfresh) hstr rfl
      (hne pre hpre) (hne post hpost)
  obtain ⟨node0, g1, g2, g3⟩ := hfresh d.1 a hla
  rw [g1] at hnode
  simp only [Option.some.injEq] at hnode
  subst hnode
  have hattr1 : attributes = .obj d.2 := by
    have : getProp (descriptor (.str d.1) (.obj d.2)) "attributes" = .ok (.obj d.2) := rfl
    rw [this] at hattr
    simp only [Except.ok.injEq] at hattr
    exact hattr.symm
  subst hattr1
  simp only [ownKeys, Except.ok.injEq] at hkeys
  subst hkeys
  rw [g3] at hassign
  refine ⟨a, defn, rel, hd1, ps1, ps2, ps3, hla, hred, hassign, hdp1, hdp2, ?_⟩
  rw [hfinal]
  cases node0
  simp only at g2 g3
  subst g2
  rfl

/-- After the generation of a valid batch that declares no attribute named `getKey`, the
properties of every node are safe for the back-reference search. -/
theorem validBatch_registrySafe (batch : List (String × List (String × Val)))
    (bag reg : List (String × Nat)) (h0 h : Heap) (hv : validBatch batch)
    (hno : noAttributeNamed "getKey" batch)
    (hall : generateAll (descriptors batch) bag [] h0 = (.ok reg, h))
    (hfresh : BagFresh bag h0)
    (hcov : ∀ n ∈ batch.map Prod.fst, (bag.lookup n).isSome = true)
    (hkeys : ∀ n b, bag.lookup n = some b → n ∈ batch.map Prod.fst) :
    RegistrySafe bag h := by
  intro k b hkb
  obtain ⟨d, hd, hdk⟩ := List.mem_map.mp (hkeys k b hkb)
  obtain ⟨a, defn, rel, hd1, ps1, ps2, ps3, hla, hred, hassign, hdp1, hdp2, hfinal⟩ :=
    validBatch_node batch bag reg h0 h hv hall hfresh d hd
  rw [hdk, hkb] at hla
  simp only [Option.some.injEq] at hla
  subst hla
  refine ⟨_, hfinal, hdk, ?_⟩
  have hsafe : ∀ kv ∈ defn, SafeEntry bag kv.1 kv.2 :=
    reduceAttributes_safe (batch.map Prod.fst) bag hd1 d.2 _ ([], []) (defn, rel)
      (fun x hx hxk => hno d hd (hxk ▸ (mem_propertyOrder id _ x).mp hx))
      (fun x v hxv => hv.2.2 d hd (x, v) (lookup_mem _ _ _ hxv))
      hcov (fun kv hkv => absurd hkv (List.not_mem_nil _)) hred
  intro p hp
  simp only at hp
  rcases mem_definePropertyOn _ _ _ _ hdp2 p hp with h1 | ⟨h1, h2⟩
  · rcases mem_definePropertyOn _ _ _ _ hdp1 p h1 with h3 | ⟨h3, h4⟩
    · rcases mem_assignAll _ _ _ hassign p h3 with h5 | h5
      · exact absurd h5 (List.not_mem_nil _)
      · exact hsafe _ h5
    · rw [h3, h4]
      exact ⟨by decide, by simp, by simp, by simp⟩
  · rw [h1, h2]
    exact ⟨by decide, by simp, by simp, by simp⟩

end EntitiesManager

/-! ## C13: when `getRelation` fails -/

namespace EntitiesManager

theorem validAttribute_of_check (names : List String) (v : Val)
    (h : checkAttribute names v = true) : validAttribute names v := by
  unfold checkAttribute at h
  split at h
  · exact Or.inl ⟨_, rfl⟩
  · exact Or.inr (Or.inl ⟨_, rfl, by simpa using h⟩)
  · simp only [Bool.and_eq_true, beq_iff_eq] at h
    obtain ⟨⟨h1, h2⟩, h3⟩ := h
    subst h1 h2
    exact Or.inr (Or.inr ⟨_, rfl, by simpa using h3⟩)
  · simp at h

theorem validBatch_of_check (batch : List (String × List (String × Val)))
    (h : checkBatch batch = true) : validBatch batch := by
  simp only [checkBatch, Bool.and_eq_true, decide_eq_true_eq, List.all_eq_true, bne_iff_ne,
    ne_eq] at h
  obtain ⟨⟨h1, h2⟩, h3⟩ := h
  exact ⟨h1, h2, fun d hd av hav => validAttribute_of_check _ _ (h3 d hd av hav)⟩

theorem targetsName_valid (names : List String) (v : Val) (n : String)
    (hv : validAttribute names v) (ht : targetsName v n = true) : n ∈ names := by
  rcases hv with ⟨id, rfl⟩ | ⟨s, rfl, hs⟩ | ⟨s, rfl, hs⟩
  · simp [targetsName, strictEqStr, isArrayReference] at ht
  · simp [targetsName, strictEqStr, isArrayReference] at ht
    rw [← ht]
    exact hs
  · simp [targetsName, strictEqStr, isArrayReference, marker, getProp, List.lookup,
      truthy] at ht
    rw [← ht]
    exact hs

theorem find_of_isRelatedTo (rel : List RelatedEntity) (n : String) :
    (isRelatedTo rel n = true → ∃ x, rel.find? (fun e => strictEqStr e.entity n) = some x)
    ∧ (isRelatedTo rel n = false → rel.find? (fun e => strictEqStr e.entity n) = none) := by
  unfold isRelatedTo
  induction rel with
  | nil => simp
  | cons x rest ih =>
    simp only [List.map_cons, List.any_cons, List.find?_cons]
    cases hx : strictEqStr x.entity n with
    | true => simp
    | false => simpa using ih

/-- C13, counterexample: the batch `A = { getKey: 'B' }`, `B = { as: hasMany(A) }` is valid and
is generated, the node of `A` answers `isRelatedTo('B')` with `true`, and yet
`getRelation(e, 'B')` on it fails, for the entity `e = { id: 1, getKey: 5 }`: the
slot named `getKey` hides the key accessor that the back-reference search
calls. -/
theorem getRelation_fails_on_related_name :
    validBatch [("A", [("getKey", .str "B")]), ("B", [("as", marker (.str "A"))])]
    ∧ ∃ h, generateSchemas (.arr (descriptors
          [("A", [("getKey", .str "B")]), ("B", [("as", marker (.str "A"))])]))
          = (.ok [("A", 0), ("B", 1)], h)
        ∧ callIsRelatedTo h 0 "B" = .ok true
        ∧ callGetRelation h 0 (.obj [("id", .num 1), ("getKey", .num 5)]) "B"
          = .error .typeError :=
  ⟨validBatch_of_check _ (by decide), _, rfl, rfl, rfl⟩

/-- C13 (amended): in a successful generation, on the node registered under the name
of a descriptor `D` (the last one of that name in the list), `getRelation(e, n)`
fails whenever `isRelatedTo(n)` is false; and when the list is a valid batch in
which no attribute is named `getKey`, the entity `e` is neither `undefined` nor
`null`, and `isRelatedTo(n)` is true, it does not fail and returns a descriptor
whose `related` field is `n`. -/
theorem getRelation_fails_iff_unrelated (pre post : List Val) (D : Val) (nm n : String)
    (reg : List (String × Nat)) (h : Heap) (e : Val)
    (hgen : generateSchemas (.arr (pre ++ D :: post)) = (.ok reg, h))
    (hD : getProp D "name" = .ok (.str nm))
    (hlast : ∀ s ∈ post, getProp s "name" ≠ .ok (.str nm)) :
    ∃ a, reg.lookup nm = some a
      ∧ (callIsRelatedTo h a n = .ok false → callGetRelation h a e n = .error .typeError)
      ∧ (∀ batch, descriptors batch = pre ++ D :: post → validBatch batch →
          noAttributeNamed "getKey" batch → e ≠ .undefined → e ≠ .null →
          callIsRelatedTo h a n = .ok true →
          ∃ r, callGetRelation h a e n = .ok r ∧ r.related = n) := by
  obtain ⟨bag, h0, hb, hall, hfresh, hstr, hreg⟩ := generateSchemas_ok _ _ _ hgen
  obtain ⟨a, attributes, keys, defn, rel, h1, hla, hra, hattr, hkeys, hred, ⟨p, hp, hpv⟩,
    ⟨q, hq, hqv⟩, _⟩ :=
    generateAll_node pre post D nm bag [] reg h0 h hall (bagOk_of_bagFresh _ _ hfresh) hstr hD
      hlast
  have hcall : callIsRelatedTo h a n = .ok (isRelatedTo rel n) := by
    simp only [callIsRelatedTo, hp, hpv]
  have hget : callGetRelation h a e n = getRelation h a rel bag e n := by
    simp only [callGetRelation, hq, hqv]
  refine ⟨a, hra, ?_, ?_⟩
  · intro hfalse
    rw [hcall] at hfalse
    simp only [Except.ok.injEq] at hfalse
    rw [hget]
    unfold getRelation
    rw [(find_of_isRelatedTo rel n).2 hfalse]
  · intro batch hbatch hv hno he1 he2 htrue
    rw [hcall] at htrue
    simp only [Except.ok.injEq] at htrue
    obtain ⟨x, hx⟩ := (find_of_isRelatedTo rel n).1 htrue
    obtain ⟨v, hv1⟩ := getProp_defined e x.prop he1 he2
    rw [← hbatch] at hb hall
    obtain ⟨hcov, hkeysB⟩ := validBatch_bag batch bag h0 hb
    have hsafe := validBatch_registrySafe batch bag reg h0 h hv hno hall hfresh hcov hkeysB
    -- the name `n` is one of the batch
    have hmem : D ∈ descriptors batch := by
      rw [hbatch]
      exact List.mem_append_right _ (List.mem_cons_self _ _)
    obtain ⟨d, hd, hdD⟩ := List.mem_map.mp hmem
    subst hdD
    have hattr1 : attributes = .obj d.2 := by
      have : getProp (descriptor (.str d.1) (.obj d.2)) "attributes" = .ok (.obj d.2) := rfl
      rw [this] at hattr
      simp only [Except.ok.injEq] at hattr
      exact hattr.symm
    subst hattr1
    have ht := reduceAttributes_targets bag h1 _ keys ([], []) (defn, rel) n hred
    have ht2 : keys.any (attributeTargets (.obj d.2) n) = true := by
      rw [htrue] at ht
      rw [ht]
      simp [isRelatedTo]
    obtain ⟨a1, _, ha1⟩ := List.any_eq_true.mp ht2
    have hn : n ∈ batch.map Prod.fst := by
      unfold attributeTargets at ha1
      simp only [getProp] at ha1
      cases hl : d.2.lookup a1 with
      | none =>
        rw [hl] at ha1
        simp only [Option.getD_none] at ha1
        rcases inheritedMember_cases a1 with hm | ⟨id, hm⟩ | hm <;> rw [hm] at ha1 <;>
          simp [targetsName, strictEqStr, isArrayReference, getProp, truthy] at ha1
      | some v1 =>
        rw [hl] at ha1
        exact targetsName_valid _ v1 n (hv.2.2 d hd (a1, v1) (lookup_mem _ _ _ hl)) ha1
    have hsome := hcov n hn
    cases hr : bag.lookup n with
    | none => rw [hr] at hsome; simp at hsome
    | some r =>
      obtain ⟨y, hy⟩ := getRelatedThrough_safe bag h hsafe n nm r a hr hla
      refine ⟨{ related := n, relatedPropName := y, relatedId := v }, ?_, rfl⟩
      rw [hget]
      unfold getRelation
      simp only [hx, hv1, (bagGet_str _ _ _).mpr hr, hy]

/-- Witness of the amended C13: the descriptors `A = { b: 'B' }`, `B = { as: hasMany(A) }` of the
spec, the node of `A` and the entity `a = { id: 1, b: 5 }`. -/
theorem getRelation_fails_iff_unrelated_witness :
    ∃ a, [("A", 0), ("B", 1)].lookup "A" = some a
      ∧ (callIsRelatedTo (generateSchemas (.arr ([] ++ descriptor (.str "A")
            (.obj [("b", .str "B")]) :: [descriptor (.str "B")
            (.obj [("as", marker (.str "A"))])]))).2 a "B" = .ok false →
          callGetRelation (generateSchemas (.arr ([] ++ descriptor (.str "A")
            (.obj [("b", .str "B")]) :: [descriptor (.str "B")
            (.obj [("as", marker (.str "A"))])]))).2 a
            (.obj [("id", .num 1), ("b", .num 5)]) "B" = .error .typeError)
      ∧ (∀ batch, descriptors batch = [] ++ descriptor (.str "A") (.obj [("b", .str "B")])
            :: [descriptor (.str "B") (.obj [("as", marker (.str "A"))])] →
          validBatch batch → noAttributeNamed "getKey" batch →
          Val.obj [("id", .num 1), ("b", .num 5)] ≠ .undefined →
          Val.obj [("id", .num 1), ("b", .num 5)] ≠ .null →
          callIsRelatedTo (generateSchemas (.arr ([] ++ descriptor (.str "A")
            (.obj [("b", .str "B")]) :: [descriptor (.str "B")
            (.obj [("as", marker (.str "A"))])]))).2 a "B" = .ok true →
          ∃ r, callGetRelation (generateSchemas (.arr ([] ++ descriptor (.str "A")
            (.obj [("b", .str "B")]) :: [descriptor (.str "B")
            (.obj [("as", marker (.str "A"))])]))).2 a
            (.obj [("id", .num 1), ("b", .num 5)]) "B" = .ok r ∧ r.related = "B") :=
  getRelation_fails_iff_unrelated [] [descriptor (.str "B") (.obj [("as", marker (.str "A"))])]
    (descriptor (.str "A") (.obj [("b", .str "B")])) "A" "B" [("A", 0), ("B", 1)] _
    (.obj [("id", .num 1), ("b", .num 5)]) rfl rfl
    (by
      intro s hs
      simp only [List.mem_singleton] at hs
      subst hs
      simp [getProp_descriptor_name])

end EntitiesManager

/-! ## The definition a descriptor is compiled to -/

namespace EntitiesManager

theorem setProp_keys_present {α : Type} (ps : List (String × α)) (k : String) (v : α)
    (h : k ∈ ps.map Prod.fst) : (setProp ps k v).map Prod.fst = ps.map Prod.fst := by
  induction ps with
  | nil => simp at h
  | cons p rest ih =>
    unfold setProp
    split
    · rename_i hk
      simp [hk]
    · rename_i hk
      simp only [List.map_cons, List.mem_cons] at h
      rcases h with h1 | h1
      · exact absurd h1.symm hk
      · simp only [List.map_cons, List.cons.injEq, true_and]
        exact ih h1

theorem setProp_nodup {α : Type} (ps : List (String × α)) (k : String) (v : α)
    (h : (ps.map Prod.fst).Nodup) : ((setProp ps k v).map Prod.fst).Nodup := by
  by_cases hk : k ∈ ps.map Prod.fst
  · rw [setProp_keys_present ps k v hk]
    exact h
  · rw [setProp_keys_absent ps k v hk]
    rw [List.nodup_append]
    refine ⟨h, List.nodup_singleton _, ?_⟩
    intro x hx hx1
    simp only [List.mem_singleton] at hx1
    subst hx1
    exact hk hx

theorem attributeStep_nodup (bag : List (String × Nat)) (h : Heap) (attributes : Val)
    (acc acc1 : List (String × Slot) × List RelatedEntity) (a : String)
    (hn : (acc.1.map Prod.fst).Nodup)
    (hs : attributeStep bag h attributes acc a = .ok acc1) :
    (acc1.1.map Prod.fst).Nodup := by
  unfold attributeStep at hs
  split at hs
  · simp at hs
  · split at hs
    · simp only [Except.ok.injEq] at hs
      subst hs
      exact setProp_nodup _ _ _ hn
    · simp only [Except.ok.injEq] at hs
      subst hs
      exact setProp_nodup _ _ _ hn
    · split at hs
      · simp at hs
      · split at hs
        · split at hs
          · simp at hs
          · split at hs
            · simp at hs
            · simp only [Except.ok.injEq] at hs
              subst hs
              exact setProp_nodup _ _ _ hn
        · simp only [Except.ok.injEq] at hs
          subst hs
          exact hn

theorem reduceAttributes_nodup (bag : List (String × Nat)) (h : Heap) (attributes : Val)
    (keys : List String) (acc acc1 : List (String × Slot) × List RelatedEntity)
    (hn : (acc.1.map Prod.fst).Nodup)
    (hs : reduceAttributes bag h attributes keys acc = .ok acc1) :
    (acc1.1.map Prod.fst).Nodup := by
  induction keys generalizing acc with
  | nil =>
    simp only [reduceAttributes, Except.ok.injEq] at hs
    subst hs
    exact hn
  | cons a rest ih =>
    unfold reduceAttributes at hs
    split at hs
    · simp at hs
    · rename_i acc2 h2
      exact ih _ (attributeStep_nodup bag h attributes acc acc2 a hn h2) hs

theorem assignProp_absent (ps : List OwnProp) (k : String) (v : Slot)
    (h : k ∉ ps.map OwnProp.name) : assignProp ps k v = .ok (ps ++ [assigned (k, v)]) := by
  induction ps with
  | nil => rfl
  | cons p rest ih =>
    simp only [List.map_cons, List.mem_cons, not_or] at h
    unfold assignProp
    rw [if_neg (fun hk => h.1 hk.symm), ih h.2]
    rfl

theorem assignAll_fresh (ps : List OwnProp) (defn : List (String × Slot))
    (hn : (defn.map Prod.fst).Nodup) (hd : ∀ k ∈ defn.map Prod.fst, k ∉ ps.map OwnProp.name) :
    assignAll ps defn = (.ok (), ps ++ defn.map assigned) := by
  induction defn generalizing ps with
  | nil => simp [assignAll]
  | cons kv rest ih =>
    obtain ⟨k, v⟩ := kv
    simp only [List.map_cons, List.nodup_cons] at hn
    unfold assignAll
    rw [assignProp_absent ps k v (hd k (by simp))]
    simp only
    rw [ih _ hn.2]
    · simp
    · intro k1 hk1
      simp only [List.map_append, List.map_cons, List.map_nil, List.mem_append,
        List.mem_singleton, not_or]
      refine ⟨hd k1 (by simp [hk1]), ?_⟩
      intro h1
      have : k1 = k := h1
      subst this
      exact hn.1 hk1

theorem find_map_assigned (defn : List (String × Slot)) (k : String) :
    (defn.map assigned).find? (fun p => p.name == k)
      = (defn.lookup k).map (fun v => assigned (k, v)) := by
  induction defn with
  | nil => rfl
  | cons kv rest ih =>
    obtain ⟨k1, v1⟩ := kv
    simp only [List.map_cons, List.find?_cons, List.lookup, assigned]
    by_cases hk : k1 = k
    · subst hk
      simp
    · have h1 : (k1 == k) = false := by simpa using hk
      have h2 : (k == k1) = false := by simpa using fun h => hk h.symm
      simp only [h1, h2]
      exact ih

theorem relationOf_func (a : String) (id : Nat) : relationOf (a, .func id) = none := rfl

theorem relationOf_str (a s : String) :
    relationOf (a, .str s) = some { prop := a, entity := .str s } := rfl

theorem relationOf_marker (a : String) (r : Val) :
    relationOf (a, marker r) = some { prop := a, entity := r } := rfl

/-- One step of the reduction on a valid attribute: the relation recorded, the entry
written, and what is kept of the entries written before. -/
theorem attributeStep_wired (names : List String) (bag : List (String × Nat)) (h : Heap)
    (ps : List (String × Val)) (av : String × Val)
    (acc acc1 : List (String × Slot) × List RelatedEntity)
    (hl : ps.lookup av.1 = some av.2)
    (hv : validAttribute names av.2)
    (hcov : ∀ n ∈ names, (bag.lookup n).isSome = true)
    (hres : (∃ id, av.2 = .func id) ∨ av.1 ≠ "_computed")
    (hacc : ∀ v, acc.1.lookup "_computed" = some v → ∃ fs, v = .record fs)
    (hs : attributeStep bag h (.obj ps) acc av.1 = .ok acc1) :
    acc1.2 = acc.2 ++ (relationOf av).toList
    ∧ (∀ v, acc1.1.lookup "_computed" = some v → ∃ fs, v = .record fs)
    ∧ (∀ k v, k ≠ "_computed" → k ≠ av.1 → acc.1.lookup k = some v → acc1.1.lookup k = some v)
    ∧ (∀ fs k v, acc.1.lookup "_computed" = some (.record fs) → k ≠ av.1 →
        fs.lookup k = some v →
        ∃ fs1, acc1.1.lookup "_computed" = some (.record fs1) ∧ fs1.lookup k = some v)
    ∧ (∀ id, av.2 = .func id →
        ∃ fs, acc1.1.lookup "_computed" = some (.record fs) ∧ fs.lookup av.1 = some (.fn id))
    ∧ (∀ s, av.2 = .str s → acc1.1.lookup av.1 = some (bagGet bag (.str s)))
    ∧ (∀ s, av.2 = marker (.str s) →
        ∃ b, bag.lookup s = some b ∧ acc1.1.lookup av.1 = some (.arrayOf b)) := by
  obtain ⟨a, v⟩ := av
  simp only at hl hv hres hs ⊢
  unfold attributeStep at hs
  simp only [getProp, hl, Option.getD_some] at hs
  rcases hv with ⟨id, rfl⟩ | ⟨s, rfl, _⟩ | ⟨s, rfl, hsn⟩
  · simp only [Except.ok.injEq] at hs
    subst hs
    refine ⟨by simp [relationOf_func], ?_, ?_, ?_, ?_, ?_, ?_⟩
    · intro v hv1
      rw [lookup_setProp] at hv1
      simp only [if_true, Option.some.injEq] at hv1
      exact ⟨_, hv1.symm⟩
    · intro k v hk _ hkv
      rw [lookup_setProp, if_neg hk]
      exact hkv
    · intro fs k v hfs hk hkv
      refine ⟨setProp (spreadSlot h (acc.1.lookup "_computed")) a (.fn id),
        by rw [lookup_setProp]; simp, ?_⟩
      rw [hfs]
      simp only [spreadSlot]
      rw [lookup_setProp, if_neg hk]
      exact hkv
    · intro id1 hid
      simp only [Val.func.injEq] at hid
      subst hid
      exact ⟨setProp (spreadSlot h (acc.1.lookup "_computed")) a (.fn id),
        by rw [lookup_setProp]; simp, by rw [lookup_setProp]; simp⟩
    · intro s hs1
      simp at hs1
    · intro s hs1
      simp [marker] at hs1
  · have ha : a ≠ "_computed" := by
      rcases hres with ⟨id, hid⟩ | h1
      · simp at hid
      · exact h1
    simp only [Except.ok.injEq] at hs
    subst hs
    refine ⟨by simp [relationOf_str], ?_, ?_, ?_, ?_, ?_, ?_⟩
    · intro v hv1
      rw [lookup_setProp, if_neg (fun h1 => ha h1.symm)] at hv1
      exact hacc v hv1
    · intro k v _ hk hkv
      rw [lookup_setProp, if_neg hk]
      exact hkv
    · intro fs k v hfs _ hkv
      refine ⟨fs, ?_, hkv⟩
      rw [lookup_setProp, if_neg (fun h1 => ha h1.symm)]
      exact hfs
    · intro id hid
      simp at hid
    · intro s1 hs1
      simp only [Val.str.injEq] at hs1
      subst hs1
      rw [lookup_setProp]
      simp
    · intro s1 hs1
      simp [marker] at hs1
  · have ha : a ≠ "_computed" := by
      rcases hres with ⟨id, hid⟩ | h1
      · simp [marker] at hid
      · exact h1
    simp only [marker, getProp, List.lookup, truthy] at hs
    simp only [show ("isArray" == "relatedSchema") = false from by decide,
      show ("isArray" == "isArray") = true from by decide,
      show ("relatedSchema" == "relatedSchema") = true from by decide,
      Option.getD_some, if_true] at hs
    obtain ⟨b, hlb⟩ := Option.isSome_iff_exists.mp (hcov s hsn)
    have hb : bagGet bag (.str s) = .schema b := (bagGet_str _ _ _).mpr hlb
    rw [hb] at hs
    simp only [arrayOf, Except.ok.injEq] at hs
    subst hs
    refine ⟨by simp [relationOf_marker], ?_, ?_, ?_, ?_, ?_, ?_⟩
    · intro v hv1
      rw [lookup_setProp, if_neg (fun h1 => ha h1.symm)] at hv1
      exact hacc v hv1
    · intro k v _ hk hkv
      rw [lookup_setProp, if_neg hk]
      exact hkv
    · intro fs k v hfs _ hkv
      refine ⟨fs, ?_, hkv⟩
      rw [lookup_setProp, if_neg (fun h1 => ha h1.symm)]
      exact hfs
    · intro id hid
      simp [marker] at hid
    · intro s1 hs1
      simp [marker] at hs1
    · intro s1 hs1
      simp only [marker, Val.obj.injEq, List.cons.injEq, Prod.mk.injEq, Val.str.injEq,
        true_and, and_true] at hs1
      subst hs1
      exact ⟨b, hlb, by rw [lookup_setProp]; simp⟩

theorem reduceAttributes_wired (names : List String) (bag : List (String × Nat)) (h : Heap)
    (ps l : List (String × Val)) (acc acc1 : List (String × Slot) × List RelatedEntity)
    (hl : ∀ av ∈ l, ps.lookup av.1 = some av.2)
    (hnd : (l.map Prod.fst).Nodup)
    (hv : ∀ av ∈ l, validAttribute names av.2)
    (hcov : ∀ n ∈ names, (bag.lookup n).isSome = true)
    (hres : ∀ av ∈ l, (∃ id, av.2 = .func id) ∨ av.1 ≠ "_computed")
    (hacc : ∀ v, acc.1.lookup "_computed" = some v → ∃ fs, v = .record fs)
    (hs : reduceAttributes bag h (.obj ps) (l.map Prod.fst) acc = .ok acc1) :
    acc1.2 = acc.2 ++ recordedRelations l
    ∧ (∀ v, acc1.1.lookup "_computed" = some v → ∃ fs, v = .record fs)
    ∧ (∀ k v, k ≠ "_computed" → k ∉ l.map Prod.fst → acc.1.lookup k = some v →
        acc1.1.lookup k = some v)
    ∧ (∀ fs k v, acc.1.lookup "_computed" = some (.record fs) → k ∉ l.map Prod.fst →
        fs.lookup k = some v →
        ∃ fs1, acc1.1.lookup "_computed" = some (.record fs1) ∧ fs1.lookup k = some v)
    ∧ (∀ av ∈ l,
        (∀ id, av.2 = .func id →
          ∃ fs, acc1.1.lookup "_computed" = some (.record fs) ∧ fs.lookup av.1 = some (.fn id))
        ∧ (∀ s, av.2 = .str s → acc1.1.lookup av.1 = some (bagGet bag (.str s)))
        ∧ (∀ s, av.2 = marker (.str s) →
          ∃ b, bag.lookup s = some b ∧ acc1.1.lookup av.1 = some (.arrayOf b))) := by
  induction l generalizing acc with
  | nil =>
    simp only [List.map_nil, reduceAttributes, Except.ok.injEq] at hs
    subst hs
    refine ⟨by simp [recordedRelations], hacc, fun k v _ _ hkv => hkv,
      fun fs k v hfs _ hkv => ⟨fs, hfs, hkv⟩, ?_⟩
    intro av hav
    simp at hav
  | cons av rest ih =>
    simp only [List.map_cons] at hs hnd
    rw [List.nodup_cons] at hnd
    unfold reduceAttributes at hs
    split at hs
    · simp at hs
    · rename_i acc2 h2
      obtain ⟨s1, s2, s3, s4, s5, s6, s7⟩ := attributeStep_wired names bag h ps av acc acc2
        (hl av (List.mem_cons_self _ _)) (hv av (List.mem_cons_self _ _)) hcov
        (hres av (List.mem_cons_self _ _)) hacc h2
      obtain ⟨r1, r2, r3, r4, r5⟩ := ih acc2
        (fun x hx => hl x (List.mem_cons_of_mem _ hx)) hnd.2
        (fun x hx => hv x (List.mem_cons_of_mem _ hx))
        (fun x hx => hres x (List.mem_cons_of_mem _ hx)) s2 hs
      refine ⟨?_, r2, ?_, ?_, ?_⟩
      · rw [r1, s1, List.append_assoc]
        congr 1
        simp only [recordedRelations, List.filterMap_cons]
        cases relationOf av <;> simp
      · intro k v hk hkl hkv
        simp only [List.map_cons, List.mem_cons, not_or] at hkl
        exact r3 k v hk hkl.2 (s3 k v hk hkl.1 hkv)
      · intro fs k v hfs hkl hkv
        simp only [List.map_cons, List.mem_cons, not_or] at hkl
        obtain ⟨fs1, g1, g2⟩ := s4 fs k v hfs hkl.1 hkv
        exact r4 fs1 k v g1 hkl.2 g2
      · intro x hx
        rcases List.mem_cons.mp hx with h1 | h1
        · subst h1
          refine ⟨?_, ?_, ?_⟩
          · intro id hid
            obtain ⟨fs, g1, g2⟩ := s5 id hid
            exact r4 fs x.1 _ g1 hnd.1 g2
          · intro s hs1
            have hx1 : x.1 ≠ "_computed" := by
              rcases hres x (List.mem_cons_self _ _) with ⟨id, hid⟩ | h3
              · rw [hs1] at hid
                simp at hid
              · exact h3
            exact r3 x.1 _ hx1 hnd.1 (s6 s hs1)
          · intro s hs1
            have hx1 : x.1 ≠ "_computed" := by
              rcases hres x (List.mem_cons_self _ _) with ⟨id, hid⟩ | h3
              · rw [hs1] at hid
                simp [marker] at hid
              · exact h3
            obtain ⟨b, g1, g2⟩ := s7 s hs1
            exact ⟨b, g1, r3 x.1 _ hx1 hnd.1 g2⟩
        · exact r5 x h1

theorem lookup_of_mem_nodup {α : Type} (ps : List (String × α)) (a : String) (v : α)
    (hn : (ps.map Prod.fst).Nodup) (hm : (a, v) ∈ ps) : ps.lookup a = some v := by
  induction ps with
  | nil => simp at hm
  | cons p rest ih =>
    obtain ⟨k, w⟩ := p
    simp only [List.map_cons, List.nodup_cons] at hn
    rcases List.mem_cons.mp hm with h1 | h1
    · simp only [Prod.mk.injEq] at h1
      obtain ⟨rfl, rfl⟩ := h1
      simp [List.lookup]
    · have hne : a ≠ k := by
        intro h2
        subst h2
        exact hn.1 (List.mem_map.mpr ⟨(a, v), h1, rfl⟩)
      have : (a == k) = false := by simpa using hne
      simp only [List.lookup, this]
      exact ih hn.2 h1

end EntitiesManager

/-! ## C15: what the node of a descriptor holds -/

namespace EntitiesManager

theorem relationOf_prop (av : String × Val) (x : RelatedEntity) (h : relationOf av = some x) :
    x.prop = av.1 := by
  unfold relationOf at h
  split at h
  · simp only [Option.some.injEq] at h
    rw [← h]
  · split at h
    · split at h
      · simp only [Option.some.injEq] at h
        rw [← h]
      · simp at h
    · simp at h

/-- The own properties of the node of a descriptor of a valid batch, by name. -/
theorem validBatch_ownProp (batch : List (String × List (String × Val)))
    (bag reg : List (String × Nat)) (h0 h : Heap) (hv : validBatch batch)
    (hall : generateAll (descriptors batch) bag [] h0 = (.ok reg, h))
    (hfresh : BagFresh bag h0)
    (d : String × List (String × Val)) (hd : d ∈ batch) :
    ∃ a defn rel hd,
      bag.lookup d.1 = some a
      ∧ reduceAttributes bag hd (.obj d.2) ((propertyOrder Prod.fst d.2).map Prod.fst) ([], [])
        = .ok (defn, rel)
      ∧ (∃ p, ownProp h a "isRelatedTo" = some p ∧ p.value = .isRelatedTo rel)
      ∧ (∃ p, ownProp h a "getRelation" = some p ∧ p.value = .getRelation a rel bag)
      ∧ (∀ k, k ≠ "isRelatedTo" → k ≠ "getRelation" →
          ownProp h a k = (defn.lookup k).map (fun v => assigned (k, v))) := by
  obtain ⟨a, defn, rel, hd1, ps1, ps2, ps3, hla, hred, hassign, hdp1, hdp2, hfinal⟩ :=
    validBatch_node batch bag reg h0 h hv hall hfresh d hd
  rw [propertyOrder_map] at hred
  have hn : (defn.map Prod.fst).Nodup :=
    reduceAttributes_nodup bag hd1 _ _ ([], []) (defn, rel) List.nodup_nil hred
  have hps1 : ps1 = defn.map assigned := by
    have h1 := assignAll_fresh [] defn hn (fun k _ hk => absurd hk (List.not_mem_nil _))
    rw [h1] at hassign
    simp only [List.nil_append, Prod.mk.injEq, true_and] at hassign
    exact hassign.symm
  have hown : ∀ k, ownProp h a k = ps3.find? (fun p => p.name == k) := by
    intro k
    simp only [ownProp, hfinal, Option.some_bind]
  refine ⟨a, defn, rel, hd1, hla, hred, ?_, ?_, ?_⟩
  · obtain ⟨p, hp1, hp2⟩ := find_definePropertyOn_self _ _ _ _ hdp1
    refine ⟨p, ?_, hp2⟩
    rw [hown, find_definePropertyOn_other _ _ _ _ _ hdp2 (by decide)]
    exact hp1
  · obtain ⟨p, hp1, hp2⟩ := find_definePropertyOn_self _ _ _ _ hdp2
    exact ⟨p, by rw [hown]; exact hp1, hp2⟩
  · intro k hk1 hk2
    rw [hown, find_definePropertyOn_other _ _ _ _ _ hdp2 hk2,
      find_definePropertyOn_other _ _ _ _ _ hdp1 hk1, hps1, find_map_assigned]

/-- C15, as stated, fails in two ways.  In the valid batch
`A = { f: <function 1>, _computed: 'B' }`, `B = {}` the slot `_computed` of the node of `A` is the
node of `B`, not a record of the computed attributes, so `_computed.f` is not the
function.  And in the valid batch `D = { b: 'B', 1: 'B' }`, `B = {}` the relations recorded for
`D` are `[{ prop: '1' }, { prop: 'b' }]`: `Object.keys` lists the name `1`, an array index, before
`b`, so they are not in declared order. -/
theorem generateSchemas_computed_slot_overwritten :
    validBatch [("A", [("f", .func 1), ("_computed", .str "B")]), ("B", [])]
    ∧ (∃ h p, generateSchemas (.arr (descriptors
          [("A", [("f", .func 1), ("_computed", .str "B")]), ("B", [])]))
          = (.ok [("A", 0), ("B", 1)], h)
        ∧ ownProp h 0 "_computed" = some p ∧ p.value = .schema 1
        ∧ ownProp h 1 "f" = none)
    ∧ validBatch [("D", [("b", .str "B"), ("1", .str "B")]), ("B", [])]
    ∧ (∃ h p, generateSchemas (.arr (descriptors
          [("D", [("b", .str "B"), ("1", .str "B")]), ("B", [])]))
          = (.ok [("D", 0), ("B", 1)], h)
        ∧ ownProp h 0 "isRelatedTo" = some p
        ∧ p.value = .isRelatedTo [{ prop := "1", entity := .str "B" },
            { prop := "b", entity := .str "B" }]
        ∧ recordedRelations [("b", Val.str "B"), ("1", Val.str "B")]
          = [{ prop := "b", entity := .str "B" }, { prop := "1", entity := .str "B" }]) :=
  ⟨validBatch_of_check _ (by decide), ⟨_, _, rfl, rfl, rfl, rfl⟩,
    validBatch_of_check _ (by decide), ⟨_, _, rfl, rfl, rfl, rfl⟩⟩

/-- C15 (amended): for every valid batch and every descriptor `D` in it whose attribute
names are distinct and whose reference attributes are not named `_computed`,
`isRelatedTo` or `getRelation`, the generated node of `D` has, for each attribute:
for a function, the entry of that name in the record `_computed` equal to the
function, and no relation recorded under that name; for a string `s`, the slot
equal to the node the registry returns under `s`, and the relation recorded;
for a marker of `hasMany` with `relatedSchema` `s`, the slot equal to the
array-of marker of the node the registry returns under `s`, and the relation
recorded.  The relations the two capabilities of the node hold are exactly
those of the string and array-reference attributes, in the order in which
`Object.keys` enumerates the attributes: the names that are array indices in
ascending order, then the other names in declared order, which is the declared
order when no attribute name is an array index. -/
theorem generateSchema_wires_attributes (batch : List (String × List (String × Val)))
    (d : String × List (String × Val)) (reg : List (String × Nat)) (h : Heap)
    (hv : validBatch batch) (hd : d ∈ batch)
    (hnd : (d.2.map Prod.fst).Nodup)
    (hres : ∀ av ∈ d.2, (∃ id, av.2 = .func id)
      ∨ (av.1 ≠ "_computed" ∧ av.1 ≠ "isRelatedTo" ∧ av.1 ≠ "getRelation"))
    (hgen : generateSchemas (.arr (descriptors batch)) = (.ok reg, h)) :
    ∃ a bag p q, reg.lookup d.1 = some a
      ∧ ownProp h a "isRelatedTo" = some p
      ∧ p.value = .isRelatedTo (recordedRelations (propertyOrder Prod.fst d.2))
      ∧ ownProp h a "getRelation" = some q
      ∧ q.value = .getRelation a (recordedRelations (propertyOrder Prod.fst d.2)) bag
      ∧ ownKeys (.obj d.2) = .ok ((propertyOrder Prod.fst d.2).map Prod.fst)
      ∧ ((∀ av ∈ d.2, arrayIndex av.1 = none) → propertyOrder Prod.fst d.2 = d.2)
      ∧ (∀ av ∈ d.2,
          (∀ id, av.2 = .func id →
            (∃ c fs, ownProp h a "_computed" = some c ∧ c.value = .record fs
              ∧ fs.lookup av.1 = some (.fn id))
            ∧ ∀ x ∈ recordedRelations (propertyOrder Prod.fst d.2), x.prop ≠ av.1)
          ∧ (∀ s, av.2 = .str s →
            ∃ b c, reg.lookup s = some b ∧ ownProp h a av.1 = some c ∧ c.value = .schema b
              ∧ { prop := av.1, entity := .str s }
                ∈ recordedRelations (propertyOrder Prod.fst d.2))
          ∧ (∀ s, av.2 = marker (.str s) →
            ∃ b c, reg.lookup s = some b ∧ ownProp h a av.1 = some c ∧ c.value = .arrayOf b
              ∧ { prop := av.1, entity := .str s }
                ∈ recordedRelations (propertyOrder Prod.fst d.2))) := by
  obtain ⟨bag, h0, hb, hall, hfresh, _, hreg⟩ := generateSchemas_ok _ _ _ hgen
  obtain ⟨hcov, _⟩ := validBatch_bag batch bag h0 hb
  obtain ⟨a, defn, rel, hd1, hla, hred, ⟨p, hp1, hp2⟩, ⟨q, hq1, hq2⟩, hown⟩ :=
    validBatch_ownProp batch bag reg h0 h hv hall hfresh d hd
  have hmem : ∀ av, av ∈ propertyOrder Prod.fst d.2 ↔ av ∈ d.2 :=
    fun av => mem_propertyOrder Prod.fst d.2 av
  have hlook : ∀ av ∈ d.2, d.2.lookup av.1 = some av.2 :=
    fun av hav => lookup_of_mem_nodup d.2 av.1 av.2 hnd hav
  have hnd2 : ((propertyOrder Prod.fst d.2).map Prod.fst).Nodup :=
    ((propertyOrder_perm Prod.fst d.2).map Prod.fst).nodup_iff.mpr hnd
  obtain ⟨r1, _, _, _, r5⟩ := reduceAttributes_wired (batch.map Prod.fst) bag hd1 d.2
    (propertyOrder Prod.fst d.2) ([], []) (defn, rel)
    (fun av hav => hlook av ((hmem av).mp hav)) hnd2
    (fun av hav => hv.2.2 d hd av ((hmem av).mp hav)) hcov
    (fun av hav => (hres av ((hmem av).mp hav)).imp id (fun h1 => h1.1))
    (fun v hv1 => by simp [List.lookup] at hv1) hred
  simp only [List.nil_append] at r1
  subst r1
  refine ⟨a, bag, p, q, by rw [hreg]; exact hla, hp1, hp2, hq1, hq2, ownKeys_obj d.2,
    fun hno => propertyOrder_eq_self Prod.fst d.2 hno, ?_⟩
  intro av hav
  obtain ⟨w1, w2, w3⟩ := r5 av ((hmem av).mpr hav)
  have hname : (∀ id, av.2 ≠ .func id) → av.1 ≠ "isRelatedTo" ∧ av.1 ≠ "getRelation" := by
    intro hnf
    rcases hres av hav with ⟨id, hid⟩ | h1
    · exact absurd hid (hnf id)
    · exact ⟨h1.2.1, h1.2.2⟩
  refine ⟨?_, ?_, ?_⟩
  · intro id hid
    obtain ⟨fs, g1, g2⟩ := w1 id hid
    refine ⟨⟨assigned ("_computed", .record fs), fs, ?_, rfl, g2⟩, ?_⟩
    · rw [hown "_computed" (by decide) (by decide), g1]
      rfl
    · intro x hx hxa
      obtain ⟨av1, hav1, hrel⟩ := List.mem_filterMap.mp hx
      have hp := relationOf_prop av1 x hrel
      have h1 := hlook av1 ((hmem av1).mp hav1)
      have h2 := hlook av hav
      rw [← hp, hxa, h2] at h1
      simp only [Option.some.injEq] at h1
      obtain ⟨k1, v1⟩ := av1
      simp only at h1
      rw [hid] at h1
      subst h1
      simp [relationOf_func] at hrel
  · intro s hs
    obtain ⟨hn1, hn2⟩ := hname (fun id hid => by rw [hs] at hid; simp at hid)
    have hs1 : s ∈ batch.map Prod.fst := by
      rcases hv.2.2 d hd av hav with ⟨id, hid⟩ | ⟨s1, h1, h2⟩ | ⟨s1, h1, _⟩
      · rw [hs] at hid
        simp at hid
      · rw [hs] at h1
        simp only [Val.str.injEq] at h1
        rw [h1]
        exact h2
      · rw [hs] at h1
        simp [marker] at h1
    have hsome := hcov s hs1
    cases hbs : bag.lookup s with
    | none => rw [hbs] at hsome; simp at hsome
    | some b =>
      refine ⟨b, assigned (av.1, .schema b), by rw [hreg]; exact hbs, ?_, rfl, ?_⟩
      · rw [hown av.1 hn1 hn2, w2 s hs, (bagGet_str _ _ _).mpr hbs]
        rfl
      · refine List.mem_filterMap.mpr ⟨av, (hmem av).mpr hav, ?_⟩
        obtain ⟨k, v⟩ := av
        simp only at hs
        subst hs
        rfl
  · intro s hs
    obtain ⟨hn1, hn2⟩ := hname (fun id hid => by rw [hs] at hid; simp [marker] at hid)
    obtain ⟨b, g1, g2⟩ := w3 s hs
    refine ⟨b, assigned (av.1, .arrayOf b), by rw [hreg]; exact g1, ?_, rfl, ?_⟩
    · rw [hown av.1 hn1 hn2, g2]
      rfl
    · refine List.mem_filterMap.mpr ⟨av, (hmem av).mpr hav, ?_⟩
      obtain ⟨k, v⟩ := av
      simp only at hs
      subst hs
      rfl

/-- Witness of the amended C15: the descriptor `A = { b: 'B', f: <function 1> }` in the batch
with `B = { as: hasMany(A) }`; the recorded relations are `[{ prop: 'b', entity: 'B' }]`. -/
theorem generateSchema_wires_attributes_witness :
    (∃ a bag p q, [("A", 0), ("B", 1)].lookup "A" = some a
      ∧ ownProp (generateSchemas (.arr (descriptors
          [("A", [("b", .str "B"), ("f", .func 1)]), ("B", [("as", marker (.str "A"))])]))).2
          a "isRelatedTo" = some p
      ∧ p.value = .isRelatedTo
          (recordedRelations (propertyOrder Prod.fst [("b", Val.str "B"), ("f", Val.func 1)]))
      ∧ ownProp (generateSchemas (.arr (descriptors
          [("A", [("b", .str "B"), ("f", .func 1)]), ("B", [("as", marker (.str "A"))])]))).2
          a "getRelation" = some q
      ∧ q.value = .getRelation a
          (recordedRelations (propertyOrder Prod.fst [("b", Val.str "B"), ("f", Val.func 1)]))
          bag
      ∧ ownKeys (.obj [("b", .str "B"), ("f", .func 1)])
        = .ok ((propertyOrder Prod.fst [("b", Val.str "B"), ("f", Val.func 1)]).map Prod.fst)
      ∧ ((∀ av ∈ [("b", Val.str "B"), ("f", Val.func 1)], arrayIndex av.1 = none) →
          propertyOrder Prod.fst [("b", Val.str "B"), ("f", Val.func 1)]
            = [("b", Val.str "B"), ("f", Val.func 1)])
      ∧ (∀ av ∈ [("b", Val.str "B"), ("f", Val.func 1)],
          (∀ id, av.2 = .func id →
            (∃ c fs, ownProp (generateSchemas (.arr (descriptors
                [("A", [("b", .str "B"), ("f", .func 1)]),
                  ("B", [("as", marker (.str "A"))])]))).2 a "_computed" = some c
              ∧ c.value = .record fs ∧ fs.lookup av.1 = some (.fn id))
            ∧ ∀ x ∈ recordedRelations
                (propertyOrder Prod.fst [("b", Val.str "B"), ("f", Val.func 1)]),
              x.prop ≠ av.1)
          ∧ (∀ s, av.2 = .str s →
            ∃ b c, [("A", 0), ("B", 1)].lookup s = some b
              ∧ ownProp (generateSchemas (.arr (descriptors
                [("A", [("b", .str "B"), ("f", .func 1)]),
                  ("B", [("as", marker (.str "A"))])]))).2 a av.1 = some c
              ∧ c.value = .schema b
              ∧ { prop := av.1, entity := .str s }
                ∈ recordedRelations
                    (propertyOrder Prod.fst [("b", Val.str "B"), ("f", Val.func 1)]))
          ∧ (∀ s, av.2 = marker (.str s) →
            ∃ b c, [("A", 0), ("B", 1)].lookup s = some b
              ∧ ownProp (generateSchemas (.arr (descriptors
                [("A", [("b", .str "B"), ("f", .func 1)]),
                  ("B", [("as", marker (.str "A"))])]))).2 a av.1 = some c
              ∧ c.value = .arrayOf b
              ∧ { prop := av.1, entity := .str s }
                ∈ recordedRelations
                    (propertyOrder Prod.fst [("b", Val.str "B"), ("f", Val.func 1)]))))
    ∧ recordedRelations (propertyOrder Prod.fst [("b", Val.str "B"), ("f", Val.func 1)])
      = [{ prop := "b", entity := .str "B" }] :=
  ⟨generateSchema_wires_attributes
    [("A", [("b", .str "B"), ("f", .func 1)]), ("B", [("as", marker (.str "A"))])]
    ("A", [("b", .str "B"), ("f", .func 1)]) [("A", 0), ("B", 1)] _
    (validBatch_of_check _ (by decide)) (by simp) (by decide)
    (by
      intro av hav
      simp only [List.mem_cons, List.mem_singleton, List.not_mem_nil, or_false] at hav
      rcases hav with rfl | rfl
      · exact Or.inr ⟨by decide, by decide, by decide⟩
      · exact Or.inl ⟨1, rfl⟩)
    rfl, rfl⟩

end EntitiesManager

/-! ## The entries of a node that the back-reference search sees -/

namespace EntitiesManager

theorem setProp_absent {α : Type} (ps : List (String × α)) (k : String) (v : α)
    (h : k ∉ ps.map Prod.fst) : setProp ps k v = ps ++ [(k, v)] := by
  induction ps with
  | nil => rfl
  | cons p rest ih =>
    simp only [List.map_cons, List.mem_cons, not_or] at h
    unfold setProp
    rw [if_neg (fun hk => h.1 hk.symm), ih h.2]
    rfl

theorem filter_setProp_hidden {α : Type} (f : String → Bool) (ps : List (String × α))
    (k : String) (v : α) (hk : f k = false) :
    (setProp ps k v).filter (fun kv => f kv.1) = ps.filter (fun kv => f kv.1) := by
  induction ps with
  | nil => simp [setProp, hk]
  | cons p rest ih =>
    unfold setProp
    split
    · rename_i hp
      simp [List.filter_cons, hk, hp]
    · simp only [List.filter_cons, ih]

theorem find_eq_head_filter {α : Type} (f : α → Bool) (l : List α) :
    l.find? f = (l.filter f).head? := by
  induction l with
  | nil => rfl
  | cons x rest ih =>
    simp only [List.find?_cons, List.filter_cons]
    cases hx : f x with
    | true => simp
    | false =>
      simp only [Bool.false_eq_true, if_false]
      exact ih

theorem startsWithUnderscore_computed : startsWithUnderscore "_computed" = true := by decide

theorem attributeStep_visible (names : List String) (bag : List (String × Nat)) (h : Heap)
    (ps : List (String × Val)) (av : String × Val)
    (acc acc1 : List (String × Slot) × List RelatedEntity)
    (hl : ps.lookup av.1 = some av.2)
    (hv : validAttribute names av.2)
    (hfresh : startsWithUnderscore av.1 = false → av.1 ∉ acc.1.map Prod.fst)
    (hs : attributeStep bag h (.obj ps) acc av.1 = .ok acc1) :
    acc1.1.filter (fun kv => !startsWithUnderscore kv.1)
      = acc.1.filter (fun kv => !startsWithUnderscore kv.1) ++ (visibleEntry bag av).toList := by
  obtain ⟨a, v⟩ := av
  simp only at hl hv hfresh hs ⊢
  unfold attributeStep at hs
  simp only [getProp, hl, Option.getD_some] at hs
  have hidden : ∀ (k : String) (s : Slot), startsWithUnderscore k = true →
      (setProp acc.1 k s).filter (fun kv => !startsWithUnderscore kv.1)
        = acc.1.filter (fun kv => !startsWithUnderscore kv.1) := by
    intro k s hk
    exact filter_setProp_hidden (fun x => !startsWithUnderscore x) acc.1 k s (by simp [hk])
  have shown : ∀ (s : Slot), startsWithUnderscore a = false →
      (setProp acc.1 a s).filter (fun kv => !startsWithUnderscore kv.1)
        = acc.1.filter (fun kv => !startsWithUnderscore kv.1) ++ [(a, s)] := by
    intro s hk
    rw [setProp_absent _ _ _ (hfresh hk), List.filter_append]
    simp [List.filter_cons, hk]
  rcases hv with ⟨id, rfl⟩ | ⟨s, rfl, _⟩ | ⟨s, rfl, _⟩
  · simp only [Except.ok.injEq] at hs
    subst hs
    have hvis : visibleEntry bag (a, .func id) = none := by
      simp [visibleEntry, isArrayReference]
    rw [hvis, hidden _ _ startsWithUnderscore_computed]
    simp
  · simp only [Except.ok.injEq] at hs
    subst hs
    cases hu : startsWithUnderscore a with
    | true =>
      have hvis : visibleEntry bag (a, .str s) = none := by simp [visibleEntry, hu]
      rw [hvis, hidden _ _ hu]
      simp
    | false =>
      have hvis : visibleEntry bag (a, .str s) = some (a, bagGet bag (.str s)) := by
        simp [visibleEntry, hu]
      rw [hvis, shown _ hu]
      simp
  · simp only [marker, getProp, List.lookup, truthy] at hs
    simp only [show ("isArray" == "relatedSchema") = false from by decide,
      show ("isArray" == "isArray") = true from by decide,
      show ("relatedSchema" == "relatedSchema") = true from by decide,
      Option.getD_some, if_true] at hs
    cases hb : bagGet bag (.str s) with
    | schema b =>
      rw [hb] at hs
      simp only [arrayOf, Except.ok.injEq] at hs
      subst hs
      cases hu : startsWithUnderscore a with
      | true =>
        have hvis : visibleEntry bag (a, marker (.str s)) = none := by simp [visibleEntry, hu]
        rw [hvis, hidden _ _ hu]
        simp
      | false =>
        have hvis : visibleEntry bag (a, marker (.str s)) = some (a, .arrayOf b) := by
          simp [visibleEntry, hu, marker, isArrayReference, getProp, List.lookup, truthy, hb,
            arrayOf]
        rw [hvis, shown _ hu]
        simp
    | inherited m =>
      rw [hb] at hs
      simp only [arrayOf, Except.ok.injEq] at hs
      subst hs
      cases hu : startsWithUnderscore a with
      | true =>
        have hvis : visibleEntry bag (a, marker (.str s)) = none := by simp [visibleEntry, hu]
        rw [hvis, hidden _ _ hu]
        simp
      | false =>
        have hvis : visibleEntry bag (a, marker (.str s)) = some (a, .arrayOfInherited m) := by
          simp [visibleEntry, hu, marker, isArrayReference, getProp, List.lookup, truthy, hb,
            arrayOf]
        rw [hvis, shown _ hu]
        simp
    | _ =>
      rw [hb] at hs
      simp [arrayOf] at hs

theorem reduceAttributes_visible (names : List String) (bag : List (String × Nat)) (h : Heap)
    (ps l : List (String × Val)) (acc acc1 : List (String × Slot) × List RelatedEntity)
    (hl : ∀ av ∈ l, ps.lookup av.1 = some av.2)
    (hnd : (l.map Prod.fst).Nodup)
    (hv : ∀ av ∈ l, validAttribute names av.2)
    (hfresh : ∀ av ∈ l, startsWithUnderscore av.1 = false → av.1 ∉ acc.1.map Prod.fst)
    (hs : reduceAttributes bag h (.obj ps) (l.map Prod.fst) acc = .ok acc1) :
    acc1.1.filter (fun kv => !startsWithUnderscore kv.1)
      = acc.1.filter (fun kv => !startsWithUnderscore kv.1)
        ++ l.filterMap (visibleEntry bag) := by
  induction l generalizing acc with
  | nil =>
    simp only [List.map_nil, reduceAttributes, Except.ok.injEq] at hs
    subst hs
    simp
  | cons av rest ih =>
    simp only [List.map_cons] at hs hnd
    rw [List.nodup_cons] at hnd
    unfold reduceAttributes at hs
    split at hs
    · simp at hs
    · rename_i acc2 h2
      have s1 := attributeStep_visible names bag h ps av acc acc2
        (hl av (List.mem_cons_self _ _)) (hv av (List.mem_cons_self _ _))
        (hfresh av (List.mem_cons_self _ _)) h2
      have r1 := ih acc2 (fun x hx => hl x (List.mem_cons_of_mem _ hx)) hnd.2
        (fun x hx => hv x (List.mem_cons_of_mem _ hx))
        (by
          intro x hx hu hmem
          rcases attributeStep_keys bag h (.obj ps) acc acc2 av.1 x.1 h2 hmem with h3 | h3 | h3
          · exact hfresh x (List.mem_cons_of_mem _ hx) hu h3
          · exact hnd.1 (h3 ▸ List.mem_map.mpr ⟨x, hx, rfl⟩)
          · rw [h3, startsWithUnderscore_computed] at hu
            simp at hu)
        hs
      rw [r1, s1, List.append_assoc]
      congr 1
      simp only [List.filterMap_cons]
      cases visibleEntry bag av <;> simp

theorem definePropertyOn_nodup (ps ps1 : List OwnProp) (k : String) (v : Slot)
    (hn : (ps.map OwnProp.name).Nodup) (h : definePropertyOn ps k v = .ok ps1) :
    (ps1.map OwnProp.name).Nodup := by
  induction ps generalizing ps1 with
  | nil =>
    simp only [definePropertyOn, Except.ok.injEq] at h
    subst h
    simp
  | cons p rest ih =>
    simp only [List.map_cons, List.nodup_cons] at hn
    unfold definePropertyOn at h
    split at h
    · split at h
      · simp only [Except.ok.injEq] at h
        subst h
        simpa using hn
      · split at h
        · simp at h
        · split at h
          · simp only [Except.ok.injEq] at h
            subst h
            simpa using hn
          · simp at h
    · rename_i hk
      split at h
      · rename_i rest1 hr
        simp only [Except.ok.injEq] at h
        subst h
        simp only [List.map_cons, List.nodup_cons]
        refine ⟨?_, ih _ hn.2 hr⟩
        intro hmem
        obtain ⟨q, hq, hqn⟩ := List.mem_map.mp hmem
        rcases mem_definePropertyOn _ _ _ _ hr q hq with h1 | h1
        · exact hn.1 (List.mem_map.mpr ⟨q, h1, hqn⟩)
        · exact hk (hqn ▸ h1.1)
      · simp at h

/-- What a test that rejects the defined property sees after `Object.defineProperty`: the
properties it accepted before, except one of the defined name. -/
theorem filter_definePropertyOn (f : OwnProp → Bool) (ps ps1 : List OwnProp) (k : String)
    (v : Slot) (hn : (ps.map OwnProp.name).Nodup)
    (hf : ∀ p : OwnProp, p.name = k → p.value = v → f p = false)
    (h : definePropertyOn ps k v = .ok ps1) :
    ps1.filter f = ps.filter (fun p => f p && p.name != k) := by
  induction ps generalizing ps1 with
  | nil =>
    simp only [definePropertyOn, Except.ok.injEq] at h
    subst h
    simp [List.filter_cons, hf]
  | cons p rest ih =>
    simp only [List.map_cons, List.nodup_cons] at hn
    unfold definePropertyOn at h
    have hrest : ∀ hk : p.name = k, rest.filter f = rest.filter (fun p => f p && p.name != k) := by
      intro hk
      apply List.filter_congr
      intro q hq
      have : q.name ≠ k := by
        intro h1
        exact hn.1 (List.mem_map.mpr ⟨q, hq, by rw [h1, hk]⟩)
      simp [this]
    split at h
    · rename_i hk
      split at h
      · simp only [Except.ok.injEq] at h
        subst h
        have h1 := hf { p with value := v, enumerable := false } hk rfl
        simp only [hk] at h1
        simp [List.filter_cons, h1, hk, hrest hk]
      · split at h
        · simp at h
        · split at h
          · simp only [Except.ok.injEq] at h
            subst h
            have h1 := hf { p with value := v } hk rfl
            simp only [hk] at h1
            simp [List.filter_cons, h1, hk, hrest hk]
          · simp at h
    · rename_i hk
      split at h
      · rename_i rest1 hr
        simp only [Except.ok.injEq] at h
        subst h
        simp [List.filter_cons, hk, ih _ hn.2 hr]
      · simp at h

end EntitiesManager
/-! ## The order of enumeration is stable -/

namespace EntitiesManager

theorem insertByIndex_of_le {α : Type} (f : α → Nat) (x : α) (l : List α)
    (h : ∀ y ∈ l, f x ≤ f y) : insertByIndex f x l = x :: l := by
  cases l with
  | nil => rfl
  | cons y ys =>
    unfold insertByIndex
    rw [if_pos (h y (List.mem_cons_self _ _))]

theorem pairwise_insertByIndex {α : Type} (f : α → Nat) (x : α) (l : List α)
    (h : l.Pairwise (fun a b => f a ≤ f b)) :
    (insertByIndex f x l).Pairwise (fun a b => f a ≤ f b) := by
  induction l with
  | nil => simp [insertByIndex]
  | cons y ys ih =>
    unfold insertByIndex
    rw [List.pairwise_cons] at h
    split
    · rename_i hle
      refine List.Pairwise.cons ?_ (List.Pairwise.cons h.1 h.2)
      intro z hz
      rcases List.mem_cons.mp hz with rfl | hz
      · exact hle
      · exact Nat.le_trans hle (h.1 z hz)
    · rename_i hle
      refine List.Pairwise.cons ?_ (ih h.2)
      intro z hz
      rcases List.mem_cons.mp ((insertByIndex_perm f x ys).mem_iff.mp hz) with rfl | hz
      · omega
      · exact h.1 z hz

theorem pairwise_sortByIndex {α : Type} (f : α → Nat) (l : List α) :
    (sortByIndex f l).Pairwise (fun a b => f a ≤ f b) := by
  induction l with
  | nil => exact List.Pairwise.nil
  | cons x xs ih =>
    unfold sortByIndex
    exact pairwise_insertByIndex f x _ ih

theorem sortByIndex_eq_self {α : Type} (f : α → Nat) (l : List α)
    (h : l.Pairwise (fun a b => f a ≤ f b)) : sortByIndex f l = l := by
  induction l with
  | nil => rfl
  | cons x xs ih =>
    rw [List.pairwise_cons] at h
    unfold sortByIndex
    rw [ih h.2]
    exact insertByIndex_of_le f x xs h.1

theorem filter_insertByIndex {α : Type} (f : α → Nat) (p : α → Bool) (x : α) (l : List α)
    (h : l.Pairwise (fun a b => f a ≤ f b)) :
    (insertByIndex f x l).filter p
      = if p x then insertByIndex f x (l.filter p) else l.filter p := by
  induction l with
  | nil => cases hx : p x <;> simp [insertByIndex, List.filter_cons, hx]
  | cons y ys ih =>
    rw [List.pairwise_cons] at h
    have ih1 := ih h.2
    by_cases hle : f x ≤ f y
    · have e1 : insertByIndex f x (y :: ys) = x :: y :: ys := by
        simp only [insertByIndex, hle, if_true]
      rw [e1]
      cases hx : p x with
      | false => simp [List.filter_cons, hx]
      | true =>
        simp only [List.filter_cons, hx, if_true]
        cases hy : p y with
        | true => simp only [if_true, insertByIndex, hle]
        | false =>
          simp only [Bool.false_eq_true, if_false]
          exact (insertByIndex_of_le f x _
            (fun z hz => Nat.le_trans hle (h.1 z (List.mem_of_mem_filter hz)))).symm
    · have e1 : insertByIndex f x (y :: ys) = y :: insertByIndex f x ys := by
        simp only [insertByIndex, hle, if_false]
      rw [e1]
      cases hy : p y with
      | false =>
        simp only [List.filter_cons, hy, Bool.false_eq_true, if_false]
        exact ih1
      | true =>
        simp only [List.filter_cons, hy, if_true, ih1]
        cases hx : p x with
        | false => simp
        | true => simp only [if_true, insertByIndex, hle, if_false]

theorem filter_sortByIndex {α : Type} (f : α → Nat) (p : α → Bool) (l : List α) :
    (sortByIndex f l).filter p = sortByIndex f (l.filter p) := by
  induction l with
  | nil => rfl
  | cons x xs ih =>
    simp only [sortByIndex, List.filter_cons]
    rw [filter_insertByIndex f p x _ (pairwise_sortByIndex f xs), ih]
    cases hx : p x <;> simp [sortByIndex]

theorem filter_propertyOrder {α : Type} (name : α → String) (p : α → Bool) (l : List α) :
    (propertyOrder name l).filter p = propertyOrder name (l.filter p) := by
  unfold propertyOrder
  rw [List.filter_append, filter_sortByIndex]
  simp only [List.filter_filter, Bool.and_comm]

theorem propertyOrder_map_of_name {α β : Type} (n1 : α → String) (n2 : β → String) (g : α → β)
    (hn : ∀ x, n2 (g x) = n1 x) (l : List α) :
    propertyOrder n2 (l.map g) = (propertyOrder n1 l).map g := by
  unfold propertyOrder
  simp only [List.map_append, List.filter_map, sortByIndex_map, Function.comp_def, hn]

/-- The enumeration lists the names that are array indices first, in ascending order. -/
theorem pairwise_propertyOrder {α : Type} (name : α → String) (l : List α) :
    (propertyOrder name l).Pairwise (fun a b => (arrayIndex (name b)).isSome = true →
      (arrayIndex (name a)).isSome = true
        ∧ (arrayIndex (name a)).getD 0 ≤ (arrayIndex (name b)).getD 0) := by
  unfold propertyOrder
  rw [List.pairwise_append]
  refine ⟨?_, ?_, ?_⟩
  · have h1 := pairwise_sortByIndex (fun x => (arrayIndex (name x)).getD 0)
      (l.filter (fun x => (arrayIndex (name x)).isSome))
    refine List.Pairwise.imp_of_mem ?_ h1
    intro a b ha _ hab _
    have := (sortByIndex_perm _ _).mem_iff.mp ha
    exact ⟨(List.mem_filter.mp this).2, hab⟩
  · refine List.Pairwise.imp_of_mem ?_ (List.pairwise_of_forall (fun _ _ => trivial))
    intro a b _ hb _ hb1
    have := (List.mem_filter.mp hb).2
    simp [hb1] at this
  · intro a _ b hb hb1
    have := (List.mem_filter.mp hb).2
    simp [hb1] at this

theorem propertyOrder_eq_self_of_pairwise {α : Type} (name : α → String) (l : List α)
    (h : l.Pairwise (fun a b => (arrayIndex (name b)).isSome = true →
      (arrayIndex (name a)).isSome = true
        ∧ (arrayIndex (name a)).getD 0 ≤ (arrayIndex (name b)).getD 0)) :
    propertyOrder name l = l := by
  unfold propertyOrder
  have h1 : (l.filter (fun x => (arrayIndex (name x)).isSome)).Pairwise
      (fun a b => (arrayIndex (name a)).getD 0 ≤ (arrayIndex (name b)).getD 0) := by
    refine List.Pairwise.imp_of_mem ?_ (List.Pairwise.filter _ h)
    intro a b _ hb hab
    exact (hab (List.mem_filter.mp hb).2).2
  rw [sortByIndex_eq_self _ _ h1]
  clear h1
  induction l with
  | nil => rfl
  | cons x t ih =>
    rw [List.pairwise_cons] at h
    cases hx : (arrayIndex (name x)).isSome with
    | true =>
      simp only [List.filter_cons, hx, if_true, Bool.not_true, Bool.false_eq_true, if_false,
        List.cons_append]
      rw [ih h.2]
    | false =>
      have hall : ∀ y ∈ t, (arrayIndex (name y)).isSome = false := by
        intro y hy
        cases hy1 : (arrayIndex (name y)).isSome with
        | false => rfl
        | true =>
          have := (h.1 y hy hy1).1
          rw [hx] at this
          simp at this
      have e1 : t.filter (fun x => (arrayIndex (name x)).isSome) = [] := by
        rw [List.filter_eq_nil_iff]
        intro y hy
        simp [hall y hy]
      have e2 : t.filter (fun x => !(arrayIndex (name x)).isSome) = t := by
        rw [List.filter_eq_self]
        intro y hy
        simp [hall y hy]
      simp only [List.filter_cons, hx, Bool.false_eq_true, if_false, Bool.not_false, if_true,
        e1, e2, List.nil_append]

/-- The entries made from an enumeration, each under the name of its source, are
themselves in the order of enumeration. -/
theorem propertyOrder_filterMap {α β : Type} (n1 : α → String) (n2 : β → String)
    (g : α → Option β) (hn : ∀ x y, g x = some y → n2 y = n1 x) (l : List α) :
    propertyOrder n2 ((propertyOrder n1 l).filterMap g) = (propertyOrder n1 l).filterMap g := by
  apply propertyOrder_eq_self_of_pairwise
  refine List.Pairwise.filterMap g ?_ (pairwise_propertyOrder n1 l)
  intro a a1 haa b hb b1 hb1
  rw [hn a b (by simpa using hb), hn a1 b1 (by simpa using hb1)]
  exact haa

end EntitiesManager

/-! ## C14: the back-reference search on the nodes of a valid batch -/

namespace EntitiesManager

theorem keyedLike_safe (bag : List (String × Nat)) (h : Heap) (hr : RegistrySafe bag h)
    (kb kc : String) (b c : Nat) (hb : bag.lookup kb = some b) (hc : bag.lookup kc = some c) :
    keyedLike h b c = (kb == kc) := by
  obtain ⟨nb, b1, b2, _⟩ := hr kb b hb
  obtain ⟨nc, c1, c2, _⟩ := hr kc c hc
  simp only [keyedLike, b1, c1, b2, c2]

theorem isBackReference_eq (bag : List (String × Nat)) (h : Heap) (hr : RegistrySafe bag h)
    (kc : String) (c : Nat) (hc : bag.lookup kc = some c) (p : OwnProp)
    (hp : SafeEntry bag p.name p.value) :
    isBackReference h c p = .ok (!startsWithUnderscore p.name && refersTo h p.value c) := by
  unfold isBackReference
  split
  · rename_i hu
    simp [hu]
  · rename_i hu
    have hu1 : startsWithUnderscore p.name = false := by simpa using hu
    obtain ⟨_, h2, h4, h3⟩ := hp
    cases hval : p.value with
    | undefined => exact absurd hval h2
    | arrayOfInherited m => exact absurd hval (h4 m)
    | schema b =>
      obtain ⟨n, hn⟩ := h3 b (Or.inl hval)
      obtain ⟨node, g1, g2, g3⟩ := hr n b hn
      have : ownProp h b "getKey" = none := by
        unfold ownProp
        rw [g1]
        exact safeSlots_no_getKey bag _ g3
      simp only [this, sameKey, getKey_safe bag h hr n b hn, getKey_safe bag h hr kc c hc,
        refersTo, keyedLike_safe bag h hr n kc b c hn hc, hu1, Bool.not_false, Bool.true_and]
    | arrayOf b =>
      obtain ⟨n, hn⟩ := h3 b (Or.inr hval)
      simp only [sameKey, getKey_safe bag h hr n b hn, getKey_safe bag h hr kc c hc,
        refersTo, keyedLike_safe bag h hr n kc b c hn hc, hu1, Bool.not_false, Bool.true_and]
    | _ => simp [refersTo]

theorem findBackReference_eq (bag : List (String × Nat)) (h : Heap) (hr : RegistrySafe bag h)
    (kc : String) (c : Nat) (hc : bag.lookup kc = some c) (ps : List OwnProp)
    (hp : SafeSlots bag ps) :
    findBackReference h c ps
      = .ok ((ps.find? (fun p => !startsWithUnderscore p.name && refersTo h p.value c)).map
          OwnProp.name) := by
  induction ps with
  | nil => rfl
  | cons p rest ih =>
    unfold findBackReference
    rw [isBackReference_eq bag h hr kc c hc p (hp p (List.mem_cons_self _ _))]
    simp only [List.find?_cons]
    cases hx : (!startsWithUnderscore p.name && refersTo h p.value c) with
    | true => simp
    | false =>
      simp only
      exact ih (fun q hq => hp q (List.mem_cons_of_mem _ hq))

theorem visibleEntry_fst (bag : List (String × Nat)) (av : String × Val) (kv : String × Slot)
    (h : visibleEntry bag av = some kv) : kv.1 = av.1 := by
  unfold visibleEntry at h
  split at h
  · simp at h
  · split at h
    · simp only [Option.some.injEq] at h
      rw [← h]
    · split at h
      · split at h
        · split at h
          · simp only [Option.some.injEq] at h
            rw [← h]
          · simp at h
        · simp at h
      · simp at h

theorem visibleEntry_visible (bag : List (String × Nat)) (av : String × Val) (kv : String × Slot)
    (h : visibleEntry bag av = some kv) : startsWithUnderscore av.1 = false := by
  unfold visibleEntry at h
  split at h
  · simp at h
  · rename_i hu
    simpa using hu

theorem filterMap_filter_fst {α β : Type} (g : String × α → Option (String × β))
    (f : String × β → Bool) (l : List (String × α)) (hg : ∀ av kv, g av = some kv → kv.1 = av.1) :
    ((l.filterMap g).filter f).map Prod.fst
      = (l.filter (fun av => match g av with
          | some kv => f kv
          | none => false)).map Prod.fst := by
  induction l with
  | nil => rfl
  | cons av rest ih =>
    simp only [List.filterMap_cons, List.filter_cons]
    cases hav : g av with
    | none =>
      simp only [Bool.false_eq_true, if_false]
      exact ih
    | some kv =>
      simp only [List.filter_cons]
      by_cases hf : f kv = true
      · simp only [hf, if_true, List.map_cons, ih, hg av kv hav]
      · simp only [hf, if_false]
        exact ih

/-- The back-reference search between two nodes of a valid batch that declares no
attribute named `getKey`: it returns the first attribute name, in the order of
enumeration, that the words of the spec accept, and such a name is that of a
visible reference attribute. -/
theorem validBatch_backReference (batch : List (String × List (String × Val)))
    (dR dC : String × List (String × Val)) (reg : List (String × Nat)) (h : Heap)
    (hv : validBatch batch) (hno : noAttributeNamed "getKey" batch)
    (hR : dR ∈ batch) (hC : dC ∈ batch) (hnd : (dR.2.map Prod.fst).Nodup)
    (hgen : generateSchemas (.arr (descriptors batch)) = (.ok reg, h)) :
    ∃ r c bag, reg.lookup dR.1 = some r ∧ reg.lookup dC.1 = some c
      ∧ getRelatedThrough h (.schema r) c
        = .ok (firstBackReference h ((propertyOrder Prod.fst dR.2).map Prod.fst) r c)
      ∧ (∀ av ∈ dR.2, isBackReferenceName h r c av.1 = true →
          (visibleEntry bag av).isSome = true) := by
  obtain ⟨bag, h0, hb, hall, hfresh, _, hreg⟩ := generateSchemas_ok _ _ _ hgen
  obtain ⟨hcov, hkeysB⟩ := validBatch_bag batch bag h0 hb
  have hsafe := validBatch_registrySafe batch bag reg h0 h hv hno hall hfresh hcov hkeysB
  obtain ⟨r, defn, rel, hd1, ps1, ps2, ps3, hla, hred, hassign, hdp1, hdp2, hfinal⟩ :=
    validBatch_node batch bag reg h0 h hv hall hfresh dR hR
  have hsomeC := hcov dC.1 (List.mem_map.mpr ⟨dC, hC, rfl⟩)
  cases hlc : bag.lookup dC.1 with
  | none => rw [hlc] at hsomeC; simp at hsomeC
  | some c =>
  rw [propertyOrder_map] at hred
  have hmem : ∀ av, av ∈ propertyOrder Prod.fst dR.2 ↔ av ∈ dR.2 :=
    fun av => mem_propertyOrder Prod.fst dR.2 av
  have hlook : ∀ av ∈ propertyOrder Prod.fst dR.2, dR.2.lookup av.1 = some av.2 :=
    fun av hav => lookup_of_mem_nodup dR.2 av.1 av.2 hnd ((hmem av).mp hav)
  have hnd2 : ((propertyOrder Prod.fst dR.2).map Prod.fst).Nodup :=
    ((propertyOrder_perm Prod.fst dR.2).map Prod.fst).nodup_iff.mpr hnd
  -- the definition and the property lists
  have hn : (defn.map Prod.fst).Nodup :=
    reduceAttributes_nodup bag hd1 _ _ ([], []) (defn, rel) List.nodup_nil hred
  have hps1 : ps1 = defn.map assigned := by
    have h1 := assignAll_fresh [] defn hn (fun k _ hk => absurd hk (List.not_mem_nil _))
    rw [h1] at hassign
    simp only [List.nil_append, Prod.mk.injEq, true_and] at hassign
    exact hassign.symm
  have hnames1 : (ps1.map OwnProp.name).Nodup := by
    rw [hps1, List.map_map]
    exact hn
  have hnames2 := definePropertyOn_nodup _ _ _ _ hnames1 hdp1
  have hvis : defn.filter (fun kv => !startsWithUnderscore kv.1)
      = (propertyOrder Prod.fst dR.2).filterMap (visibleEntry bag) := by
    have h1 := reduceAttributes_visible (batch.map Prod.fst) bag hd1 dR.2
      (propertyOrder Prod.fst dR.2) ([], [])
      (defn, rel) hlook hnd2 (fun av hav => hv.2.2 dR hR av ((hmem av).mp hav))
      (fun av _ _ hm => absurd hm (by simp)) hred
    simpa using h1
  -- the test of the search, on properties and on entries
  have hclosure : ∀ p : OwnProp, (∃ x, p.value = .isRelatedTo x) ∨ (∃ x y z, p.value = .getRelation x y z) →
      (!startsWithUnderscore p.name && refersTo h p.value c) = false := by
    intro p hp
    rcases hp with ⟨x, hx⟩ | ⟨x, y, z, hx⟩ <;> simp [hx, refersTo]
  have hown : ∀ k, ownProp h r k = ps3.find? (fun p => p.name == k) := by
    intro k
    simp only [ownProp, hfinal, Option.some_bind]
  -- step 1: the search is a `find?` over the enumerable properties
  have hnode := hsafe dR.1 r hla
  obtain ⟨node, g1, _, g3⟩ := hnode
  rw [hfinal] at g1
  simp only [Option.some.injEq] at g1
  subst g1
  simp only at g3
  have hstep1 : getRelatedThrough h (.schema r) c
      = .ok (((propertyOrder OwnProp.name (ps3.filter (fun p => p.enumerable))).find?
          (fun p => !startsWithUnderscore p.name && refersTo h p.value c)).map OwnProp.name) := by
    unfold getRelatedThrough enumerableProps
    simp only [hfinal]
    exact findBackReference_eq bag h hsafe dC.1 c hlc _
      (fun p hp => g3 p (List.mem_of_mem_filter ((mem_propertyOrder _ _ p).mp hp)))
  -- step 2: the enumerable properties that pass the test
  have henum : (ps3.filter (fun p => p.enumerable)).filter
        (fun p => !startsWithUnderscore p.name && refersTo h p.value c)
      = ps3.filter (fun p => !startsWithUnderscore p.name && refersTo h p.value c) := by
    rw [List.filter_filter]
    apply List.filter_congr
    intro p hp
    rcases mem_definePropertyOn _ _ _ _ hdp2 p hp with h1 | ⟨_, h2⟩
    · rcases mem_definePropertyOn _ _ _ _ hdp1 p h1 with h3 | ⟨_, h4⟩
      · rw [hps1] at h3
        obtain ⟨kv, _, rfl⟩ := List.mem_map.mp h3
        simp [assigned]
      · simp [hclosure p (Or.inl ⟨_, h4⟩)]
    · simp [hclosure p (Or.inr ⟨_, _, _, h2⟩)]
  have hps3 : ps3.filter (fun p => !startsWithUnderscore p.name && refersTo h p.value c)
      = (defn.filter (fun kv => ((!startsWithUnderscore kv.1 && refersTo h kv.2 c)
          && kv.1 != "getRelation") && kv.1 != "isRelatedTo")).map assigned := by
    rw [filter_definePropertyOn _ _ _ _ _ hnames2
      (fun p _ hp => hclosure p (Or.inr ⟨_, _, _, hp⟩)) hdp2]
    rw [filter_definePropertyOn _ _ _ _ _ hnames1
      (fun p _ hp => by simp [hclosure p (Or.inl ⟨_, hp⟩)]) hdp1]
    rw [hps1, List.filter_map]
    rfl
  have hdefn : defn.filter (fun kv => ((!startsWithUnderscore kv.1 && refersTo h kv.2 c)
          && kv.1 != "getRelation") && kv.1 != "isRelatedTo")
      = ((propertyOrder Prod.fst dR.2).filterMap (visibleEntry bag)).filter
          (fun kv => ((!startsWithUnderscore kv.1 && refersTo h kv.2 c)
          && kv.1 != "getRelation") && kv.1 != "isRelatedTo") := by
    rw [← hvis, List.filter_filter]
    apply List.filter_congr
    intro kv _
    cases startsWithUnderscore kv.1 <;> simp
  -- step 3: the test of the spec on the declared names
  have hpoint : ∀ av ∈ propertyOrder Prod.fst dR.2, isBackReferenceName h r c av.1
      = match visibleEntry bag av with
        | some kv => ((!startsWithUnderscore kv.1 && refersTo h kv.2 c)
            && kv.1 != "getRelation") && kv.1 != "isRelatedTo"
        | none => false := by
    intro av hav
    unfold isBackReferenceName
    cases hu : startsWithUnderscore av.1 with
    | true =>
      have : visibleEntry bag av = none := by simp [visibleEntry, hu]
      simp [this]
    | false =>
      simp only [Bool.not_false, Bool.true_and]
      by_cases hk1 : av.1 = "isRelatedTo"
      · obtain ⟨p, hp1, hp2⟩ := find_definePropertyOn_self _ _ _ _ hdp1
        have hp3 : ownProp h r av.1 = some p := by
          rw [hown, hk1, find_definePropertyOn_other _ _ _ _ _ hdp2 (by decide)]
          exact hp1
        rw [hp3]
        simp only [hp2, refersTo]
        cases hve : visibleEntry bag av with
        | none => rfl
        | some kv =>
          have := visibleEntry_fst bag av kv hve
          simp [this, hk1]
      · by_cases hk2 : av.1 = "getRelation"
        · obtain ⟨p, hp1, hp2⟩ := find_definePropertyOn_self _ _ _ _ hdp2
          have hp3 : ownProp h r av.1 = some p := by
            rw [hown, hk2]
            exact hp1
          rw [hp3]
          simp only [hp2, refersTo]
          cases hve : visibleEntry bag av with
          | none => rfl
          | some kv =>
            have := visibleEntry_fst bag av kv hve
            simp [this, hk2]
        · have hp3 : ownProp h r av.1 = (defn.lookup av.1).map (fun v => assigned (av.1, v)) := by
            rw [hown, find_definePropertyOn_other _ _ _ _ _ hdp2 hk2,
              find_definePropertyOn_other _ _ _ _ _ hdp1 hk1, hps1, find_map_assigned]
          rw [hp3]
          cases hve : visibleEntry bag av with
          | some kv =>
            have hfst := visibleEntry_fst bag av kv hve
            have hmem : kv ∈ defn := by
              have : kv ∈ (propertyOrder Prod.fst dR.2).filterMap (visibleEntry bag) :=
                List.mem_filterMap.mpr ⟨av, hav, hve⟩
              rw [← hvis] at this
              exact List.mem_of_mem_filter this
            obtain ⟨k, s⟩ := kv
            simp only at hfst
            subst hfst
            rw [lookup_of_mem_nodup defn _ s hn hmem]
            have e1 : (av.1 != "getRelation") = true := by simpa using hk2
            have e2 : (av.1 != "isRelatedTo") = true := by simpa using hk1
            simp [assigned, hu, e1, e2]
          | none =>
            cases hlk : defn.lookup av.1 with
            | none => rfl
            | some s =>
              exfalso
              have hmem : (av.1, s) ∈ defn.filter (fun kv => !startsWithUnderscore kv.1) :=
                List.mem_filter.mpr ⟨lookup_mem _ _ _ hlk, by simp [hu]⟩
              rw [hvis] at hmem
              obtain ⟨av1, hav1, hve1⟩ := List.mem_filterMap.mp hmem
              have hfst := visibleEntry_fst bag av1 _ hve1
              simp only at hfst
              have h1 := hlook av1 hav1
              rw [← hfst, hlook av hav] at h1
              have : av1 = av := by
                obtain ⟨x1, y1⟩ := av1
                obtain ⟨x, y⟩ := av
                simp only at hfst h1
                simp only [Option.some.injEq] at h1
                rw [← hfst, ← h1]
              rw [this, hve] at hve1
              simp at hve1
  have hspec : ((propertyOrder Prod.fst dR.2).map Prod.fst).filter (isBackReferenceName h r c)
      = (((propertyOrder Prod.fst dR.2).filterMap (visibleEntry bag)).filter
          (fun kv => ((!startsWithUnderscore kv.1 && refersTo h kv.2 c)
          && kv.1 != "getRelation") && kv.1 != "isRelatedTo")).map Prod.fst := by
    rw [filterMap_filter_fst _ _ _ (visibleEntry_fst bag), List.filter_map]
    congr 1
    apply List.filter_congr
    intro av hav
    simp only [Function.comp]
    rw [hpoint av hav]
    cases visibleEntry bag av <;> rfl
  refine ⟨r, c, bag, by rw [hreg]; exact hla, by rw [hreg]; exact hlc, ?_, ?_⟩
  · rw [hstep1, find_eq_head_filter, filter_propertyOrder, henum, hps3, hdefn,
      propertyOrder_map_of_name Prod.fst OwnProp.name assigned (fun _ => rfl),
      ← filter_propertyOrder,
      propertyOrder_filterMap Prod.fst Prod.fst (visibleEntry bag)
        (fun av kv hkv => visibleEntry_fst bag av kv hkv)]
    unfold firstBackReference
    rw [find_eq_head_filter, hspec, List.head?_map, List.head?_map, Option.map_map]
    rfl
  · intro av hav hq
    rw [hpoint av ((hmem av).mpr hav)] at hq
    cases hve : visibleEntry bag av with
    | none => rw [hve] at hq; simp at hq
    | some kv => rfl

end EntitiesManager

namespace EntitiesManager

/-- C14, as stated, fails in two ways.  In the valid batch `R = { c: 'C' }`,
`C = { getKey: 'R' }` the slot `c` of the node of `R` is the node of `C`, so `c` is the first
attribute name the words of the spec accept; yet the back-reference search from
`R` to `C` returns no name: it fails, because the slot `getKey` of `C` hides the key
accessor the search calls.  And in the valid batch `R = { b: 'C', 1: 'C' }`, `C = {}` both
attributes are accepted and `b` is the first in declared order, yet the search
returns `1`: `Object.keys` lists the name `1`, an array index, before `b`. -/
theorem getRelatedThrough_fails_on_getKey_attribute :
    validBatch [("R", [("c", .str "C")]), ("C", [("getKey", .str "R")])]
    ∧ (∃ h, generateSchemas (.arr (descriptors
          [("R", [("c", .str "C")]), ("C", [("getKey", .str "R")])]))
          = (.ok [("R", 0), ("C", 1)], h)
        ∧ firstBackReference h ["c"] 0 1 = some "c"
        ∧ getRelatedThrough h (.schema 0) 1 = .error .typeError)
    ∧ validBatch [("R", [("b", .str "C"), ("1", .str "C")]), ("C", [])]
    ∧ (∃ h, generateSchemas (.arr (descriptors
          [("R", [("b", .str "C"), ("1", .str "C")]), ("C", [])]))
          = (.ok [("R", 0), ("C", 1)], h)
        ∧ firstBackReference h ["b", "1"] 0 1 = some "b"
        ∧ getRelatedThrough h (.schema 0) 1 = .ok (some "1")) :=
  ⟨validBatch_of_check _ (by decide), ⟨_, rfl, rfl, rfl⟩,
    validBatch_of_check _ (by decide), ⟨_, rfl, rfl, rfl⟩⟩

/-- C14 (amended): for every valid batch in which no attribute is named `getKey`, and
every two descriptors `R` and `C` of it (the attribute names of `R` distinct), the
back-reference search from the node of `R` to the node of `C` returns the first
attribute name of `R`, in the order in which `Object.keys` enumerates the
attributes of `R` (the names that are array indices in ascending order, then the
other names in declared order; the declared order when no attribute name of `R`
is an array index), that does not start with an underscore and whose slot on
the node of `R` is the node keyed like `C` or an array-of marker whose item node
is keyed like `C`; it returns none exactly when `R` has no such attribute; and a
name it returns does not start with an underscore and is not that of a
computed attribute. -/
theorem getRelatedThrough_first_back_reference
    (batch : List (String × List (String × Val)))
    (dR dC : String × List (String × Val)) (reg : List (String × Nat)) (h : Heap)
    (hv : validBatch batch) (hno : noAttributeNamed "getKey" batch)
    (hR : dR ∈ batch) (hC : dC ∈ batch) (hnd : (dR.2.map Prod.fst).Nodup)
    (hgen : generateSchemas (.arr (descriptors batch)) = (.ok reg, h)) :
    ∃ r c keys, reg.lookup dR.1 = some r ∧ reg.lookup dC.1 = some c
      ∧ ownKeys (.obj dR.2) = .ok keys
      ∧ keys = (propertyOrder Prod.fst dR.2).map Prod.fst
      ∧ ((∀ av ∈ dR.2, arrayIndex av.1 = none) → keys = dR.2.map Prod.fst)
      ∧ getRelatedThrough h (.schema r) c = .ok (firstBackReference h keys r c)
      ∧ (getRelatedThrough h (.schema r) c = .ok none
          ↔ ∀ a ∈ dR.2.map Prod.fst, isBackReferenceName h r c a = false)
      ∧ (∀ a, getRelatedThrough h (.schema r) c = .ok (some a) →
          startsWithUnderscore a = false ∧ ∀ id, (a, Val.func id) ∉ dR.2) := by
  obtain ⟨r, c, bag, h1, h2, h3, h4⟩ :=
    validBatch_backReference batch dR dC reg h hv hno hR hC hnd hgen
  refine ⟨r, c, _, h1, h2, ownKeys_obj dR.2, rfl,
    fun hidx => by rw [propertyOrder_eq_self Prod.fst dR.2 hidx], h3, ?_, ?_⟩
  · rw [h3]
    simp only [Except.ok.injEq, firstBackReference, List.find?_eq_none, Bool.not_eq_true]
    constructor
    · intro hall a ha
      obtain ⟨av, hav, rfl⟩ := List.mem_map.mp ha
      exact hall av.1 (List.mem_map.mpr ⟨av, (mem_propertyOrder Prod.fst dR.2 av).mpr hav, rfl⟩)
    · intro hall a ha
      obtain ⟨av, hav, rfl⟩ := List.mem_map.mp ha
      exact hall av.1 (List.mem_map.mpr ⟨av, (mem_propertyOrder Prod.fst dR.2 av).mp hav, rfl⟩)
  · intro a ha
    rw [h3] at ha
    simp only [Except.ok.injEq, firstBackReference] at ha
    have hq : isBackReferenceName h r c a = true := List.find?_some ha
    refine ⟨?_, ?_⟩
    · unfold isBackReferenceName at hq
      cases hu : startsWithUnderscore a with
      | false => rfl
      | true => rw [hu] at hq; simp at hq
    · intro id hmem
      have h5 := h4 (a, .func id) hmem hq
      simp [visibleEntry, isArrayReference] at h5

/-- Witness of the amended C14: the descriptors `A = { b: 'B' }`, `B = { as: hasMany(A) }` of the
spec, searched from `B` to `A`. -/
theorem getRelatedThrough_first_back_reference_witness :
    ∃ r c keys, [("A", 0), ("B", 1)].lookup "B" = some r
      ∧ [("A", 0), ("B", 1)].lookup "A" = some c
      ∧ ownKeys (.obj [("as", marker (.str "A"))]) = .ok keys
      ∧ keys = (propertyOrder Prod.fst [("as", marker (.str "A"))]).map Prod.fst
      ∧ ((∀ av ∈ [("as", marker (.str "A"))], arrayIndex av.1 = none) →
          keys = [("as", marker (.str "A"))].map Prod.fst)
      ∧ getRelatedThrough (generateSchemas (.arr (descriptors
          [("A", [("b", .str "B")]), ("B", [("as", marker (.str "A"))])]))).2 (.schema r) c
        = .ok (firstBackReference (generateSchemas (.arr (descriptors
          [("A", [("b", .str "B")]), ("B", [("as", marker (.str "A"))])]))).2 keys r c)
      ∧ (getRelatedThrough (generateSchemas (.arr (descriptors
          [("A", [("b", .str "B")]), ("B", [("as", marker (.str "A"))])]))).2 (.schema r) c
          = .ok none
          ↔ ∀ a ∈ [("as", marker (.str "A"))].map Prod.fst,
            isBackReferenceName (generateSchemas (.arr (descriptors
              [("A", [("b", .str "B")]), ("B", [("as", marker (.str "A"))])]))).2 r c a = false)
      ∧ (∀ a, getRelatedThrough (generateSchemas (.arr (descriptors
          [("A", [("b", .str "B")]), ("B", [("as", marker (.str "A"))])]))).2 (.schema r) c
          = .ok (some a) →
          startsWithUnderscore a = false
            ∧ ∀ id, (a, Val.func id) ∉ [("as", marker (.str "A"))]) :=
  getRelatedThrough_first_back_reference
    [("A", [("b", .str "B")]), ("B", [("as", marker (.str "A"))])]
    ("B", [("as", marker (.str "A"))]) ("A", [("b", .str "B")]) [("A", 0), ("B", 1)] _
    (validBatch_of_check _ (by decide))
    (by
      intro d hd
      simp only [List.mem_cons, List.mem_singleton, List.not_mem_nil, or_false] at hd
      rcases hd with rfl | rfl <;> decide)
    (by simp) (by simp) (by decide) rfl

end EntitiesManager

/-! ## Two generations of the same descriptors -/

namespace EntitiesManager

theorem validBatch_generates (batch : List (String × List (String × Val)))
    (hne : batch ≠ []) (hv : validBatch batch) :
    ∃ reg h, generateSchemas (.arr (descriptors batch)) = (.ok reg, h) := by
  obtain ⟨hnodup, hnames, hvalid⟩ := hv
  have hemp : isEmpty (.arr (descriptors batch)) = false := by
    cases batch with
    | nil => exact absurd rfl hne
    | cons d rest => rfl
  obtain ⟨bag, h0, e0, f0⟩ := buildBag_succeeds batch [] [] hnames
    (by intro k a hk; simp [List.lookup] at hk)
  obtain ⟨hcover, _⟩ := validBatch_bag batch bag h0 e0
  have hfresh : ∀ d ∈ batch, ∃ a node, bag.lookup d.1 = some a ∧ h0[a]? = some node
      ∧ node.props = [] := by
    intro d hd
    obtain ⟨a, ha⟩ := Option.isSome_iff_exists.mp (hcover d.1 (List.mem_map.mpr ⟨d, hd, rfl⟩))
    obtain ⟨node, hn, _, hp⟩ := f0 _ _ ha
    exact ⟨a, node, ha, hn, hp⟩
  obtain ⟨reg, h1, e1, _⟩ := generateAll_succeeds (batch.map Prod.fst) batch bag [] h0
    (bagOk_of_bagFresh _ _ f0) hcover hnodup hvalid hfresh (by intro d _; simp)
  refine ⟨reg, h1, ?_⟩
  simp only [generateSchemas, hemp, Bool.false_eq_true, if_false, e0]
  exact e1

theorem validBatch_perm (batch1 batch2 : List (String × List (String × Val)))
    (hp : batch1.Perm batch2) (hv : validBatch batch1) : validBatch batch2 := by
  obtain ⟨h1, h2, h3⟩ := hv
  have hpm : (batch1.map Prod.fst).Perm (batch2.map Prod.fst) := hp.map _
  refine ⟨hpm.nodup_iff.mp h1, fun n hn => h2 n (hpm.mem_iff.mpr hn), ?_⟩
  intro d hd av hav
  rcases h3 d (hp.mem_iff.mpr hd) av hav with ⟨id, h4⟩ | ⟨s, h4, h5⟩ | ⟨s, h4, h5⟩
  · exact Or.inl ⟨id, h4⟩
  · exact Or.inr (Or.inl ⟨s, h4, hpm.mem_iff.mp h5⟩)
  · exact Or.inr (Or.inr ⟨s, h4, hpm.mem_iff.mp h5⟩)

theorem forall2_setProp {α β : Type} (R : α → β → Prop) (l1 : List (String × α))
    (l2 : List (String × β)) (k : String) (v1 : α) (v2 : β)
    (h : List.Forall₂ (fun x y => x.1 = y.1 ∧ R x.2 y.2) l1 l2) (hv : R v1 v2) :
    List.Forall₂ (fun x y => x.1 = y.1 ∧ R x.2 y.2) (setProp l1 k v1) (setProp l2 k v2) := by
  induction h with
  | nil => exact List.Forall₂.cons ⟨rfl, hv⟩ List.Forall₂.nil
  | @cons x y t1 t2 hxy _ ih =>
    unfold setProp
    by_cases hk : x.1 = k
    · rw [if_pos hk, if_pos (hxy.1 ▸ hk)]
      exact List.Forall₂.cons ⟨rfl, hv⟩ (by assumption)
    · rw [if_neg hk, if_neg (hxy.1 ▸ hk)]
      exact List.Forall₂.cons hxy ih

theorem forall2_lookup {α β : Type} (R : α → β → Prop) (l1 : List (String × α))
    (l2 : List (String × β)) (k : String)
    (h : List.Forall₂ (fun x y => x.1 = y.1 ∧ R x.2 y.2) l1 l2) :
    (l1.lookup k = none ∧ l2.lookup k = none)
      ∨ ∃ v1 v2, l1.lookup k = some v1 ∧ l2.lookup k = some v2 ∧ R v1 v2 := by
  induction h with
  | nil => exact Or.inl ⟨rfl, rfl⟩
  | @cons x y t1 t2 hxy _ ih =>
    obtain ⟨x1, x2⟩ := x
    obtain ⟨y1, y2⟩ := y
    simp only at hxy
    obtain ⟨rfl, hr⟩ := hxy
    simp only [List.lookup]
    cases hk : (k == x1) with
    | true => exact Or.inr ⟨x2, y2, rfl, rfl, hr⟩
    | false => exact ih

theorem attributeStep_rel (names : List String) (bag1 bag2 : List (String × Nat))
    (h1 h2 : Heap) (ps : List (String × Val)) (a : String)
    (acc1 acc2 r1 r2 : List (String × Slot) × List RelatedEntity)
    (hv : ∀ v, ps.lookup a = some v → validAttribute names v)
    (hc : a = "_computed" → ∀ s, ps.lookup a ≠ some (.str s))
    (hcov1 : ∀ n ∈ names, (bag1.lookup n).isSome = true)
    (hcov2 : ∀ n ∈ names, (bag2.lookup n).isSome = true)
    (hacc : List.Forall₂ (EntryRel bag1 bag2) acc1.1 acc2.1) (hrel : acc1.2 = acc2.2)
    (hj : ∀ b, acc1.1.lookup "_computed" ≠ some (.schema b))
    (hs1 : attributeStep bag1 h1 (.obj ps) acc1 a = .ok r1)
    (hs2 : attributeStep bag2 h2 (.obj ps) acc2 a = .ok r2) :
    List.Forall₂ (EntryRel bag1 bag2) r1.1 r2.1 ∧ r1.2 = r2.2
      ∧ ∀ b, r1.1.lookup "_computed" ≠ some (.schema b) := by
  have hget : ∀ s, s ∈ names → ∃ b1 b2, bagGet bag1 (.str s) = .schema b1
      ∧ bagGet bag2 (.str s) = .schema b2 ∧ bag1.lookup s = some b1
      ∧ bag2.lookup s = some b2 := by
    intro s hs
    obtain ⟨b1, hb1⟩ := Option.isSome_iff_exists.mp (hcov1 s hs)
    obtain ⟨b2, hb2⟩ := Option.isSome_iff_exists.mp (hcov2 s hs)
    exact ⟨b1, b2, (bagGet_str _ _ _).mpr hb1, (bagGet_str _ _ _).mpr hb2, hb1, hb2⟩
  have hfunc : ∀ id, List.Forall₂ (EntryRel bag1 bag2)
        (setProp acc1.1 "_computed"
          (.record (setProp (spreadSlot h1 (acc1.1.lookup "_computed")) a (.fn id))))
        (setProp acc2.1 "_computed"
          (.record (setProp (spreadSlot h2 (acc2.1.lookup "_computed")) a (.fn id))))
      ∧ acc1.2 = acc2.2
      ∧ ∀ b, (setProp acc1.1 "_computed"
          (.record (setProp (spreadSlot h1 (acc1.1.lookup "_computed")) a
            (.fn id)))).lookup "_computed" ≠ some (.schema b) := by
    intro id
    have hspread : spreadSlot h1 (acc1.1.lookup "_computed")
        = spreadSlot h2 (acc2.1.lookup "_computed")
        ∧ ∀ kv ∈ spreadSlot h1 (acc1.1.lookup "_computed"), ∃ id, kv.2 = .fn id := by
      rcases forall2_lookup (SlotRel bag1 bag2) _ _ "_computed" hacc with ⟨e1, e2⟩
        | ⟨v1, v2, e1, e2, hr⟩
      · rw [e1, e2]
        exact ⟨rfl, by simp [spreadSlot]⟩
      · rw [e1, e2]
        cases hr with
        | schema k b1 b2 g1 g2 => exact absurd e1 (hj b1)
        | record fs hfs => exact ⟨rfl, hfs⟩
        | _ => exact ⟨rfl, by simp [spreadSlot]⟩
    refine ⟨?_, hrel, ?_⟩
    · apply forall2_setProp (SlotRel bag1 bag2) _ _ _ _ _ hacc
      rw [← hspread.1]
      apply SlotRel.record
      intro kv hkv
      rcases mem_setProp _ _ _ _ hkv with h3 | h3
      · exact hspread.2 kv h3
      · exact ⟨id, by rw [h3]⟩
    · intro b hb
      rw [lookup_setProp] at hb
      simp at hb
  unfold attributeStep at hs1 hs2
  simp only [getProp] at hs1 hs2
  cases hl : ps.lookup a with
  | none =>
    rw [hl] at hs1 hs2
    simp only [Option.getD_none] at hs1 hs2
    rcases inheritedMember_cases a with hm | ⟨id, hm⟩ | hm
    · rw [hm] at hs1 hs2
      simp only [List.lookup, Option.getD_none, inheritedMember_isArray, truthy,
        Bool.false_eq_true, if_false, Except.ok.injEq] at hs1 hs2
      subst hs1 hs2
      exact ⟨hacc, hrel, hj⟩
    · rw [hm] at hs1 hs2
      simp only [Except.ok.injEq] at hs1 hs2
      subst hs1 hs2
      exact hfunc id
    · rw [hm] at hs1
      simp at hs1
  | some v =>
    rw [hl] at hs1 hs2
    simp only [Option.getD_some] at hs1 hs2
    rcases hv v hl with ⟨id, rfl⟩ | ⟨s, rfl, hsn⟩ | ⟨s, rfl, hsn⟩
    · simp only [Except.ok.injEq] at hs1 hs2
      subst hs1 hs2
      exact hfunc id
    · have ha : a ≠ "_computed" := fun h3 => hc h3 s hl
      simp only [Except.ok.injEq] at hs1 hs2
      subst hs1 hs2
      obtain ⟨b1, b2, g1, g2, g3, g4⟩ := hget s hsn
      refine ⟨?_, by simp [hrel], ?_⟩
      · rw [g1, g2]
        exact forall2_setProp (SlotRel bag1 bag2) _ _ _ _ _ hacc (SlotRel.schema s b1 b2 g3 g4)
      · intro b hb
        rw [lookup_setProp, if_neg (fun h3 => ha h3.symm)] at hb
        exact hj b hb
    · obtain ⟨b1, b2, g1, g2, g3, g4⟩ := hget s hsn
      simp only [marker, getProp, List.lookup, truthy] at hs1 hs2
      simp only [show ("isArray" == "relatedSchema") = false from by decide,
        show ("isArray" == "isArray") = true from by decide,
        show ("relatedSchema" == "relatedSchema") = true from by decide,
        Option.getD_some, if_true, g1, g2, arrayOf, Except.ok.injEq] at hs1 hs2
      subst hs1 hs2
      refine ⟨?_, by simp [hrel], ?_⟩
      · exact forall2_setProp (SlotRel bag1 bag2) _ _ _ _ _ hacc
          (SlotRel.arrayOf s b1 b2 g3 g4)
      · intro b hb
        rw [lookup_setProp] at hb
        split at hb
        · simp at hb
        · exact hj b hb

theorem reduceAttributes_rel (names : List String) (bag1 bag2 : List (String × Nat))
    (h1 h2 : Heap) (ps : List (String × Val)) (keys : List String)
    (acc1 acc2 r1 r2 : List (String × Slot) × List RelatedEntity)
    (hv : ∀ a v, ps.lookup a = some v → validAttribute names v)
    (hc : ∀ s, ps.lookup "_computed" ≠ some (.str s))
    (hcov1 : ∀ n ∈ names, (bag1.lookup n).isSome = true)
    (hcov2 : ∀ n ∈ names, (bag2.lookup n).isSome = true)
    (hacc : List.Forall₂ (EntryRel bag1 bag2) acc1.1 acc2.1) (hrel : acc1.2 = acc2.2)
    (hj : ∀ b, acc1.1.lookup "_computed" ≠ some (.schema b))
    (hs1 : reduceAttributes bag1 h1 (.obj ps) keys acc1 = .ok r1)
    (hs2 : reduceAttributes bag2 h2 (.obj ps) keys acc2 = .ok r2) :
    List.Forall₂ (EntryRel bag1 bag2) r1.1 r2.1 ∧ r1.2 = r2.2 := by
  induction keys generalizing acc1 acc2 with
  | nil =>
    simp only [reduceAttributes, Except.ok.injEq] at hs1 hs2
    subst hs1 hs2
    exact ⟨hacc, hrel⟩
  | cons a rest ih =>
    unfold reduceAttributes at hs1 hs2
    split at hs1
    · simp at hs1
    · rename_i m1 e1
      split at hs2
      · simp at hs2
      · rename_i m2 e2
        obtain ⟨s1, s2, s3⟩ := attributeStep_rel names bag1 bag2 h1 h2 ps a acc1 acc2 m1 m2
          (hv a) (fun h3 => h3 ▸ hc) hcov1 hcov2 hacc hrel hj e1 e2
        exact ih m1 m2 s1 s2 s3 hs1 hs2

theorem forall2_map_assigned (bag1 bag2 : List (String × Nat)) (d1 d2 : List (String × Slot))
    (h : List.Forall₂ (EntryRel bag1 bag2) d1 d2) :
    List.Forall₂ (PropRel bag1 bag2) (d1.map assigned) (d2.map assigned) := by
  induction h with
  | nil => exact List.Forall₂.nil
  | @cons x y t1 t2 hxy _ ih =>
    exact List.Forall₂.cons ⟨hxy.1, rfl, rfl, rfl, hxy.2⟩ ih

theorem definePropertyOn_rel (bag1 bag2 : List (String × Nat)) (ps qs ps1 qs1 : List OwnProp)
    (k : String) (v w : Slot) (h : List.Forall₂ (PropRel bag1 bag2) ps qs)
    (hv : SlotRel bag1 bag2 v w)
    (e1 : definePropertyOn ps k v = .ok ps1) (e2 : definePropertyOn qs k w = .ok qs1) :
    List.Forall₂ (PropRel bag1 bag2) ps1 qs1 := by
  induction h generalizing ps1 qs1 with
  | nil =>
    simp only [definePropertyOn, Except.ok.injEq] at e1 e2
    subst e1 e2
    exact List.Forall₂.cons ⟨rfl, rfl, rfl, rfl, hv⟩ List.Forall₂.nil
  | @cons p q t1 t2 hxy ht ih =>
    obtain ⟨n1, n2, n3, n4, n5⟩ := hxy
    unfold definePropertyOn at e1 e2
    rw [← n1, ← n2, ← n3, ← n4] at e2
    by_cases hk : p.name = k
    · simp only [if_pos hk] at e1 e2
      by_cases hcfg : p.configurable = true
      · simp only [if_pos hcfg, Except.ok.injEq] at e1 e2
        subst e1 e2
        exact List.Forall₂.cons ⟨rfl, rfl, rfl, rfl, hv⟩ ht
      · simp only [if_neg hcfg] at e1 e2
        by_cases hen : p.enumerable = true
        · simp [if_pos hen] at e1
        · simp only [if_neg hen] at e1 e2
          by_cases hw : p.writable = true
          · simp only [if_pos hw, Except.ok.injEq] at e1 e2
            subst e1 e2
            exact List.Forall₂.cons ⟨rfl, rfl, rfl, rfl, hv⟩ ht
          · simp [if_neg hw] at e1
    · simp only [if_neg hk] at e1 e2
      split at e1
      · rename_i r1 g1
        split at e2
        · rename_i r2 g2
          simp only [Except.ok.injEq] at e1 e2
          subst e1 e2
          exact List.Forall₂.cons ⟨n1, n2, n3, n4, n5⟩ (ih _ _ g1 g2)
        · simp at e2
      · simp at e1

theorem find_rel (bag1 bag2 : List (String × Nat)) (ps qs : List OwnProp) (k : String)
    (h : List.Forall₂ (PropRel bag1 bag2) ps qs) :
    (ps.find? (fun p => p.name == k) = none ∧ qs.find? (fun p => p.name == k) = none)
      ∨ ∃ p q, ps.find? (fun p => p.name == k) = some p
          ∧ qs.find? (fun p => p.name == k) = some q ∧ PropRel bag1 bag2 p q := by
  induction h with
  | nil => exact Or.inl ⟨rfl, rfl⟩
  | @cons p q t1 t2 hxy _ ih =>
    simp only [List.find?_cons, ← hxy.1]
    cases hk : (p.name == k) with
    | true => exact Or.inr ⟨p, q, rfl, rfl, hxy⟩
    | false => exact ih

theorem forall2_filter_enumerable (bag1 bag2 : List (String × Nat)) (ps qs : List OwnProp)
    (h : List.Forall₂ (PropRel bag1 bag2) ps qs) :
    List.Forall₂ (PropRel bag1 bag2) (ps.filter (fun p => p.enumerable))
      (qs.filter (fun p => p.enumerable)) := by
  induction h with
  | nil => exact List.Forall₂.nil
  | @cons p q t1 t2 hxy _ ih =>
    simp only [List.filter_cons, ← hxy.2.1]
    cases hk : p.enumerable with
    | true => exact List.Forall₂.cons hxy ih
    | false => exact ih

end EntitiesManager

namespace EntitiesManager

/-- The nodes of a valid batch and of a permutation of it correspond, when no string
attribute is named `_computed`. -/
theorem validBatch_nodesRel (batch1 batch2 : List (String × List (String × Val)))
    (hperm : batch1.Perm batch2) (hv : validBatch batch1)
    (hc : ∀ d ∈ batch1, ∀ s, ("_computed", Val.str s) ∉ d.2)
    (bag1 reg1 : List (String × Nat)) (h01 h1 : Heap)
    (hb1 : buildBag (descriptors batch1) [] [] = (.ok bag1, h01))
    (hall1 : generateAll (descriptors batch1) bag1 [] h01 = (.ok reg1, h1))
    (hfresh1 : BagFresh bag1 h01)
    (bag2 reg2 : List (String × Nat)) (h02 h2 : Heap)
    (hb2 : buildBag (descriptors batch2) [] [] = (.ok bag2, h02))
    (hall2 : generateAll (descriptors batch2) bag2 [] h02 = (.ok reg2, h2))
    (hfresh2 : BagFresh bag2 h02) :
    NodesRel bag1 bag2 h1 h2 := by
  have hv2 := validBatch_perm batch1 batch2 hperm hv
  obtain ⟨hcov1, hkeys1⟩ := validBatch_bag batch1 bag1 h01 hb1
  obtain ⟨hcov2, _⟩ := validBatch_bag batch2 bag2 h02 hb2
  have hpm : (batch1.map Prod.fst).Perm (batch2.map Prod.fst) := hperm.map _
  intro k b1 b2 hk1 hk2
  obtain ⟨d, hd, hdk⟩ := List.mem_map.mp (hkeys1 k b1 hk1)
  obtain ⟨a1, defn1, rel1, hd1, ps1, ps2, ps3, hla1, hred1, hassign1, hdp11, hdp12, hfinal1⟩ :=
    validBatch_node batch1 bag1 reg1 h01 h1 hv hall1 hfresh1 d hd
  obtain ⟨a2, defn2, rel2, hd2, qs1, qs2, qs3, hla2, hred2, hassign2, hdp21, hdp22, hfinal2⟩ :=
    validBatch_node batch2 bag2 reg2 h02 h2 hv2 hall2 hfresh2 d (hperm.mem_iff.mp hd)
  rw [hdk] at hla1 hla2
  rw [hk1] at hla1
  rw [hk2] at hla2
  simp only [Option.some.injEq] at hla1 hla2
  subst hla1 hla2
  obtain ⟨r1, r2⟩ := reduceAttributes_rel (batch1.map Prod.fst) bag1 bag2 hd1 hd2 d.2 _
    ([], []) ([], []) (defn1, rel1) (defn2, rel2)
    (fun x v hxv => hv.2.2 d hd (x, v) (lookup_mem _ _ _ hxv))
    (fun s hs => hc d hd s (lookup_mem _ _ _ hs))
    hcov1 (fun n hn => hcov2 n (hpm.mem_iff.mp hn))
    List.Forall₂.nil rfl (fun b hb => by simp [List.lookup] at hb) hred1 hred2
  simp only at r1 r2
  subst r2
  have hps : ∀ (bag : List (String × Nat)) (hh : Heap) (defn : List (String × Slot))
      (rel : List RelatedEntity) (ps : List OwnProp),
      reduceAttributes bag hh (.obj d.2) (propertyOrder id (d.2.map Prod.fst)) ([], [])
        = .ok (defn, rel) →
      assignAll [] defn = (.ok (), ps) → ps = defn.map assigned := by
    intro bag hh defn rel ps hred hassign
    have hn : (defn.map Prod.fst).Nodup :=
      reduceAttributes_nodup bag hh _ _ ([], []) (defn, rel) List.nodup_nil hred
    have h3 := assignAll_fresh [] defn hn (fun k _ hk => absurd hk (List.not_mem_nil _))
    rw [h3] at hassign
    simp only [List.nil_append, Prod.mk.injEq, true_and] at hassign
    exact hassign.symm
  have e1 := hps bag1 hd1 defn1 rel1 ps1 hred1 hassign1
  have e2 := hps bag2 hd2 defn2 rel1 qs1 hred2 hassign2
  subst e1 e2
  have f1 := definePropertyOn_rel bag1 bag2 _ _ _ _ _ _ _ (forall2_map_assigned bag1 bag2 _ _ r1)
    (SlotRel.isRelatedTo rel1) hdp11 hdp21
  have f2 := definePropertyOn_rel bag1 bag2 _ _ _ _ _ _ _ f1
    (SlotRel.getRelation k b1 b2 rel1 hk1 hk2) hdp12 hdp22
  exact ⟨_, _, hfinal1, hfinal2, hdk, hdk, f2⟩

theorem truthy_rel (bag1 bag2 : List (String × Nat)) (v w : Slot)
    (h : SlotRel bag1 bag2 v w) : v.truthy = w.truthy := by
  cases h <;> rfl

theorem ownProp_rel (bag1 bag2 : List (String × Nat)) (h1 h2 : Heap)
    (hN : NodesRel bag1 bag2 h1 h2) (k : String) (b1 b2 : Nat)
    (hk1 : bag1.lookup k = some b1) (hk2 : bag2.lookup k = some b2) (name : String) :
    (ownProp h1 b1 name = none ∧ ownProp h2 b2 name = none)
      ∨ ∃ p q, ownProp h1 b1 name = some p ∧ ownProp h2 b2 name = some q
          ∧ PropRel bag1 bag2 p q := by
  obtain ⟨n1, n2, g1, g2, _, _, g5⟩ := hN k b1 b2 hk1 hk2
  simp only [ownProp, g1, g2, Option.some_bind]
  exact find_rel bag1 bag2 _ _ name g5

theorem getKey_rel (bag1 bag2 : List (String × Nat)) (h1 h2 : Heap)
    (hN : NodesRel bag1 bag2 h1 h2) (k : String) (b1 b2 : Nat)
    (hk1 : bag1.lookup k = some b1) (hk2 : bag2.lookup k = some b2) :
    getKey h1 b1 = getKey h2 b2 := by
  obtain ⟨n1, n2, g1, g2, g3, g4, g5⟩ := hN k b1 b2 hk1 hk2
  unfold getKey
  rw [g1, g2]
  simp only
  rcases find_rel bag1 bag2 _ _ "getKey" g5 with ⟨e1, e2⟩ | ⟨p, q, e1, e2, _⟩
  · rw [e1, e2, g3, g4]
  · rw [e1, e2]

theorem sameKey_rel (bag1 bag2 : List (String × Nat)) (h1 h2 : Heap)
    (hN : NodesRel bag1 bag2 h1 h2) (kb kc : String) (b1 b2 c1 c2 : Nat)
    (hb1 : bag1.lookup kb = some b1) (hb2 : bag2.lookup kb = some b2)
    (hc1 : bag1.lookup kc = some c1) (hc2 : bag2.lookup kc = some c2) :
    sameKey h1 b1 c1 = sameKey h2 b2 c2 := by
  unfold sameKey
  rw [getKey_rel bag1 bag2 h1 h2 hN kb b1 b2 hb1 hb2,
    getKey_rel bag1 bag2 h1 h2 hN kc c1 c2 hc1 hc2]

theorem isBackReference_rel (bag1 bag2 : List (String × Nat)) (h1 h2 : Heap)
    (hN : NodesRel bag1 bag2 h1 h2) (kc : String) (c1 c2 : Nat)
    (hc1 : bag1.lookup kc = some c1) (hc2 : bag2.lookup kc = some c2)
    (p q : OwnProp) (hpq : PropRel bag1 bag2 p q) :
    isBackReference h1 c1 p = isBackReference h2 c2 q := by
  obtain ⟨pn, pv, pe, pw, pc⟩ := p
  obtain ⟨qn, qv, qe, qw, qc⟩ := q
  obtain ⟨hn, _, _, _, hval⟩ := hpq
  simp only at hn hval
  subst hn
  unfold isBackReference
  simp only
  split
  · rfl
  · cases hval with
    | schema k b1 b2 g1 g2 =>
      simp only
      rcases ownProp_rel bag1 bag2 h1 h2 hN k b1 b2 g1 g2 "getKey" with ⟨e1, e2⟩
        | ⟨x, y, e1, e2, hxy⟩
      · rw [e1, e2]
        exact sameKey_rel bag1 bag2 h1 h2 hN k kc b1 b2 c1 c2 g1 g2 hc1 hc2
      · rw [e1, e2]
        simp only [truthy_rel bag1 bag2 _ _ hxy.2.2.2.2]
        rcases ownProp_rel bag1 bag2 h1 h2 hN k b1 b2 g1 g2 "getItemSchema" with ⟨e3, e4⟩
          | ⟨x1, y1, e3, e4, hxy1⟩
        · rw [e3, e4]
        · rw [e3, e4]
          simp only [truthy_rel bag1 bag2 _ _ hxy1.2.2.2.2]
    | arrayOf k b1 b2 g1 g2 =>
      exact sameKey_rel bag1 bag2 h1 h2 hN k kc b1 b2 c1 c2 g1 g2 hc1 hc2
    | _ => rfl

theorem findBackReference_rel (bag1 bag2 : List (String × Nat)) (h1 h2 : Heap)
    (hN : NodesRel bag1 bag2 h1 h2) (kc : String) (c1 c2 : Nat)
    (hc1 : bag1.lookup kc = some c1) (hc2 : bag2.lookup kc = some c2)
    (ps qs : List OwnProp) (h : List.Forall₂ (PropRel bag1 bag2) ps qs) :
    findBackReference h1 c1 ps = findBackReference h2 c2 qs := by
  induction h with
  | nil => rfl
  | @cons p q t1 t2 hpq _ ih =>
    unfold findBackReference
    rw [isBackReference_rel bag1 bag2 h1 h2 hN kc c1 c2 hc1 hc2 p q hpq, ih, hpq.1]

theorem getRelatedThrough_rel (bag1 bag2 : List (String × Nat)) (h1 h2 : Heap)
    (hN : NodesRel bag1 bag2 h1 h2) (kc : String) (c1 c2 : Nat)
    (hc1 : bag1.lookup kc = some c1) (hc2 : bag2.lookup kc = some c2) (m : String)
    (hm : (bag1.lookup m).isSome = (bag2.lookup m).isSome) :
    getRelatedThrough h1 (bagGet bag1 (.str m)) c1
      = getRelatedThrough h2 (bagGet bag2 (.str m)) c2 := by
  cases e1 : bag1.lookup m with
  | none =>
    rw [e1] at hm
    cases e2 : bag2.lookup m with
    | none => simp only [bagGet, propertyKey, e1, e2]; split <;> rfl
    | some r2 => rw [e2] at hm; simp at hm
  | some r1 =>
    rw [e1] at hm
    cases e2 : bag2.lookup m with
    | none => rw [e2] at hm; simp at hm
    | some r2 =>
      obtain ⟨n1, n2, g1, g2, _, _, g5⟩ := hN m r1 r2 e1 e2
      rw [(bagGet_str _ _ _).mpr e1, (bagGet_str _ _ _).mpr e2]
      unfold getRelatedThrough enumerableProps
      simp only [g1, g2]
      exact findBackReference_rel bag1 bag2 h1 h2 hN kc c1 c2 hc1 hc2 _ _
        (forall2_propertyOrder _ _ _ (fun x y hxy => hxy.1) _ _
          (forall2_filter_enumerable bag1 bag2 _ _ g5))

theorem callIsRelatedTo_rel (bag1 bag2 : List (String × Nat)) (h1 h2 : Heap)
    (hN : NodesRel bag1 bag2 h1 h2) (k : String) (a1 a2 : Nat)
    (hk1 : bag1.lookup k = some a1) (hk2 : bag2.lookup k = some a2) (m : String) :
    callIsRelatedTo h1 a1 m = callIsRelatedTo h2 a2 m := by
  unfold callIsRelatedTo
  rcases ownProp_rel bag1 bag2 h1 h2 hN k a1 a2 hk1 hk2 "isRelatedTo" with ⟨e1, e2⟩
    | ⟨p, q, e1, e2, hpq⟩
  · rw [e1, e2]
  · rw [e1, e2]
    obtain ⟨pn, pv, pe, pw, pc⟩ := p
    obtain ⟨qn, qv, qe, qw, qc⟩ := q
    obtain ⟨_, _, _, _, hval⟩ := hpq
    simp only at hval ⊢
    cases hval <;> rfl

theorem callGetRelation_rel (bag1 bag2 : List (String × Nat)) (h1 h2 : Heap)
    (hN : NodesRel bag1 bag2 h1 h2)
    (hsame : ∀ m, (bag1.lookup m).isSome = (bag2.lookup m).isSome)
    (k : String) (a1 a2 : Nat)
    (hk1 : bag1.lookup k = some a1) (hk2 : bag2.lookup k = some a2) (e : Val) (m : String) :
    callGetRelation h1 a1 e m = callGetRelation h2 a2 e m := by
  unfold callGetRelation
  rcases ownProp_rel bag1 bag2 h1 h2 hN k a1 a2 hk1 hk2 "getRelation" with ⟨e1, e2⟩
    | ⟨p, q, e1, e2, hpq⟩
  · rw [e1, e2]
  · rw [e1, e2]
    obtain ⟨pn, pv, pe, pw, pc⟩ := p
    obtain ⟨qn, qv, qe, qw, qc⟩ := q
    obtain ⟨_, _, _, _, hval⟩ := hpq
    simp only at hval ⊢
    cases hval with
    | getRelation k1 c1 c2 rel g1 g2 =>
      simp only [getRelation]
      rw [getRelatedThrough_rel bag1 bag2 h1 h2 hN k1 c1 c2 g1 g2 m (hsame m)]
    | _ => rfl

theorem describeEntries_fns (h1 h2 : Heap) (fs : List (String × Slot))
    (hfs : ∀ kv ∈ fs, ∃ id, kv.2 = .fn id) : describeEntries h1 fs = describeEntries h2 fs := by
  induction fs with
  | nil => rfl
  | cons kv rest ih =>
    obtain ⟨k, v⟩ := kv
    obtain ⟨id, hid⟩ := hfs (k, v) (List.mem_cons_self _ _)
    simp only at hid
    subst hid
    simp only [describeEntries, describe]
    rw [ih (fun x hx => hfs x (List.mem_cons_of_mem _ hx))]

theorem describe_rel (bag1 bag2 : List (String × Nat)) (h1 h2 : Heap)
    (hN : NodesRel bag1 bag2 h1 h2) (v w : Slot) (h : SlotRel bag1 bag2 v w) :
    describe h1 v = describe h2 w := by
  cases h with
  | schema k b1 b2 g1 g2 =>
    obtain ⟨n1, n2, e1, e2, e3, e4, _⟩ := hN k b1 b2 g1 g2
    simp only [describe, e1, e2, Option.map_some', e3, e4]
  | arrayOf k b1 b2 g1 g2 =>
    obtain ⟨n1, n2, e1, e2, e3, e4, _⟩ := hN k b1 b2 g1 g2
    simp only [describe, e1, e2, Option.map_some', e3, e4]
  | record fs hfs =>
    simp only [describe]
    rw [describeEntries_fns h1 h2 fs hfs]
  | _ => simp only [describe]

theorem describeProps_rel (bag1 bag2 : List (String × Nat)) (h1 h2 : Heap)
    (hN : NodesRel bag1 bag2 h1 h2) (ps qs : List OwnProp)
    (h : List.Forall₂ (PropRel bag1 bag2) ps qs) :
    ps.map (describeProp h1) = qs.map (describeProp h2) := by
  induction h with
  | nil => rfl
  | @cons p q t1 t2 hpq _ ih =>
    obtain ⟨n1, n2, n3, n4, n5⟩ := hpq
    simp only [List.map_cons, ih, describeProp, n1, n2, n3, n4,
      describe_rel bag1 bag2 h1 h2 hN _ _ n5]

theorem describeNode_rel (bag1 bag2 : List (String × Nat)) (h1 h2 : Heap)
    (hN : NodesRel bag1 bag2 h1 h2) (k : String) (a1 a2 : Nat)
    (hk1 : bag1.lookup k = some a1) (hk2 : bag2.lookup k = some a2) :
    describeNode h1 a1 = describeNode h2 a2 := by
  obtain ⟨n1, n2, e1, e2, e3, e4, e5⟩ := hN k a1 a2 hk1 hk2
  simp only [describeNode, e1, e2, Option.map_some', e3, e4,
    describeProps_rel bag1 bag2 h1 h2 hN _ _ e5]

end EntitiesManager

/-! ## C11: the order of the descriptors -/

namespace EntitiesManager

/-- C11, counterexample: the valid batch `B = { x: 'D' }`, `D = { _computed: 'B', f: <function 7> }` and
the same descriptors in the other order.  The function attribute `f` spreads the
slot `_computed`, which holds the node of `B`: the copy has the slot `x` when `B` was
generated before `D` and has nothing when it was not yet, so the two nodes of
`D` have different nested definitions. -/
theorem generateSchemas_order_dependent :
    validBatch [("B", [("x", .str "D")]), ("D", [("_computed", .str "B"), ("f", .func 7)])]
    ∧ List.Perm [("B", [("x", Val.str "D")]), ("D", [("_computed", .str "B"), ("f", .func 7)])]
        [("D", [("_computed", .str "B"), ("f", .func 7)]), ("B", [("x", .str "D")])]
    ∧ ∃ h1 h2,
        generateSchemas (.arr (descriptors
          [("B", [("x", .str "D")]), ("D", [("_computed", .str "B"), ("f", .func 7)])]))
          = (.ok [("B", 0), ("D", 1)], h1)
        ∧ generateSchemas (.arr (descriptors
          [("D", [("_computed", .str "B"), ("f", .func 7)]), ("B", [("x", .str "D")])]))
          = (.ok [("D", 0), ("B", 1)], h2)
        ∧ (ownProp h1 1 "_computed").map (fun p => describe h1 p.value)
          = some (.record [("x", .node (some "D")), ("f", .fn 7)])
        ∧ (ownProp h2 0 "_computed").map (fun p => describe h2 p.value)
          = some (.record [("f", .fn 7)])
        ∧ describeNode h1 1 ≠ describeNode h2 0 := by
  refine ⟨validBatch_of_check _ (by decide), List.Perm.swap _ _ _,
    (generateSchemas (.arr (descriptors
      [("B", [("x", .str "D")]), ("D", [("_computed", .str "B"), ("f", .func 7)])]))).2,
    (generateSchemas (.arr (descriptors
      [("D", [("_computed", .str "B"), ("f", .func 7)]), ("B", [("x", .str "D")])]))).2,
    rfl, rfl, rfl, rfl, ?_⟩
  intro h
  have e1 : describeNode (generateSchemas (.arr (descriptors
      [("B", [("x", .str "D")]), ("D", [("_computed", .str "B"), ("f", .func 7)])]))).2 1
      = some ("D", [("_computed", .record [("x", .node (some "D")), ("f", .fn 7)],
          true, true, true),
        ("isRelatedTo", .isRelatedTo, false, false, false),
        ("getRelation", .getRelation, false, false, false)]) := rfl
  have e2 : describeNode (generateSchemas (.arr (descriptors
      [("D", [("_computed", .str "B"), ("f", .func 7)]), ("B", [("x", .str "D")])]))).2 0
      = some ("D", [("_computed", .record [("f", .fn 7)], true, true, true),
        ("isRelatedTo", .isRelatedTo, false, false, false),
        ("getRelation", .getRelation, false, false, false)]) := rfl
  rw [e1, e2] at h
  simp at h

/-- C11 (amended): for every non-empty valid batch of descriptors with pairwise
distinct names in which no string attribute is named `_computed`, and for every
permutation of that batch, both lists are generated and the two registries are
structurally equivalent: they register the same names, and for each name the
two nodes have the same nested definition (the same own properties in the same
order, every node named by its key), give the same `isRelatedTo` answer for every
name, and the same `getRelation` result for every entity and every name. -/
theorem generateSchemas_order_independent
    (batch1 batch2 : List (String × List (String × Val)))
    (hperm : batch1.Perm batch2) (hne : batch1 ≠ []) (hv : validBatch batch1)
    (hc : ∀ d ∈ batch1, ∀ s, ("_computed", Val.str s) ∉ d.2) :
    ∃ reg1 h1 reg2 h2,
      generateSchemas (.arr (descriptors batch1)) = (.ok reg1, h1)
      ∧ generateSchemas (.arr (descriptors batch2)) = (.ok reg2, h2)
      ∧ (∀ n, (reg1.lookup n).isSome = (reg2.lookup n).isSome)
      ∧ (∀ n ∈ batch1.map Prod.fst, ∃ a1 a2, reg1.lookup n = some a1 ∧ reg2.lookup n = some a2
          ∧ describeNode h1 a1 = describeNode h2 a2
          ∧ (∀ m, callIsRelatedTo h1 a1 m = callIsRelatedTo h2 a2 m)
          ∧ (∀ e m, callGetRelation h1 a1 e m = callGetRelation h2 a2 e m)) := by
  have hv2 := validBatch_perm batch1 batch2 hperm hv
  have hne2 : batch2 ≠ [] := by
    intro h2
    rw [h2] at hperm
    exact hne hperm.eq_nil
  obtain ⟨reg1, h1, hg1⟩ := validBatch_generates batch1 hne hv
  obtain ⟨reg2, h2, hg2⟩ := validBatch_generates batch2 hne2 hv2
  obtain ⟨bag1, h01, hb1, hall1, hfresh1, _, hreg1⟩ := generateSchemas_ok _ _ _ hg1
  obtain ⟨bag2, h02, hb2, hall2, hfresh2, _, hreg2⟩ := generateSchemas_ok _ _ _ hg2
  obtain ⟨hcov1, hkeys1⟩ := validBatch_bag batch1 bag1 h01 hb1
  obtain ⟨hcov2, hkeys2⟩ := validBatch_bag batch2 bag2 h02 hb2
  have hpm : (batch1.map Prod.fst).Perm (batch2.map Prod.fst) := hperm.map _
  have hN := validBatch_nodesRel batch1 batch2 hperm hv hc bag1 reg1 h01 h1 hb1 hall1 hfresh1
    bag2 reg2 h02 h2 hb2 hall2 hfresh2
  have hsame : ∀ m, (bag1.lookup m).isSome = (bag2.lookup m).isSome := by
    intro m
    cases e1 : bag1.lookup m with
    | some b1 =>
      rw [hcov2 m (hpm.mem_iff.mp (hkeys1 m b1 e1))]
      rfl
    | none =>
      cases e2 : bag2.lookup m with
      | none => rfl
      | some b2 =>
        have := hcov1 m (hpm.mem_iff.mpr (hkeys2 m b2 e2))
        rw [e1] at this
        simp at this
  refine ⟨reg1, h1, reg2, h2, hg1, hg2, ?_, ?_⟩
  · intro n
    rw [hreg1, hreg2]
    exact hsame n
  · intro n hn
    obtain ⟨a1, ha1⟩ := Option.isSome_iff_exists.mp (hcov1 n hn)
    obtain ⟨a2, ha2⟩ := Option.isSome_iff_exists.mp (hcov2 n (hpm.mem_iff.mp hn))
    exact ⟨a1, a2, by rw [hreg1]; exact ha1, by rw [hreg2]; exact ha2,
      describeNode_rel bag1 bag2 h1 h2 hN n a1 a2 ha1 ha2,
      fun m => callIsRelatedTo_rel bag1 bag2 h1 h2 hN n a1 a2 ha1 ha2 m,
      fun e m => callGetRelation_rel bag1 bag2 h1 h2 hN hsame n a1 a2 ha1 ha2 e m⟩

/-- Witness of the amended C11: the descriptors `A = { b: 'B' }`, `B = { as: hasMany(A) }` of the
spec and the same descriptors in the other order. -/
theorem generateSchemas_order_independent_witness :
    ∃ reg1 h1 reg2 h2,
      generateSchemas (.arr (descriptors
        [("A", [("b", .str "B")]), ("B", [("as", marker (.str "A"))])])) = (.ok reg1, h1)
      ∧ generateSchemas (.arr (descriptors
        [("B", [("as", marker (.str "A"))]), ("A", [("b", .str "B")])])) = (.ok reg2, h2)
      ∧ (∀ n, (reg1.lookup n).isSome = (reg2.lookup n).isSome)
      ∧ (∀ n ∈ [("A", [("b", Val.str "B")]), ("B", [("as", marker (.str "A"))])].map Prod.fst,
          ∃ a1 a2, reg1.lookup n = some a1 ∧ reg2.lookup n = some a2
          ∧ describeNode h1 a1 = describeNode h2 a2
          ∧ (∀ m, callIsRelatedTo h1 a1 m = callIsRelatedTo h2 a2 m)
          ∧ (∀ e m, callGetRelation h1 a1 e m = callGetRelation h2 a2 e m)) :=
  generateSchemas_order_independent
    [("A", [("b", .str "B")]), ("B", [("as", marker (.str "A"))])]
    [("B", [("as", marker (.str "A"))]), ("A", [("b", .str "B")])]
    (List.Perm.swap _ _ _) (by simp) (validBatch_of_check _ (by decide))
    (by
      intro d hd s hmem
      simp only [List.mem_cons, List.mem_singleton, List.not_mem_nil, or_false] at hd
      rcases hd with rfl | rfl <;> simp [marker] at hmem)

end EntitiesManager
